import Mathlib

/-!
# SiteSense scan orchestration

A shallow embedding of `apps/api/index.js`: the score helpers (calculateOverallScore,
processUxResults, processSecurityResults) and the orchestration task of a scan, followed by
the properties proved of them.

Modelling conventions.
* Scores and counts are integers (`Int`, `Nat`); on integers of the size of a score the
  floating-point sum and quotient of the source are exact, so `Math.round (s / n)` is the
  rational quotient rounded with `mathRound`.
* A property that may be `null`/`undefined` is an `Option`; `a || d` is modelled by `jsOr`
  (strings: absent or empty is falsy) and `jsOrNat`/`jsOrInt` (numbers: absent or zero is falsy).
* `String.prototype.toLowerCase` is a built-in of the host language and is taken as a
  parameter `toLowerCase : String → String`.
* A function that can throw returns `Except String _`, the error carrying the message; a call
  of an adapter returns `Except Rejection _`, since a promise can reject with any value.
* The plain object `violationsByType` is modelled with the two features of the language that
  its use as a dictionary meets: property reads follow the prototype chain, and enumeration
  lists array-index keys before the others.
* The task of a scan is a transition function on the record and the point reached; what runs
  between two `await`s is one transition.
-/

namespace SiteSense

/-! ## JavaScript primitives -/

/-- Math.round: the nearest integer, a tie going to the larger one. -/
def mathRound (x : ℚ) : Int := ⌊x + 1 / 2⌋

/-- The expression `s || d` for a string-valued property: absent and empty are falsy. -/
def jsOr (s : Option String) (d : String) : String :=
  match s with
  | some v => if v = "" then d else v
  | none => d

/-- The expression `n || d` for a count: absent and zero are falsy. -/
def jsOrNat (n : Option Nat) (d : Nat) : Nat :=
  match n with
  | some v => if v = 0 then d else v
  | none => d

/-- The expression `n || d` for an integer-valued property: absent and zero are falsy. -/
def jsOrInt (n : Option Int) (d : Int) : Int :=
  match n with
  | some v => if v = 0 then d else v
  | none => d

/-! ## Overall score (index.js, lines 30-34) -/

/-- The function calculateOverallScore: the scores that are neither null nor undefined are
kept, an empty selection gives 0, otherwise the rounded quotient of sum and count. -/
def calculateOverallScore (performance seo ux security : Option Int) : Int :=
  let scores := [performance, seo, ux, security].filterMap id
  if scores.length = 0 then 0
  else mathRound (((scores.foldl (fun sum score => sum + score) 0 : Int) : ℚ) / (scores.length : ℚ))

/-! ## Security results (index.js, lines 118-182) -/

/-- The object summary.riskDistribution: a count per severity, each possibly missing. -/
structure RiskDistribution where
  high : Option Nat
  medium : Option Nat
  low : Option Nat
  informational : Option Nat
deriving DecidableEq, Repr

/-- An entry of summary.topVulnerabilities. -/
structure TopVulnerability where
  title : String
  risk : Option String
  description : Option String
  occurrences : Option Nat
  impact : Option Int
  effort : Option String
deriving DecidableEq, Repr

/-- An entry of a website's issues list. -/
structure SiteIssue where
  title : String
  risk : Option String
  description : Option String
  impact : Option Int
  effort : Option String
deriving DecidableEq, Repr

/-- An entry of the websites list. -/
structure Website where
  issues : Option (List SiteIssue)
deriving DecidableEq, Repr

/-- The object securityResults.summary. -/
structure SecuritySummary where
  riskDistribution : Option RiskDistribution
  topVulnerabilities : Option (List TopVulnerability)
deriving DecidableEq, Repr

/-- The output of the security adapter. -/
structure SecurityResults where
  summary : Option SecuritySummary
  websites : Option (List Website)
deriving DecidableEq, Repr

/-- An entry of the vulnerabilities list that processSecurityResults builds. -/
structure Vulnerability where
  title : String
  severity : String
  description : String
  count : Nat
  impact : Int
  effort : String
deriving DecidableEq, Repr

/-- The value processSecurityResults returns. -/
structure SecurityProcessed where
  score : Int
  vulnerabilities : List Vulnerability
deriving DecidableEq, Repr

/-- The expression `risk?.toLowerCase() || "medium"`. -/
def severityOf (toLowerCase : String → String) (risk : Option String) : String :=
  jsOr (risk.map toLowerCase) "medium"

/-- Lines 129-135: the deductions from 100, rounded and clamped to the range 0-100. -/
def securityScore (risks : RiskDistribution) : Int :=
  let score : Int := 100
  let score := score - ((jsOrNat risks.high 0 : Nat) : Int) * 15
  let score := score - ((jsOrNat risks.medium 0 : Nat) : Int) * 5
  let score := score - ((jsOrNat risks.low 0 : Nat) : Int) * 2
  max 0 (min 100 (mathRound (score : ℚ)))

/-- Lines 146-153: the object pushed for an entry of topVulnerabilities. -/
def mapTopVulnerability (toLowerCase : String → String) (vuln : TopVulnerability) :
    Vulnerability :=
  { title := vuln.title
    severity := severityOf toLowerCase vuln.risk
    description := vuln.title
    count := jsOrNat vuln.occurrences 1
    impact := jsOrInt vuln.impact 5
    effort := jsOr vuln.effort "Medium" }

/-- Lines 165-172: the object pushed for an entry of a website's issues. -/
def mapSiteIssue (toLowerCase : String → String) (issue : SiteIssue) : Vulnerability :=
  { title := issue.title
    severity := severityOf toLowerCase issue.risk
    description := jsOr issue.description issue.title
    count := 1
    impact := jsOrInt issue.impact 5
    effort := jsOr issue.effort "Medium" }

/-- Line 143: the filter `vuln.risk !== "Informational"`. -/
def keepTop (vuln : TopVulnerability) : Bool :=
  decide (vuln.risk ≠ some "Informational")

/-- Line 162: the filter `issue.risk && issue.risk !== "Informational"`. -/
def keepIssue (issue : SiteIssue) : Bool :=
  match issue.risk with
  | some r => decide (r ≠ "") && decide (r ≠ "Informational")
  | none => false

/-- Lines 141-155: the entries pushed from summary.topVulnerabilities. -/
def fromTopVulnerabilities (toLowerCase : String → String)
    (top : Option (List TopVulnerability)) : List Vulnerability :=
  match top with
  | some list => ((list.filter keepTop).take 15).map (mapTopVulnerability toLowerCase)
  | none => []

/-- Lines 159-175: the entries pushed from the websites, site after site. -/
def fromWebsites (toLowerCase : String → String) (websites : List Website) :
    List Vulnerability :=
  websites.foldl
    (fun vulnerabilities website =>
      match website.issues with
      | some issues =>
          vulnerabilities ++ ((issues.filter keepIssue).take 15).map (mapSiteIssue toLowerCase)
      | none => vulnerabilities)
    []

/-- The function processSecurityResults. -/
def processSecurityResults (toLowerCase : String → String)
    (securityResults : Option SecurityResults) : SecurityProcessed :=
  match securityResults with
  | none => { score := 0, vulnerabilities := [] }
  | some sec =>
    match sec.summary with
    | none => { score := 0, vulnerabilities := [] }
    | some summary =>
      let risks : RiskDistribution :=
        summary.riskDistribution.getD
          { high := none, medium := none, low := none, informational := none }
      let score := securityScore risks
      let vulnerabilities := fromTopVulnerabilities toLowerCase summary.topVulnerabilities
      let vulnerabilities :=
        if vulnerabilities.length = 0 then
          match sec.websites with
          | some websites => vulnerabilities ++ fromWebsites toLowerCase websites
          | none => vulnerabilities
        else vulnerabilities
      { score := score, vulnerabilities := vulnerabilities }

/-! ## Accessibility results (index.js, lines 57-113) -/

/-- A violation reported by the accessibility adapter for one page. -/
structure Violation where
  id : String
  description : String
  helpUrl : String
  impact : Option String
deriving DecidableEq, Repr

/-- The outcome of the accessibility audit of one page. -/
structure AuditResult where
  url : String
  status : String
  accessibility_score : Int
  violations : Option (List Violation)
deriving DecidableEq, Repr

/-- The output of the accessibility adapter. -/
structure UxResults where
  results : Option (List AuditResult)
deriving DecidableEq, Repr

/-- An element of allViolations: the fields of the violation, then url and severity. -/
structure UxIssue where
  id : String
  description : String
  helpUrl : String
  impact : Option String
  url : String
  severity : String
deriving DecidableEq, Repr

/-- The value processUxResults returns. -/
structure UxProcessed where
  score : Int
  issues : List UxIssue
  recommendations : List String
deriving DecidableEq, Repr

/-- Lines 73-77: the object pushed for a violation of the page `result`. -/
def tagViolation (result : AuditResult) (violation : Violation) : UxIssue :=
  { id := violation.id
    description := violation.description
    helpUrl := violation.helpUrl
    impact := violation.impact
    url := result.url
    severity := jsOr violation.impact "minor" }

/-- The three variables the loop of lines 66-81 updates. -/
structure UxAccumulator where
  allViolations : List UxIssue
  totalScore : Int
  completedAudits : Nat
deriving DecidableEq, Repr

/-- Lines 67-80: the body of the loop over uxResults.results. -/
def auditStep (acc : UxAccumulator) (result : AuditResult) : UxAccumulator :=
  if result.status = "COMPLETED" then
    let acc : UxAccumulator :=
      { acc with
        totalScore := acc.totalScore + result.accessibility_score
        completedAudits := acc.completedAudits + 1 }
    match result.violations with
    | some violations =>
        if violations.length > 0 then
          { acc with
            allViolations :=
              violations.foldl (fun all violation => all ++ [tagViolation result violation])
                acc.allViolations }
        else acc
    | none => acc
  else acc

/-- An entry of violationsByType. -/
structure ViolationGroup where
  id : String
  description : String
  helpUrl : String
  severity : Option String
  count : Nat
  affectedPages : List String
deriving DecidableEq, Repr

/-- The own properties of the plain object violationsByType, listed in the order in which
the language enumerates them: array-index keys first, by increasing value, then the other
keys in the order of their creation. -/
abbrev ViolationsByType := List (String × ViolationGroup)

/-- The value of a string of decimal digits. -/
def digitsValue (cs : List Char) : Nat :=
  cs.foldl (fun n c => 10 * n + (c.toNat - 48)) 0

/-- A property key is an array index when it is the canonical decimal form of an integer
between 0 and 2^32 - 2. -/
def isArrayIndex (key : String) : Bool :=
  let cs := key.data
  !cs.isEmpty && cs.all (fun c => decide (48 ≤ c.toNat ∧ c.toNat ≤ 57))
    && (cs.length == 1 || cs.head? != some (Char.ofNat 48))
    && decide (digitsValue cs < 4294967295)

/-- Creation of the own property `key`, placed where enumeration will find it. -/
def defineProperty (key : String) (group : ViolationGroup) :
    ViolationsByType → ViolationsByType
  | [] => [(key, group)]
  | (k, g) :: rest =>
      if isArrayIndex key && (!isArrayIndex k || decide (digitsValue key.data < digitsValue k.data))
      then (key, group) :: (k, g) :: rest
      else (k, g) :: defineProperty key group rest

/-- Assignment through the reference `violationsByType[key]` to an existing own property. -/
def updateProperty (key : String) (f : ViolationGroup → ViolationGroup) :
    ViolationsByType → ViolationsByType
  | [] => []
  | (k, g) :: rest =>
      if k = key then (k, f g) :: rest else (k, g) :: updateProperty key f rest

/-- The property names every plain object inherits from Object.prototype. -/
def objectPrototypeNames : List String :=
  ["constructor", "__defineGetter__", "__defineSetter__", "hasOwnProperty",
   "__lookupGetter__", "__lookupSetter__", "isPrototypeOf", "propertyIsEnumerable",
   "toString", "valueOf", "__proto__", "toLocaleString"]

/-- What the read `violationsByType[key]` finds. -/
inductive PropertyRead where
  | own (group : ViolationGroup)
  | inherited
  | undefined
deriving DecidableEq, Repr

/-- The read `violationsByType[key]`: an own property, else a member of Object.prototype,
else undefined. -/
def readProperty (obj : ViolationsByType) (key : String) : PropertyRead :=
  match obj.lookup key with
  | some group => .own group
  | none => if key ∈ objectPrototypeNames then .inherited else .undefined

/-- Lines 98-101: one more instance in the group, found on the page `url`. -/
def countViolation (url : String) (g : ViolationGroup) : ViolationGroup :=
  let g := { g with count := g.count + 1 }
  if g.affectedPages.contains url then g
  else { g with affectedPages := g.affectedPages ++ [url] }

/-- Lines 88-101: the body of the loop over allViolations. The read of `affectedPages` on a
value inherited from Object.prototype gives undefined, and calling `includes` on it throws. -/
def groupStep (obj : ViolationsByType) (v : UxIssue) : Except String ViolationsByType :=
  let obj :=
    match readProperty obj v.id with
    | .undefined =>
        defineProperty v.id
          { id := v.id, description := v.description, helpUrl := v.helpUrl,
            severity := v.impact, count := 0, affectedPages := [] } obj
    | _ => obj
  match readProperty obj v.id with
  | .own _ => .ok (updateProperty v.id (countViolation v.url) obj)
  | _ => .error "Cannot read properties of undefined (reading 'includes')"

/-- Lines 86-102: the loop over allViolations, stopped by the first exception. -/
def groupViolations : List UxIssue → ViolationsByType → Except String ViolationsByType
  | [], obj => .ok obj
  | v :: rest, obj =>
      match groupStep obj v with
      | .ok obj => groupViolations rest obj
      | .error e => .error e

/-- Line 105: the text of the recommendation for one group. -/
def recommendationText (v : ViolationGroup) : String :=
  v.description ++ " (" ++ toString v.count ++ " instances across "
    ++ toString v.affectedPages.length ++ " pages)"

/-- The function processUxResults. -/
def processUxResults (uxResults : Option UxResults) : Except String UxProcessed :=
  match uxResults with
  | none => .ok { score := 0, issues := [], recommendations := [] }
  | some ux =>
    match ux.results with
    | none => .ok { score := 0, issues := [], recommendations := [] }
    | some results =>
      let acc := results.foldl auditStep
        { allViolations := [], totalScore := 0, completedAudits := 0 }
      let averageScore : Int :=
        if acc.completedAudits > 0 then
          mathRound ((acc.totalScore : ℚ) / (acc.completedAudits : ℚ))
        else 0
      match groupViolations acc.allViolations [] with
      | .error e => .error e
      | .ok violationsByType =>
          .ok { score := averageScore
                issues := acc.allViolations
                recommendations := violationsByType.map (fun kv => recommendationText kv.2) }

/-! ## Scan record and orchestration task (index.js, lines 188-335) -/

/-- The output of the crawler. -/
structure CrawlerOutput where
  endpoints : Option (List String)
deriving DecidableEq, Repr

/-- The five metrics of a page. -/
structure Metrics where
  firstContentfulPaint : ℚ
  largestContentfulPaint : ℚ
  totalBlockingTime : ℚ
  cumulativeLayoutShift : ℚ
  speedIndex : ℚ
deriving DecidableEq, Repr

/-- An entry of performanceResults.pageResults. -/
structure PageResult where
  metrics : Option Metrics
deriving DecidableEq, Repr

/-- The object performanceResults.summary. -/
structure PerformanceSummary where
  overallPerformanceScore : Option Int
  overallSeoScore : Option Int
  performanceGrade : Option String
  seoGrade : Option String
deriving DecidableEq, Repr

/-- The object performanceResults.issues; an issue is carried over as it is. -/
structure PerformanceIssues where
  performance : Option (List String)
  seo : Option (List String)
deriving DecidableEq, Repr

/-- The output of the performance and SEO adapter. -/
structure PerformanceResults where
  summary : Option PerformanceSummary
  pageResults : Option (List PageResult)
  issues : Option PerformanceIssues
deriving DecidableEq, Repr

/-- The argument of runPerformanceAudit. -/
structure PerformanceInput where
  endpoints : List String
  outputFile : String
  batchSize : Nat
deriving DecidableEq, Repr

/-- The argument of runAxeAudit. -/
structure AxeInput where
  scan_id : String
  endpoints : List String
deriving DecidableEq, Repr

/-- The options handed to runSecurityAudit. -/
structure SecurityOptions where
  maxDepth : Nat
  timeout : Nat
  passiveScanOnly : Bool
  batchSize : Nat
deriving DecidableEq, Repr

/-- The argument of runSecurityAudit. -/
structure SecurityInput where
  endpoints : List String
  outputFile : String
  options : SecurityOptions
deriving DecidableEq, Repr

/-- The value with which a call of an adapter rejects. `value message` is a value that is
neither null nor undefined, `message` being what the read of its property `message` gives,
none for undefined: an Error has a message, a string or a number that is thrown has none.
`nullish` is null or undefined, on which the read of `message` throws. -/
inductive Rejection where
  | value (message : Option String)
  | nullish
deriving DecidableEq, Repr

/-- The four audit modules. A call either resolves with a value, which may be null, or
rejects with a value. -/
structure Adapters where
  crawlWebsite : String → Nat → Except Rejection (Option CrawlerOutput)
  runPerformanceAudit : PerformanceInput → Except Rejection (Option PerformanceResults)
  runAxeAudit : AxeInput → Except Rejection (Option UxResults)
  runSecurityAudit : SecurityInput → Except Rejection (Option SecurityResults)

/-- The member performance of the final results. -/
structure PerformanceReport where
  score : Int
  metrics : Metrics
  issues : List String
  pageResults : List PageResult
deriving DecidableEq, Repr

/-- The member seo of the final results. -/
structure SeoReport where
  score : Int
  issues : List String
deriving DecidableEq, Repr

/-- The member summary of the final results. -/
structure ScanSummary where
  totalPages : Nat
  scannedPages : Nat
  performanceGrade : String
  seoGrade : String
deriving DecidableEq, Repr

/-- The object finalResults of lines 287-313. -/
structure FinalResults where
  performance : PerformanceReport
  seo : SeoReport
  ux : UxProcessed
  security : SecurityProcessed
  overall : Int
  summary : ScanSummary
deriving DecidableEq, Repr

/-- The object scanResult; `error` is none as long as the property does not exist. -/
structure ScanRecord where
  id : Nat
  url : String
  timestamp : Nat
  status : String
  progress : Nat
  results : Option FinalResults
  error : Option String
deriving DecidableEq, Repr

/-- Lines 206-213: the record stored when a request is accepted. -/
def initialRecord (scanId : Nat) (url : String) (timestamp : Nat) : ScanRecord :=
  { id := scanId, url := url, timestamp := timestamp, status := "scanning", progress := 0,
    results := none, error := none }

/-- The path of the result file of a module, from the root of the repository. -/
def moduleOutputFile (moduleName : String) (scanId : Nat) : String :=
  "modules/" ++ moduleName ++ "/scan-" ++ toString scanId ++ "-results.json"

/-- Lines 241-245. -/
def performanceInput (scanId : Nat) (endpoints : List String) : PerformanceInput :=
  { endpoints := endpoints.take 10
    outputFile := moduleOutputFile "performance" scanId
    batchSize := 3 }

/-- Lines 251-254. -/
def axeInput (scanId : Nat) (endpoints : List String) : AxeInput :=
  { scan_id := "scan-" ++ toString scanId
    endpoints := endpoints.take 10 }

/-- Lines 260-269. -/
def securityInput (scanId : Nat) (endpoints : List String) : SecurityInput :=
  { endpoints := endpoints.take 5
    outputFile := moduleOutputFile "security" scanId
    options := { maxDepth := 2, timeout := 180000, passiveScanOnly := false, batchSize := 2 } }

/-- The metrics used when the first page result has none (lines 290-296). -/
def defaultMetrics : Metrics :=
  { firstContentfulPaint := 0, largestContentfulPaint := 0, totalBlockingTime := 0,
    cumulativeLayoutShift := 0, speedIndex := 0 }

/-- Lines 276-313: the aggregation. It throws when processUxResults throws and when
performanceResults is null. -/
def aggregate (toLowerCase : String → String) (endpoints : List String)
    (performanceResults : Option PerformanceResults) (uxResults : Option UxResults)
    (securityResults : Option SecurityResults) : Except String FinalResults :=
  match processUxResults uxResults with
  | .error e => .error e
  | .ok uxProcessed =>
    let securityProcessed := processSecurityResults toLowerCase securityResults
    match performanceResults with
    | none => .error "Cannot read properties of null (reading 'summary')"
    | some perf =>
      let performanceScore := jsOrInt (perf.summary.bind (fun s => s.overallPerformanceScore)) 0
      let seoScore := jsOrInt (perf.summary.bind (fun s => s.overallSeoScore)) 0
      let uxScore := uxProcessed.score
      let securityScore := securityProcessed.score
      let overallScore :=
        calculateOverallScore (some performanceScore) (some seoScore) (some uxScore)
          (some securityScore)
      .ok
        { performance :=
            { score := performanceScore
              metrics :=
                ((perf.pageResults.bind (fun l => l.head?)).bind (fun r => r.metrics)).getD
                  defaultMetrics
              issues := (perf.issues.bind (fun i => i.performance)).getD []
              pageResults := perf.pageResults.getD [] }
          seo :=
            { score := seoScore
              issues := (perf.issues.bind (fun i => i.seo)).getD [] }
          ux := uxProcessed
          security := securityProcessed
          overall := overallScore
          summary :=
            { totalPages := endpoints.length
              scannedPages := min 10 endpoints.length
              performanceGrade := jsOr (perf.summary.bind (fun s => s.performanceGrade)) "F"
              seoGrade := jsOr (perf.summary.bind (fun s => s.seoGrade)) "F" } }

/-- Where the orchestration task of a scan stands, with the local variables that are live.
The task is suspended at each `await`; what it does between two of them runs without
interruption and is one transition. Two more points are kept, at which the task is not
suspended: `created`, the record as the request handler stores it, before the task runs, and
`aggregating`, right after the assignment of line 274. At `finished` the task has ended: by
the assignments of lines 316-318, by those of the handler of lines 328-333, or by an
exception that this handler throws itself. -/
inductive Stage where
  | created
  | crawling
  | savingCrawl (crawlerOutput : Option CrawlerOutput)
  | auditingPerformance (endpoints : List String) (input : PerformanceInput)
  | auditingUx (endpoints : List String) (performanceResults : Option PerformanceResults)
      (input : AxeInput)
  | savingUx (endpoints : List String) (performanceResults : Option PerformanceResults)
      (uxResults : Option UxResults)
  | auditingSecurity (endpoints : List String) (performanceResults : Option PerformanceResults)
      (uxResults : Option UxResults) (input : SecurityInput)
  | aggregating (endpoints : List String) (performanceResults : Option PerformanceResults)
      (uxResults : Option UxResults) (securityResults : Option SecurityResults)
  | finished
deriving DecidableEq, Repr

/-- A scan: its record in the registry and the point its task has reached. -/
structure ScanState where
  record : ScanRecord
  stage : Stage
deriving DecidableEq, Repr

/-- Lines 328-333: the handler of an exception whose message is `message`. -/
def failScan (record : ScanRecord) (message : String) : ScanState :=
  { record := { record with status := "error", error := some message, progress := 100 }
    stage := .finished }

/-- Lines 328-333 for the rejection value `thrown`. Line 329 reads `error.message`: on null
or undefined this read throws, the handler ends there and the record stays as it is (what the
runtime does with the rejected promise of the task is not modelled). Otherwise lines 330-332
store the status, the message read, which may be undefined, and the progress. -/
def catchRejection (record : ScanRecord) (thrown : Rejection) : ScanState :=
  match thrown with
  | .value (some message) => failScan record message
  | .value none =>
      { record := { record with status := "error", error := none, progress := 100 }
        stage := .finished }
  | .nullish => { record := record, stage := .finished }

/-- One transition of the task of lines 225-334; none once the task has ended. -/
def step (adapters : Adapters) (toLowerCase : String → String) (s : ScanState) :
    Option ScanState :=
  match s.stage with
  | .created =>
      some { record := { s.record with progress := 10 }, stage := .crawling }
  | .crawling =>
      match adapters.crawlWebsite s.record.url 2 with
      | .error thrown => some (catchRejection s.record thrown)
      | .ok crawlerOutput => some { s with stage := .savingCrawl crawlerOutput }
  | .savingCrawl crawlerOutput =>
      match crawlerOutput with
      | none => some (failScan s.record "Cannot read properties of null (reading 'endpoints')")
      | some out =>
          let endpoints := out.endpoints.getD [s.record.url]
          some { record := { s.record with progress := 30 }
                 stage := .auditingPerformance endpoints
                   (performanceInput s.record.id endpoints) }
  | .auditingPerformance endpoints input =>
      match adapters.runPerformanceAudit input with
      | .error thrown => some (catchRejection s.record thrown)
      | .ok performanceResults =>
          some { record := { s.record with progress := 60 }
                 stage := .auditingUx endpoints performanceResults
                   (axeInput s.record.id endpoints) }
  | .auditingUx endpoints performanceResults input =>
      match adapters.runAxeAudit input with
      | .error thrown => some (catchRejection s.record thrown)
      | .ok uxResults =>
          some { s with stage := .savingUx endpoints performanceResults uxResults }
  | .savingUx endpoints performanceResults uxResults =>
      some { record := { s.record with progress := 80 }
             stage := .auditingSecurity endpoints performanceResults uxResults
               (securityInput s.record.id endpoints) }
  | .auditingSecurity endpoints performanceResults uxResults input =>
      match adapters.runSecurityAudit input with
      | .error thrown => some (catchRejection s.record thrown)
      | .ok securityResults =>
          some { record := { s.record with progress := 95 }
                 stage := .aggregating endpoints performanceResults uxResults securityResults }
  | .aggregating endpoints performanceResults uxResults securityResults =>
      match aggregate toLowerCase endpoints performanceResults uxResults securityResults with
      | .error message => some (failScan s.record message)
      | .ok finalResults =>
          some { record :=
                   { s.record with status := "success", progress := 100,
                                   results := some finalResults }
                 stage := .finished }
  | .finished => none

/-- The states a scan goes through from `s`, at most `fuel` transitions. -/
def run (adapters : Adapters) (toLowerCase : String → String) : Nat → ScanState → List ScanState
  | 0, s => [s]
  | fuel + 1, s =>
      match step adapters toLowerCase s with
      | none => [s]
      | some next => s :: run adapters toLowerCase fuel next

/-- The state of a scan when its request has just been accepted. -/
def initialState (scanId : Nat) (url : String) (timestamp : Nat) : ScanState :=
  { record := initialRecord scanId url timestamp, stage := .created }

/-- The whole course of a scan: the task makes at most eight transitions. -/
def scanTrace (adapters : Adapters) (toLowerCase : String → String) (scanId : Nat)
    (url : String) (timestamp : Nat) : List ScanState :=
  run adapters toLowerCase 8 (initialState scanId url timestamp)

/-- A status is terminal when it is one of "success" and "error". -/
def isTerminal (status : String) : Bool :=
  status == "success" || status == "error"

/-! ## Registry and request handlers (index.js, lines 24-25, 188-222, 356-375) -/

/-- The registry: the Map scanResults, its entries in the order of insertion, and the counter
scanIdCounter. An entry holds the record together with the point that the task owning it has
reached. -/
structure Server where
  scanResults : List (Nat × ScanState)
  scanIdCounter : Nat
deriving DecidableEq, Repr

/-- Lines 24-25: the registry when the server starts. -/
def emptyServer : Server :=
  { scanResults := [], scanIdCounter := 1 }

/-- Map.prototype.set: the value of a key that exists is replaced where it stands, a new key
is appended. -/
def mapSet (key : Nat) (value : ScanState) : List (Nat × ScanState) → List (Nat × ScanState)
  | [] => [(key, value)]
  | (k, v) :: rest =>
      if k = key then (k, value) :: rest else (k, v) :: mapSet key value rest

/-- The answer to POST /api/scan: an error with status 400, or the acknowledgement. -/
inductive ScanResponse where
  | badRequest (error : String)
  | started (scanId : Nat) (status : String) (message : String)
deriving DecidableEq, Repr

/-- The HTTP status of an answer. -/
def statusCode : ScanResponse → Nat
  | .badRequest _ => 400
  | .started _ _ _ => 200

/-- Lines 189-222: validation of the url, allocation of the id, storage of the record and
answer. `validUrl u` says that `new URL(u)` does not throw. -/
def createScan (validUrl : String → Bool) (srv : Server) (url : Option String)
    (timestamp : Nat) : Server × ScanResponse :=
  match url with
  | none => (srv, .badRequest "URL is required")
  | some u =>
      if u = "" then (srv, .badRequest "URL is required")
      else if validUrl u = false then (srv, .badRequest "Invalid URL format")
      else
        let scanId := srv.scanIdCounter
        ({ scanResults := mapSet scanId (initialState scanId u timestamp) srv.scanResults
           scanIdCounter := srv.scanIdCounter + 1 },
         .started scanId "scanning" "Scan initiated successfully")

/-- One transition of the task that owns the record `scanId`. Nothing happens when there is
no such record or when its task has ended. -/
def resumeTask (adapters : Adapters) (toLowerCase : String → String) (scanId : Nat)
    (srv : Server) : Server :=
  match srv.scanResults.lookup scanId with
  | some s =>
      match step adapters toLowerCase s with
      | some next => { srv with scanResults := mapSet scanId next srv.scanResults }
      | none => srv
  | none => srv

/-- The handler of POST /api/scan (lines 188-335): once the answer is sent, the task of the
new scan runs up to its first `await`. -/
def postScan (adapters : Adapters) (toLowerCase : String → String) (validUrl : String → Bool)
    (srv : Server) (url : Option String) (timestamp : Nat) : Server × ScanResponse :=
  match createScan validUrl srv url timestamp with
  | (created, .started scanId status message) =>
      (resumeTask adapters toLowerCase scanId created, .started scanId status message)
  | (same, .badRequest error) => (same, .badRequest error)

/-- What happens at the server: a POST /api/scan request arrives, or the task of a scan is
resumed by the completion of what it awaits. -/
inductive Event where
  | post (url : Option String) (timestamp : Nat)
  | resume (scanId : Nat)
deriving DecidableEq, Repr

/-- The server after a sequence of events, with the answers to the requests in order. -/
def serve (adapters : Adapters) (toLowerCase : String → String) (validUrl : String → Bool) :
    Server → List Event → Server × List ScanResponse
  | srv, [] => (srv, [])
  | srv, .post url timestamp :: rest =>
      let answered := postScan adapters toLowerCase validUrl srv url timestamp
      let later := serve adapters toLowerCase validUrl answered.1 rest
      (later.1, answered.2 :: later.2)
  | srv, .resume scanId :: rest =>
      serve adapters toLowerCase validUrl (resumeTask adapters toLowerCase scanId srv) rest

/-- The scores kept of the results in an entry of GET /api/scans. -/
structure ScoreSummary where
  overall : Int
  performance : Int
  seo : Int
  ux : Int
  security : Int
deriving DecidableEq, Repr

/-- An entry of the answer to GET /api/scans. -/
structure ScanSummaryEntry where
  id : Nat
  url : String
  timestamp : Nat
  status : String
  progress : Nat
  results : Option ScoreSummary
deriving DecidableEq, Repr

/-- Lines 358-371: the summary of a record. -/
def summarize (scan : ScanRecord) : ScanSummaryEntry :=
  { id := scan.id
    url := scan.url
    timestamp := scan.timestamp
    status := scan.status
    progress := scan.progress
    results := scan.results.map (fun r =>
      { overall := r.overall
        performance := r.performance.score
        seo := r.seo.score
        ux := r.ux.score
        security := r.security.score }) }

/-- The order of line 372: `a` may stand before `b` when the comparator
`new Date(b.timestamp) - new Date(a.timestamp)` is not positive. -/
def newerFirst (a b : ScanSummaryEntry) : Prop :=
  b.timestamp ≤ a.timestamp

instance newerFirstDecidable : DecidableRel newerFirst :=
  fun a b => inferInstanceAs (Decidable (b.timestamp ≤ a.timestamp))

instance newerFirstTotal : IsTotal ScanSummaryEntry newerFirst :=
  ⟨fun a b => Nat.le_total b.timestamp a.timestamp⟩

instance newerFirstTrans : IsTrans ScanSummaryEntry newerFirst :=
  ⟨fun _ _ _ hab hbc => Nat.le_trans hbc hab⟩

/-- The handler of GET /api/scans: the summaries of the records, sorted; Array.prototype.sort
is stable. -/
def getScans (srv : Server) : List ScanSummaryEntry :=
  (srv.scanResults.map (fun kv => summarize kv.2.record)).insertionSort newerFirst

/-! ## Notions used to state the properties -/

/-- The count of a severity in a summary, 0 when the count or the distribution is missing. -/
def riskCount (summary : SecuritySummary) (field : RiskDistribution → Option Nat) : Nat :=
  (summary.riskDistribution.bind field).getD 0

/-- The pages of a results list whose status is the string `status`. -/
def pagesWithStatus (status : String) (results : List AuditResult) : List AuditResult :=
  results.filter (fun result => decide (result.status = status))

/-- The mean of the accessibility scores of `pages`, rounded; 0 when there is no page. -/
def averageScoreOf (pages : List AuditResult) : Int :=
  if pages = [] then 0
  else mathRound ((((pages.map (fun p => p.accessibility_score)).sum : Int) : ℚ)
    / (pages.length : ℚ))

/-- The violations of `pages`, page after page and in the order of each page, each with the
url of its page and its severity. -/
def taggedViolations (pages : List AuditResult) : List UxIssue :=
  (pages.map (fun p => (p.violations.getD []).map (tagViolation p))).flatten

/-- The distinct elements of a list, in the order of their first occurrence. -/
def firstOccurrences : List String → List String
  | [] => []
  | x :: xs => x :: (firstOccurrences xs).filter (fun y => decide (y ≠ x))

/-- The flattened violations whose rule id is `id`. -/
def violationsOfRule (issues : List UxIssue) (id : String) : List UxIssue :=
  issues.filter (fun v => decide (v.id = id))

/-- The recommendation for the rule `id`: the description of the rule, the number of
violations with that id and the number of distinct urls among them. -/
def recommendationFor (issues : List UxIssue) (id : String) : String :=
  (((violationsOfRule issues id).head?).map (fun v => v.description)).getD ""
    ++ " (" ++ toString (violationsOfRule issues id).length ++ " instances across "
    ++ toString (((violationsOfRule issues id).map (fun v => v.url)).dedup).length ++ " pages)"

/-- One recommendation per distinct rule id, in the order of the first occurrence of the
rules. -/
def recommendationsByRule (issues : List UxIssue) : List String :=
  (firstOccurrences (issues.map (fun v => v.id))).map (recommendationFor issues)

/-- The group that the loop of lines 87-102 holds for the rule `id` once it has gone through
`issues`. -/
def groupOf (issues : List UxIssue) (id : String) : ViolationGroup :=
  { id := id
    description := (((violationsOfRule issues id).head?).map (fun v => v.description)).getD ""
    helpUrl := (((violationsOfRule issues id).head?).map (fun v => v.helpUrl)).getD ""
    severity := ((violationsOfRule issues id).head?).bind (fun v => v.impact)
    count := (violationsOfRule issues id).length
    affectedPages := firstOccurrences ((violationsOfRule issues id).map (fun v => v.url)) }

/-- The order in which the language enumerates property keys given in the order of their
creation: the array indices by increasing value, then the other keys in the order of their
creation. -/
def enumerationOrder (keys : List String) : List String :=
  (keys.filter isArrayIndex).insertionSort
      (fun a b => digitsValue a.data ≤ digitsValue b.data)
    ++ keys.filter (fun key => !isArrayIndex key)

/-- The groups that the loop of lines 87-102 has built once it has gone through `issues`, in
the order in which Object.values lists them. -/
def enumeratedGroups (issues : List UxIssue) : ViolationsByType :=
  (enumerationOrder (firstOccurrences (issues.map (fun v => v.id)))).map
    (fun id => (id, groupOf issues id))

/-- The progress a record shows while its task is at a stage. -/
def stageProgress : Stage → Nat
  | .created => 0
  | .crawling => 10
  | .savingCrawl _ => 10
  | .auditingPerformance _ _ => 30
  | .auditingUx _ _ _ => 60
  | .savingUx _ _ _ => 60
  | .auditingSecurity _ _ _ _ => 80
  | .aggregating _ _ _ _ => 95
  | .finished => 100

/-- The position of a stage in the course of the task. -/
def stageRank : Stage → Nat
  | .created => 0
  | .crawling => 1
  | .savingCrawl _ => 2
  | .auditingPerformance _ _ => 3
  | .auditingUx _ _ _ => 4
  | .savingUx _ _ _ => 5
  | .auditingSecurity _ _ _ _ => 6
  | .aggregating _ _ _ _ => 7
  | .finished => 8

/-- What holds of a scan at every point of its course. While the task has not ended the
progress is the one of the stage and the status is "scanning", with neither results nor
error. Once it has ended, either the status is "success", with results, no error and
progress 100, or the status is "error", with no results and progress 100, or the handler of
the exception has thrown and the record is as the failed stage left it. -/
def Consistent (s : ScanState) : Prop :=
  (s.stage ≠ .finished → s.record.progress = stageProgress s.stage)
  ∧ (s.stage ≠ .finished →
      s.record.status = "scanning" ∧ s.record.results = none ∧ s.record.error = none)
  ∧ (s.stage = .finished →
      (s.record.status = "success" ∧ s.record.results ≠ none ∧ s.record.error = none
        ∧ s.record.progress = 100)
      ∨ (s.record.status = "error" ∧ s.record.results = none ∧ s.record.progress = 100)
      ∨ (s.record.status = "scanning" ∧ s.record.results = none ∧ s.record.error = none
        ∧ 10 ≤ s.record.progress ∧ s.record.progress ≤ 80))

/-- A call of an adapter with its arguments. -/
inductive AdapterCall where
  | crawlWebsite (url : String) (maxDepth : Nat)
  | runPerformanceAudit (input : PerformanceInput)
  | runAxeAudit (input : AxeInput)
  | runSecurityAudit (input : SecurityInput)
deriving DecidableEq, Repr

/-- The adapter call that the task has made and whose result it awaits, if it awaits one. -/
def pendingCall (s : ScanState) : Option AdapterCall :=
  match s.stage with
  | .crawling => some (.crawlWebsite s.record.url 2)
  | .auditingPerformance _ input => some (.runPerformanceAudit input)
  | .auditingUx _ _ input => some (.runAxeAudit input)
  | .auditingSecurity _ _ _ input => some (.runSecurityAudit input)
  | _ => none

/-- The adapter calls made along a course of states. -/
def adapterCalls (trace : List ScanState) : List AdapterCall :=
  trace.filterMap pendingCall

/-- The message with which a call fails, if it fails with a value that has one. -/
def failureOf {α : Type} : Except Rejection α → Option String
  | .error (.value (some message)) => some message
  | _ => none

/-- No call of an adapter rejects with a value that is neither null nor undefined and has no
message. -/
def RejectsWithMessage (adapters : Adapters) : Prop :=
  (∀ url depth, adapters.crawlWebsite url depth ≠ .error (.value none))
  ∧ (∀ input, adapters.runPerformanceAudit input ≠ .error (.value none))
  ∧ (∀ input, adapters.runAxeAudit input ≠ .error (.value none))
  ∧ (∀ input, adapters.runSecurityAudit input ≠ .error (.value none))

/-- No call of an adapter rejects with null or undefined. -/
def NeverRejectsNullish (adapters : Adapters) : Prop :=
  (∀ url depth, adapters.crawlWebsite url depth ≠ .error .nullish)
  ∧ (∀ input, adapters.runPerformanceAudit input ≠ .error .nullish)
  ∧ (∀ input, adapters.runAxeAudit input ≠ .error .nullish)
  ∧ (∀ input, adapters.runSecurityAudit input ≠ .error .nullish)

/-- The message with which the adapter call awaited at `s` fails, if there is one and it
fails. -/
def pendingFailure (adapters : Adapters) (s : ScanState) : Option String :=
  match s.stage with
  | .crawling => failureOf (adapters.crawlWebsite s.record.url 2)
  | .auditingPerformance _ input => failureOf (adapters.runPerformanceAudit input)
  | .auditingUx _ _ input => failureOf (adapters.runAxeAudit input)
  | .auditingSecurity _ _ _ input => failureOf (adapters.runSecurityAudit input)
  | _ => none

/-- The ids handed out in a sequence of answers. -/
def handedOut (responses : List ScanResponse) : List Nat :=
  responses.filterMap (fun r =>
    match r with
    | .started scanId _ _ => some scanId
    | .badRequest _ => none)

/-- The scores of a performance output lie between 0 and 100. -/
def PerformanceInRange (performanceResults : Option PerformanceResults) : Prop :=
  ∀ p summary, performanceResults = some p → p.summary = some summary →
    (∀ v, summary.overallPerformanceScore = some v → 0 ≤ v ∧ v ≤ 100)
    ∧ (∀ v, summary.overallSeoScore = some v → 0 ≤ v ∧ v ≤ 100)

/-- The score of every page of an accessibility output lies between 0 and 100. -/
def UxInRange (uxResults : Option UxResults) : Prop :=
  ∀ ux results, uxResults = some ux → ux.results = some results →
    ∀ page ∈ results, 0 ≤ page.accessibility_score ∧ page.accessibility_score ≤ 100

/-- The adapters only report scores between 0 and 100. -/
def AdaptersInRange (adapters : Adapters) : Prop :=
  (∀ input out, adapters.runPerformanceAudit input = .ok out → PerformanceInRange out)
  ∧ (∀ input out, adapters.runAxeAudit input = .ok out → UxInRange out)

/-- The entries that a website contributes: its first 15 issues that pass the filter of
line 162, mapped. -/
def siteVulnerabilities (toLowerCase : String → String) (website : Website) :
    List Vulnerability :=
  (((website.issues.getD []).filter keepIssue).take 15).map (mapSiteIssue toLowerCase)

/-- The groups account for `n` violations: their counts add up to `n`, there are at most `n`
of them, and each has at least one page and no more pages than instances. -/
def GroupsAccountFor (obj : ViolationsByType) (n : Nat) : Prop :=
  (obj.map (fun kv => kv.2.count)).sum = n
  ∧ obj.length ≤ n
  ∧ ∀ kv ∈ obj, 1 ≤ kv.2.affectedPages.length ∧ kv.2.affectedPages.length ≤ kv.2.count

/-- The scan `scanId` of `url` works with the endpoint list `eps` that its crawl established
from the output `out`: the adapter inputs are built from it and the summary of the results
counts it. -/
def EndpointsFrom (scanId : Nat) (url : String) (out : CrawlerOutput) (eps : List String)
    (s : ScanState) : Prop :=
  s.record.url = url ∧ s.record.id = scanId
  ∧ (match s.stage with
    | .savingCrawl o => o = some out
    | .auditingPerformance e i => e = eps ∧ i = performanceInput scanId eps
    | .auditingUx e _ i => e = eps ∧ i = axeInput scanId eps
    | .savingUx e _ _ => e = eps
    | .auditingSecurity e _ _ i => e = eps ∧ i = securityInput scanId eps
    | .aggregating e _ _ _ => e = eps
    | .finished => ∀ fr, s.record.results = some fr →
        fr.summary.totalPages = eps.length ∧ fr.summary.scannedPages = min 10 eps.length
    | _ => True)

/-- The overall score of the results, when there are results, is the rounded mean of the
four scores stored with it. -/
def OverallDerived (s : ScanState) : Prop :=
  ∀ fr, s.record.results = some fr →
    fr.overall = mathRound (((fr.performance.score + fr.seo.score + fr.ux.score
        + fr.security.score : Int) : ℚ) / 4)

/-- The adapter outputs that the task holds report scores between 0 and 100, and the overall
score of the results, when there are results, lies between 0 and 100. -/
def ScoresInRange (s : ScanState) : Prop :=
  (match s.stage with
    | .auditingUx _ p _ => PerformanceInRange p
    | .savingUx _ p u => PerformanceInRange p ∧ UxInRange u
    | .auditingSecurity _ p u _ => PerformanceInRange p ∧ UxInRange u
    | .aggregating _ p u _ => PerformanceInRange p ∧ UxInRange u
    | _ => True)
  ∧ ∀ fr, s.record.results = some fr → 0 ≤ fr.overall ∧ fr.overall ≤ 100

/-- The keys of the registry are 1, 2, ... up to the last id handed out, in this order, and
every record carries the key under which it is stored. -/
def RegistryOk (srv : Server) : Prop :=
  1 ≤ srv.scanIdCounter
  ∧ srv.scanResults.map Prod.fst = List.range' 1 (srv.scanIdCounter - 1)
  ∧ ∀ kv ∈ srv.scanResults, kv.2.record.id = kv.1

/-! ## Sample inputs -/

/-- Lower-casing of the letters A to Z: the instance of toLowerCase used in the examples. -/
def asciiLower (s : String) : String := String.mk (s.data.map Char.toLower)

/-- A security output with two findings of high risk, one of medium risk and four
informational ones. -/
def sampleSecurity : SecurityResults :=
  { summary := some
      { riskDistribution :=
          some { high := some 2, medium := some 1, low := some 0, informational := some 4 }
        topVulnerabilities := none }
    websites := none }

/-- An informational entry of a top-vulnerabilities list. -/
def informationalEntry : TopVulnerability :=
  { title := "Server banner", risk := some "Informational", description := none,
    occurrences := some 3, impact := none, effort := none }

/-- The entry number `n` of high risk. -/
def highEntry (n : Nat) : TopVulnerability :=
  { title := "Finding " ++ toString n, risk := some "High", description := none,
    occurrences := some (n + 1), impact := some 8, effort := some "Low" }

/-- Two informational entries followed by twenty entries of high risk. -/
def sampleTopTwenty : SecurityResults :=
  { summary := some
      { riskDistribution := none
        topVulnerabilities :=
          some (informationalEntry :: informationalEntry :: (List.range 20).map highEntry) }
    websites := none }

/-- A summary entry that reports zero occurrences. -/
def zeroOccurrences : TopVulnerability :=
  { title := "SQL Injection", risk := some "High", description := none,
    occurrences := some 0, impact := some 7, effort := some "Low" }

/-- A security output whose only summary entry is `zeroOccurrences`. -/
def sampleZeroOccurrences : SecurityResults :=
  { summary := some { riskDistribution := none, topVulnerabilities := some [zeroOccurrences] }
    websites := none }

/-- A website with one issue of medium risk. -/
def sampleSite (title : String) : Website :=
  { issues := some [{ title := title, risk := some "Medium", description := none,
                      impact := none, effort := none }] }

/-- A security output whose topVulnerabilities list is provided and empty. -/
def sampleEmptyTop (websites : List Website) : SecurityResults :=
  { summary := some { riskDistribution := none, topVulnerabilities := some [] }
    websites := some websites }

/-- A security output whose topVulnerabilities list holds one entry of high risk. -/
def sampleOneTop (websites : List Website) : SecurityResults :=
  { summary := some { riskDistribution := none, topVulnerabilities := some [highEntry 0] }
    websites := some websites }

/-- A violation of the rule `id`. -/
def mkViolation (id : String) : Violation :=
  { id := id, description := "Rule " ++ id, helpUrl := "https://rules.example/" ++ id,
    impact := some "serious" }

/-- A page with the given url, status, score and violations. -/
def mkPage (url status : String) (score : Int) (violations : List Violation) : AuditResult :=
  { url := url, status := status, accessibility_score := score, violations := some violations }

/-- Two completed pages scoring 80 and 60, each violating the rule image-alt, and a page
that failed and reports a violation of its own. -/
def samplePages : UxResults :=
  { results := some
      [ mkPage "https://example.com/" "COMPLETED" 80 [mkViolation "image-alt"],
        mkPage "https://example.com/about" "COMPLETED" 60 [mkViolation "image-alt"],
        mkPage "https://example.com/slow" "FAILED" 10 [mkViolation "label"] ] }

/-- One page whose status is written in lower case. -/
def lowerCasePage : UxResults :=
  { results := some [mkPage "https://example.com/" "completed" 80 []] }

/-- One page that failed and reports a violation. -/
def failedPage : UxResults :=
  { results := some [mkPage "https://example.com/slow" "FAILED" 10 [mkViolation "label"]] }

/-- One completed page that violates the rule "2" and then the rule "1". -/
def numericIdsPage : UxResults :=
  { results := some
      [mkPage "https://example.com/" "COMPLETED" 90 [mkViolation "2", mkViolation "1"]] }

/-- Adapters that all succeed. -/
def stubAdapters : Adapters :=
  { crawlWebsite := fun url _ => .ok (some { endpoints := some [url, url ++ "/about"] })
    runPerformanceAudit := fun _ =>
      .ok (some
        { summary := some
            { overallPerformanceScore := some 90, overallSeoScore := some 80,
              performanceGrade := some "A", seoGrade := some "B" }
          pageResults := some []
          issues := none })
    runAxeAudit := fun input =>
      .ok (some { results := some (input.endpoints.map (fun u => mkPage u "COMPLETED" 70 [])) })
    runSecurityAudit := fun _ => .ok (some sampleSecurity) }

/-- Adapters whose accessibility audit fails. -/
def uxFailingAdapters : Adapters :=
  { stubAdapters with runAxeAudit := fun _ => .error (.value (some "Navigation timeout")) }

/-- A security output with no topVulnerabilities list and one website, whose only issue has
no risk. -/
def sampleNoRisk : SecurityResults :=
  { summary := some { riskDistribution := none, topVulnerabilities := none }
    websites := some
      [{ issues := some [{ title := "Missing header", risk := none, description := none,
                           impact := none, effort := none }] }] }

/-- The issue number `n` of a website, of low risk. -/
def lowIssue (n : Nat) : SiteIssue :=
  { title := "Issue " ++ toString n, risk := some "Low", description := none,
    impact := some 2, effort := none }

/-- A security output with no topVulnerabilities list and two websites, of 16 and of 3
issues. -/
def sampleTwoSites : SecurityResults :=
  { summary := some { riskDistribution := none, topVulnerabilities := none }
    websites := some
      [{ issues := some ((List.range 16).map lowIssue) },
       { issues := some ((List.range 3).map lowIssue) }] }

/-- Adapters whose crawl fails. -/
def crawlFailingAdapters : Adapters :=
  { stubAdapters with crawlWebsite := fun _ _ => .error (.value (some "getaddrinfo ENOTFOUND")) }

/-- Adapters whose security audit rejects with a value that has no message, as the statement
`throw "timeout"` does. -/
def messagelessAdapters : Adapters :=
  { stubAdapters with runSecurityAudit := fun _ => .error (.value none) }

/-- Adapters whose performance audit rejects with null. -/
def nullRejectingAdapters : Adapters :=
  { stubAdapters with runPerformanceAudit := fun _ => .error .nullish }

/-- Twelve endpoints. -/
def twelveEndpoints : List String :=
  (List.range 12).map (fun i => "https://example.com/page" ++ toString i)

/-- Adapters whose crawl finds twelve endpoints. -/
def wideCrawlAdapters : Adapters :=
  { stubAdapters with crawlWebsite := fun _ _ => .ok (some { endpoints := some twelveEndpoints }) }

/-- Adapters whose crawl finds no endpoint. -/
def emptyCrawlAdapters : Adapters :=
  { stubAdapters with crawlWebsite := fun _ _ => .ok (some { endpoints := some [] }) }

/-- Every url is accepted but the one that does not start with "http". -/
def sampleValidUrl (url : String) : Bool :=
  url.data.take 4 == "http".data

/-- The endpoints that the crawler of `stubAdapters` finds for "https://example.com". -/
def sampleEndpoints : List String :=
  ["https://example.com", "https://example.com/about"]

/-- The output of the performance adapter of `stubAdapters`. -/
def samplePerformance : Option PerformanceResults :=
  some
    { summary := some
        { overallPerformanceScore := some 90, overallSeoScore := some 80,
          performanceGrade := some "A", seoGrade := some "B" }
      pageResults := some []
      issues := none }

/-- The output of the accessibility adapter of `stubAdapters` for the sample endpoints. -/
def sampleUxOutput : Option UxResults :=
  some { results := some (sampleEndpoints.map (fun u => mkPage u "COMPLETED" 70 [])) }

/-- The scan 1 of "https://example.com" while it awaits the accessibility adapter. -/
def sampleUxStage : ScanState :=
  { record := { initialRecord 1 "https://example.com" 0 with progress := 60 }
    stage := .auditingUx sampleEndpoints samplePerformance (axeInput 1 sampleEndpoints) }

/-- The scan 1 of "https://example.com" while it awaits the security adapter. -/
def sampleSecurityStage : ScanState :=
  { record := { initialRecord 1 "https://example.com" 0 with progress := 80 }
    stage := .auditingSecurity sampleEndpoints samplePerformance sampleUxOutput
      (securityInput 1 sampleEndpoints) }

set_option maxRecDepth 4000

/-! ## Auxiliary facts -/

theorem mathRound_intCast (z : Int) : mathRound (z : ℚ) = z := by
  unfold mathRound
  rw [Int.floor_eq_iff]
  constructor <;> norm_num

theorem mathRound_eq_iff (x : ℚ) (z : Int) :
    mathRound x = z ↔ (z : ℚ) ≤ x + 1 / 2 ∧ x + 1 / 2 < (z : ℚ) + 1 := by
  unfold mathRound
  exact Int.floor_eq_iff

theorem mathRound_nearest (x : ℚ) (k : Int) :
    |((mathRound x : Int) : ℚ) - x| ≤ |(k : ℚ) - x| := by
  unfold mathRound
  have h1 : ((⌊x + 1 / 2⌋ : Int) : ℚ) ≤ x + 1 / 2 := Int.floor_le _
  have h2 : x + 1 / 2 < ((⌊x + 1 / 2⌋ : Int) : ℚ) + 1 := Int.lt_floor_add_one _
  have hl : |((⌊x + 1 / 2⌋ : Int) : ℚ) - x| ≤ 1 / 2 := by
    rw [abs_le]; constructor <;> linarith
  by_cases hk : k = ⌊x + 1 / 2⌋
  · rw [hk]
  · rcases lt_or_gt_of_ne hk with h | h
    · have h3 : (k : ℚ) + 1 ≤ ((⌊x + 1 / 2⌋ : Int) : ℚ) := by exact_mod_cast h
      have : (1 : ℚ) / 2 ≤ |(k : ℚ) - x| := by
        rw [le_abs]; right; linarith
      linarith
    · have h3 : ((⌊x + 1 / 2⌋ : Int) : ℚ) + 1 ≤ (k : ℚ) := by exact_mod_cast h
      have : (1 : ℚ) / 2 ≤ |(k : ℚ) - x| := by
        rw [le_abs]; left; linarith
      linarith

theorem foldl_add_eq_sum (l : List Int) (a : Int) :
    l.foldl (fun sum score => sum + score) a = a + l.sum := by
  induction l generalizing a with
  | nil => simp
  | cons x xs ih => simp [List.foldl_cons, ih, add_assoc]

theorem securityScore_eq (risks : RiskDistribution) :
    securityScore risks =
      max 0 (min 100 (100 - 15 * ((risks.high.getD 0 : Nat) : Int)
        - 5 * ((risks.medium.getD 0 : Nat) : Int) - 2 * ((risks.low.getD 0 : Nat) : Int))) := by
  have h : ∀ o : Option Nat, jsOrNat o 0 = o.getD 0 := by
    intro o
    cases o with
    | none => rfl
    | some v =>
      simp only [jsOrNat, Option.getD_some]
      split_ifs with h0
      · exact h0.symm
      · rfl
  unfold securityScore
  simp only [h]
  rw [mathRound_intCast]
  congr 2
  ring

theorem vulnerabilities_of_top (toLowerCase : String → String) (sec : SecurityResults)
    (summary : SecuritySummary) (top : List TopVulnerability)
    (hs : sec.summary = some summary) (ht : summary.topVulnerabilities = some top)
    (hk : 1 ≤ (top.filter keepTop).length) :
    (processSecurityResults toLowerCase (some sec)).vulnerabilities =
      ((top.filter keepTop).take 15).map (mapTopVulnerability toLowerCase) := by
  unfold processSecurityResults
  simp only [hs, ht, fromTopVulnerabilities]
  rw [if_neg]
  simp only [List.length_map, List.length_take]
  omega

theorem vulnerabilities_of_websites (toLowerCase : String → String) (sec : SecurityResults)
    (summary : SecuritySummary) (hs : sec.summary = some summary)
    (hk : ∀ top, summary.topVulnerabilities = some top → (top.filter keepTop).length = 0) :
    (processSecurityResults toLowerCase (some sec)).vulnerabilities =
      fromWebsites toLowerCase (sec.websites.getD []) := by
  unfold processSecurityResults
  simp only [hs]
  have h0 : fromTopVulnerabilities toLowerCase summary.topVulnerabilities = [] := by
    unfold fromTopVulnerabilities
    cases ht : summary.topVulnerabilities with
    | none => rfl
    | some top =>
      have := hk top ht
      simp only [List.length_eq_zero] at this
      simp [this]
  simp only [h0, List.length_nil, if_true, List.nil_append]
  cases sec.websites <;> rfl

theorem foldl_push_tag (result : AuditResult) (violations : List Violation) (init : List UxIssue) :
    violations.foldl (fun all violation => all ++ [tagViolation result violation]) init
      = init ++ violations.map (tagViolation result) := by
  induction violations generalizing init with
  | nil => simp
  | cons v vs ih => simp [List.foldl_cons, ih]

theorem auditStep_completed (acc : UxAccumulator) (result : AuditResult)
    (h : result.status = "COMPLETED") :
    auditStep acc result =
      { allViolations := acc.allViolations ++ (result.violations.getD []).map (tagViolation result)
        totalScore := acc.totalScore + result.accessibility_score
        completedAudits := acc.completedAudits + 1 } := by
  unfold auditStep
  rw [if_pos h]
  cases hv : result.violations with
  | none => simp
  | some vs =>
    cases vs with
    | nil => simp
    | cons v rest => simp [foldl_push_tag]

theorem auditStep_other (acc : UxAccumulator) (result : AuditResult)
    (h : result.status ≠ "COMPLETED") : auditStep acc result = acc := by
  unfold auditStep
  rw [if_neg h]

theorem foldl_auditStep (results : List AuditResult) (acc : UxAccumulator) :
    results.foldl auditStep acc =
      { allViolations := acc.allViolations ++ taggedViolations (pagesWithStatus "COMPLETED" results)
        totalScore := acc.totalScore
          + ((pagesWithStatus "COMPLETED" results).map (fun p => p.accessibility_score)).sum
        completedAudits := acc.completedAudits + (pagesWithStatus "COMPLETED" results).length } := by
  induction results generalizing acc with
  | nil => simp [pagesWithStatus, taggedViolations]
  | cons r rs ih =>
    rw [List.foldl_cons, ih]
    by_cases h : r.status = "COMPLETED"
    · rw [auditStep_completed acc r h]
      simp [pagesWithStatus, taggedViolations, h, List.filter_cons, add_assoc, add_comm]
    · rw [auditStep_other acc r h]
      simp [pagesWithStatus, taggedViolations, h, List.filter_cons]

theorem processUxResults_eq (ux : UxResults) (results : List AuditResult)
    (hr : ux.results = some results) :
    processUxResults (some ux) =
      match groupViolations (taggedViolations (pagesWithStatus "COMPLETED" results)) [] with
      | .error e => .error e
      | .ok violationsByType =>
          .ok { score := averageScoreOf (pagesWithStatus "COMPLETED" results)
                issues := taggedViolations (pagesWithStatus "COMPLETED" results)
                recommendations := violationsByType.map (fun kv => recommendationText kv.2) } := by
  unfold processUxResults
  simp only [hr, foldl_auditStep, List.nil_append, zero_add, averageScoreOf]
  have hs : (if (pagesWithStatus "COMPLETED" results).length > 0 then
        mathRound ((((pagesWithStatus "COMPLETED" results).map
          (fun p => p.accessibility_score)).sum : Int) / ((pagesWithStatus "COMPLETED" results).length : ℚ))
      else 0)
      = (if pagesWithStatus "COMPLETED" results = [] then 0
        else mathRound ((((pagesWithStatus "COMPLETED" results).map
          (fun p => p.accessibility_score)).sum : Int) / ((pagesWithStatus "COMPLETED" results).length : ℚ))) := by
    cases pagesWithStatus "COMPLETED" results <;> simp
  rw [hs]

theorem mem_firstOccurrences (l : List String) (y : String) :
    y ∈ firstOccurrences l ↔ y ∈ l := by
  induction l with
  | nil => simp [firstOccurrences]
  | cons x xs ih =>
    simp only [firstOccurrences, List.mem_cons, List.mem_filter, ih, decide_eq_true_eq]
    by_cases h : y = x <;> simp [h]

theorem nodup_firstOccurrences (l : List String) : (firstOccurrences l).Nodup := by
  induction l with
  | nil => simp [firstOccurrences]
  | cons x xs ih =>
    simp only [firstOccurrences, List.nodup_cons, List.mem_filter, decide_eq_true_eq]
    exact ⟨fun h => h.2 rfl, ih.filter _⟩

theorem firstOccurrences_append_singleton (l : List String) (x : String) :
    firstOccurrences (l ++ [x]) = if x ∈ l then firstOccurrences l else firstOccurrences l ++ [x] := by
  induction l with
  | nil => simp [firstOccurrences]
  | cons a l ih =>
    rw [List.cons_append]
    simp only [firstOccurrences]
    rw [ih]
    by_cases hxa : x = a
    · subst hxa
      by_cases hxl : x ∈ l <;> simp [hxl, List.filter_append]
    · by_cases hxl : x ∈ l <;> simp [hxl, hxa, List.filter_append]

theorem length_firstOccurrences (l : List String) :
    (firstOccurrences l).length = l.dedup.length := by
  apply List.Perm.length_eq
  rw [List.perm_ext_iff_of_nodup (nodup_firstOccurrences l) (List.nodup_dedup l)]
  intro a
  rw [mem_firstOccurrences, List.mem_dedup]

theorem defineProperty_of_not_index (key : String) (g : ViolationGroup) (obj : ViolationsByType)
    (h : isArrayIndex key = false) : defineProperty key g obj = obj ++ [(key, g)] := by
  induction obj with
  | nil => rfl
  | cons kv rest ih =>
    obtain ⟨k, g0⟩ := kv
    simp [defineProperty, h, ih]

theorem lookup_map_key (l : List String) (G : String → ViolationGroup) (key : String) :
    (l.map (fun id => (id, G id))).lookup key = if key ∈ l then some (G key) else none := by
  induction l with
  | nil => simp
  | cons a l ih =>
    simp only [List.map_cons, List.lookup_cons, ih, List.mem_cons]
    by_cases h : key = a
    · subst h; simp
    · have : (key == a) = false := by simpa using h
      simp [this, h]

theorem updateProperty_map_key (key : String) (f : ViolationGroup → ViolationGroup)
    (l : List String) (G : String → ViolationGroup) (hl : l.Nodup) :
    updateProperty key f (l.map (fun id => (id, G id)))
      = l.map (fun id => (id, if id = key then f (G id) else G id)) := by
  induction l with
  | nil => rfl
  | cons a l ih =>
    have ha : a ∉ l := (List.nodup_cons.mp hl).1
    have hl2 : l.Nodup := (List.nodup_cons.mp hl).2
    simp only [List.map_cons, updateProperty]
    by_cases h : a = key
    · subst h
      simp only [if_true]
      congr 1
      apply List.map_congr_left
      intro b hb
      have : b ≠ a := fun hba => ha (hba ▸ hb)
      simp [this]
    · simp only [if_neg h]
      rw [ih hl2]

theorem violationsOfRule_append_singleton (pre : List UxIssue) (v : UxIssue) (id : String) :
    violationsOfRule (pre ++ [v]) id
      = if v.id = id then violationsOfRule pre id ++ [v] else violationsOfRule pre id := by
  unfold violationsOfRule
  by_cases h : v.id = id <;> simp [List.filter_append, h]

theorem violationsOfRule_eq_nil_iff (pre : List UxIssue) (id : String) :
    violationsOfRule pre id = [] ↔ id ∉ pre.map (fun v => v.id) := by
  unfold violationsOfRule
  rw [List.filter_eq_nil_iff]
  simp only [decide_eq_true_eq, List.mem_map, not_exists, not_and]

theorem groupOf_append_other (pre : List UxIssue) (v : UxIssue) (id : String) (h : id ≠ v.id) :
    groupOf (pre ++ [v]) id = groupOf pre id := by
  unfold groupOf
  rw [violationsOfRule_append_singleton, if_neg (fun h2 => h h2.symm)]

theorem groupOf_append_new (pre : List UxIssue) (v : UxIssue)
    (h : v.id ∉ pre.map (fun u => u.id)) :
    groupOf (pre ++ [v]) v.id
      = countViolation v.url
          { id := v.id, description := v.description, helpUrl := v.helpUrl,
            severity := v.impact, count := 0, affectedPages := [] } := by
  unfold groupOf
  rw [violationsOfRule_append_singleton, if_pos rfl,
    (violationsOfRule_eq_nil_iff pre v.id).mpr h]
  simp [countViolation, firstOccurrences]

theorem groupOf_append_same (pre : List UxIssue) (v : UxIssue)
    (h : v.id ∈ pre.map (fun u => u.id)) :
    groupOf (pre ++ [v]) v.id = countViolation v.url (groupOf pre v.id) := by
  have hne : violationsOfRule pre v.id ≠ [] := fun h0 =>
    (violationsOfRule_eq_nil_iff pre v.id).mp h0 h
  unfold groupOf
  rw [violationsOfRule_append_singleton, if_pos rfl]
  obtain ⟨w, ws, hw⟩ := List.exists_cons_of_ne_nil hne
  rw [hw]
  simp only [List.cons_append, List.head?_cons, Option.map_some', Option.getD_some,
    Option.some_bind, List.length_cons, List.length_append, List.length_nil, List.map_cons,
    List.map_append, List.map_nil, countViolation]
  rw [← List.cons_append, firstOccurrences_append_singleton]
  by_cases hu : v.url ∈ w.url :: ws.map (fun u => u.url)
  · have hc : (firstOccurrences (w.url :: ws.map (fun u => u.url))).contains v.url = true := by
      simpa using (mem_firstOccurrences _ _).mpr hu
    simp only [hu, if_true, hc]
  · have hc : ¬ (firstOccurrences (w.url :: ws.map (fun u => u.url))).contains v.url = true := by
      simpa using fun hm => hu ((mem_firstOccurrences _ _).mp hm)
    simp only [hu, if_false, hc]
    simp

theorem groupViolations_append_singleton (pre : List UxIssue) (v : UxIssue)
    (obj : ViolationsByType) :
    groupViolations (pre ++ [v]) obj =
      match groupViolations pre obj with
      | .ok o => groupStep o v
      | .error e => .error e := by
  induction pre generalizing obj with
  | nil =>
    simp only [List.nil_append, groupViolations]
    cases groupStep obj v <;> rfl
  | cons u us ih =>
    simp only [List.cons_append, groupViolations]
    cases groupStep obj u with
    | error e => rfl
    | ok o => exact ih o

theorem recommendationText_groupOf (issues : List UxIssue) (id : String) :
    recommendationText (groupOf issues id) = recommendationFor issues id := by
  unfold recommendationText groupOf recommendationFor
  simp only [length_firstOccurrences]

theorem orderedInsert_comm (x a : String) (l : List String) :
    List.orderedInsert (fun a b => digitsValue a.data ≤ digitsValue b.data) a
        (List.orderedInsert (fun a b => digitsValue a.data < digitsValue b.data) x l)
      = List.orderedInsert (fun a b => digitsValue a.data < digitsValue b.data) x
        (List.orderedInsert (fun a b => digitsValue a.data ≤ digitsValue b.data) a l) := by
  induction l with
  | nil =>
    simp only [List.orderedInsert]
    by_cases h : digitsValue a.data ≤ digitsValue x.data
    · have h2 : ¬ digitsValue x.data < digitsValue a.data := by omega
      simp [h, h2]
    · have h2 : digitsValue x.data < digitsValue a.data := by omega
      simp [h, h2]
  | cons b l ih =>
    simp only [List.orderedInsert]
    by_cases hab : digitsValue a.data ≤ digitsValue b.data
    · by_cases hxb : digitsValue x.data < digitsValue b.data
      · by_cases hax : digitsValue a.data ≤ digitsValue x.data
        · have h2 : ¬ digitsValue x.data < digitsValue a.data := by omega
          simp [hab, hxb, hax, h2, List.orderedInsert]
        · have h2 : digitsValue x.data < digitsValue a.data := by omega
          simp [hab, hxb, hax, h2, List.orderedInsert]
      · have h2 : ¬ digitsValue x.data < digitsValue a.data := by omega
        simp [hab, hxb, h2, List.orderedInsert]
    · by_cases hxb : digitsValue x.data < digitsValue b.data
      · have h2 : ¬ digitsValue a.data ≤ digitsValue x.data := by omega
        simp [hab, hxb, h2, List.orderedInsert]
      · simp [hab, hxb, List.orderedInsert, ih]

theorem insertionSort_append_singleton (l : List String) (x : String) :
    (l ++ [x]).insertionSort (fun a b => digitsValue a.data ≤ digitsValue b.data)
      = List.orderedInsert (fun a b => digitsValue a.data < digitsValue b.data) x
          (l.insertionSort (fun a b => digitsValue a.data ≤ digitsValue b.data)) := by
  induction l with
  | nil => simp [List.insertionSort, List.orderedInsert]
  | cons a l ih =>
    show List.orderedInsert _ a (List.insertionSort _ (l ++ [x]))
      = List.orderedInsert _ x (List.orderedInsert _ a (List.insertionSort _ l))
    rw [ih, orderedInsert_comm]

theorem enumerationOrder_perm (keys : List String) : (enumerationOrder keys).Perm keys := by
  unfold enumerationOrder
  refine ((List.perm_insertionSort _ _).append_right _).trans ?_
  exact List.filter_append_perm _ _

theorem enumerationOrder_of_no_index (keys : List String)
    (h : ∀ key ∈ keys, isArrayIndex key = false) : enumerationOrder keys = keys := by
  unfold enumerationOrder
  have h1 : keys.filter isArrayIndex = [] := by
    rw [List.filter_eq_nil_iff]
    intro k hk
    simp [h k hk]
  have h2 : keys.filter (fun key => !isArrayIndex key) = keys := by
    rw [List.filter_eq_self]
    intro k hk
    simp [h k hk]
  rw [h1, h2]
  rfl

theorem defineProperty_index (key : String) (g : ViolationGroup) (G : String → ViolationGroup)
    (hkey : isArrayIndex key = true) (S N : List String)
    (hS : ∀ s ∈ S, isArrayIndex s = true) (hN : ∀ n ∈ N, isArrayIndex n = false)
    (hnew : key ∉ S ++ N) :
    defineProperty key g ((S ++ N).map (fun id => (id, G id)))
      = (List.orderedInsert (fun a b => digitsValue a.data < digitsValue b.data) key S
          ++ N).map (fun id => (id, if id = key then g else G id)) := by
  have hmap : ∀ l : List String, key ∉ l →
      l.map (fun id => (id, if id = key then g else G id)) = l.map (fun id => (id, G id)) := by
    intro l hl
    apply List.map_congr_left
    intro id hid
    have : id ≠ key := fun he => hl (he ▸ hid)
    simp [this]
  induction S with
  | nil =>
    simp only [List.nil_append, List.orderedInsert, List.singleton_append, List.map_cons,
      if_true]
    rw [hmap N (by simpa using hnew)]
    cases N with
    | nil => rfl
    | cons n N =>
      have hn : isArrayIndex n = false := hN n (List.mem_cons_self _ _)
      simp [defineProperty, hkey, hn]
  | cons s S ih =>
    have hs : isArrayIndex s = true := hS s (List.mem_cons_self _ _)
    have hne : s ≠ key := fun he => hnew (by simp [he])
    have hnew2 : key ∉ S ++ N := fun hm => hnew (by simp at hm ⊢; tauto)
    simp only [List.cons_append, List.map_cons, defineProperty, List.orderedInsert, hkey, hs,
      Bool.true_and, Bool.not_true, Bool.false_or]
    by_cases hlt : digitsValue key.data < digitsValue s.data
    · simp only [hlt, decide_True, if_true, List.cons_append, List.map_cons, if_neg hne,
        List.append_eq]
      rw [hmap (S ++ N) hnew2]
    · simp only [hlt, decide_False, if_false, List.cons_append, List.map_cons, if_neg hne,
        List.append_eq, Bool.false_eq_true]
      rw [ih (fun x hx => hS x (List.mem_cons_of_mem _ hx)) hnew2]

theorem defineProperty_enumerationOrder (key : String) (g : ViolationGroup)
    (G : String → ViolationGroup) (keys : List String) (hnew : key ∉ keys) :
    defineProperty key g ((enumerationOrder keys).map (fun id => (id, G id)))
      = (enumerationOrder (keys ++ [key])).map (fun id => (id, if id = key then g else G id)) := by
  have hnew2 : key ∉ enumerationOrder keys := fun hm =>
    hnew ((enumerationOrder_perm keys).mem_iff.mp hm)
  cases hkey : isArrayIndex key with
  | false =>
    rw [defineProperty_of_not_index _ _ _ hkey]
    have h1 : enumerationOrder (keys ++ [key]) = enumerationOrder keys ++ [key] := by
      unfold enumerationOrder
      simp [List.filter_append, hkey]
    rw [h1, List.map_append]
    congr 1
    · apply List.map_congr_left
      intro id hid
      have : id ≠ key := fun he => hnew2 (he ▸ hid)
      simp [this]
    · simp
  | true =>
    have h1 : enumerationOrder (keys ++ [key])
        = List.orderedInsert (fun a b => digitsValue a.data < digitsValue b.data) key
            ((keys.filter isArrayIndex).insertionSort
              (fun a b => digitsValue a.data ≤ digitsValue b.data))
          ++ keys.filter (fun k => !isArrayIndex k) := by
      unfold enumerationOrder
      have hf1 : (keys ++ [key]).filter isArrayIndex = keys.filter isArrayIndex ++ [key] := by
        simp [List.filter_append, hkey]
      have hf2 : (keys ++ [key]).filter (fun k => !isArrayIndex k)
          = keys.filter (fun k => !isArrayIndex k) := by
        simp [List.filter_append, hkey]
      rw [hf1, hf2, insertionSort_append_singleton]
    rw [h1]
    exact defineProperty_index key g G hkey _ _
      (fun s hs => by
        have := (List.perm_insertionSort _ _).mem_iff.mp hs
        simpa using (List.mem_filter.mp this).2)
      (fun n hn => by simpa using (List.mem_filter.mp hn).2)
      hnew2

theorem mem_enumerationOrder (keys : List String) (key : String) :
    key ∈ enumerationOrder keys ↔ key ∈ keys :=
  (enumerationOrder_perm keys).mem_iff

theorem nodup_enumerationOrder (keys : List String) (h : keys.Nodup) :
    (enumerationOrder keys).Nodup :=
  (enumerationOrder_perm keys).nodup_iff.mpr h

theorem groupStep_enumeratedGroups (pre : List UxIssue) (v : UxIssue)
    (hinh : v.id ∉ objectPrototypeNames) :
    groupStep (enumeratedGroups pre) v = .ok (enumeratedGroups (pre ++ [v])) := by
  by_cases h : v.id ∈ pre.map (fun u => u.id)
  · have hread : readProperty (enumeratedGroups pre) v.id = .own (groupOf pre v.id) := by
      unfold readProperty enumeratedGroups
      rw [lookup_map_key, if_pos ((mem_enumerationOrder _ _).mpr
        ((mem_firstOccurrences _ _).mpr h))]
    unfold groupStep
    simp only [hread]
    congr 1
    unfold enumeratedGroups
    rw [updateProperty_map_key _ _ _ _ (nodup_enumerationOrder _ (nodup_firstOccurrences _)),
      List.map_append, List.map_singleton, firstOccurrences_append_singleton, if_pos h]
    apply List.map_congr_left
    intro id _
    by_cases hid : id = v.id
    · subst hid
      rw [if_pos rfl, groupOf_append_same pre v h]
    · rw [if_neg hid, groupOf_append_other pre v id hid]
  · have hnew : v.id ∉ firstOccurrences (pre.map (fun u => u.id)) :=
      fun hm => h ((mem_firstOccurrences _ _).mp hm)
    have hread : readProperty (enumeratedGroups pre) v.id = .undefined := by
      unfold readProperty enumeratedGroups
      rw [lookup_map_key, if_neg (fun hm => hnew ((mem_enumerationOrder _ _).mp hm))]
      simp [hinh]
    have hfirst : firstOccurrences ((pre ++ [v]).map (fun u => u.id))
        = firstOccurrences (pre.map (fun u => u.id)) ++ [v.id] := by
      rw [List.map_append, List.map_singleton, firstOccurrences_append_singleton, if_neg h]
    unfold groupStep
    simp only [hread]
    unfold enumeratedGroups
    rw [defineProperty_enumerationOrder _ _ _ _ hnew, ← hfirst]
    have hmem : v.id ∈ enumerationOrder (firstOccurrences ((pre ++ [v]).map (fun u => u.id))) := by
      rw [mem_enumerationOrder, mem_firstOccurrences]
      simp
    have hread2 : readProperty
        ((enumerationOrder (firstOccurrences ((pre ++ [v]).map (fun u => u.id)))).map
          (fun id => (id, if id = v.id then
            ({ id := v.id, description := v.description, helpUrl := v.helpUrl,
               severity := v.impact, count := 0, affectedPages := [] } : ViolationGroup)
            else groupOf pre id))) v.id
        = .own { id := v.id, description := v.description, helpUrl := v.helpUrl,
                 severity := v.impact, count := 0, affectedPages := [] } := by
      unfold readProperty
      rw [lookup_map_key, if_pos hmem]
      simp
    simp only [hread2]
    congr 1
    rw [updateProperty_map_key _ _ _ _ (nodup_enumerationOrder _ (nodup_firstOccurrences _))]
    apply List.map_congr_left
    intro id _
    by_cases hid : id = v.id
    · subst hid
      simp only [if_true]
      rw [groupOf_append_new pre v h]
    · simp only [if_neg hid]
      rw [groupOf_append_other pre v id hid]

theorem groupStep_inherited (pre : List UxIssue) (v : UxIssue)
    (hpre : ∀ u ∈ pre, u.id ∉ objectPrototypeNames) (hinh : v.id ∈ objectPrototypeNames) :
    groupStep (enumeratedGroups pre) v
      = .error "Cannot read properties of undefined (reading 'includes')" := by
  have hnew : v.id ∉ enumerationOrder (firstOccurrences (pre.map (fun u => u.id))) := by
    rw [mem_enumerationOrder, mem_firstOccurrences]
    intro hm
    obtain ⟨u, hu, he⟩ := List.mem_map.mp hm
    exact hpre u hu (he ▸ hinh)
  have hread : readProperty (enumeratedGroups pre) v.id = .inherited := by
    unfold readProperty enumeratedGroups
    rw [lookup_map_key, if_neg hnew]
    simp [hinh]
  unfold groupStep
  simp only [hread]

theorem groupViolations_eq (issues : List UxIssue) :
    ((∀ v ∈ issues, v.id ∉ objectPrototypeNames) →
      groupViolations issues [] = .ok (enumeratedGroups issues))
    ∧ ((∃ v ∈ issues, v.id ∈ objectPrototypeNames) →
      groupViolations issues []
        = .error "Cannot read properties of undefined (reading 'includes')") := by
  induction issues using List.reverseRecOn with
  | nil => exact ⟨fun _ => rfl, fun h => by simp at h⟩
  | append_singleton pre v ih =>
    constructor
    · intro h
      rw [groupViolations_append_singleton,
        ih.1 (fun u hu => h u (List.mem_append_left _ hu))]
      exact groupStep_enumeratedGroups pre v (h v (by simp))
    · intro h
      rw [groupViolations_append_singleton]
      by_cases hpre : ∃ u ∈ pre, u.id ∈ objectPrototypeNames
      · rw [ih.2 hpre]
      · have hpre2 : ∀ u ∈ pre, u.id ∉ objectPrototypeNames := by
          intro u hu hm
          exact hpre ⟨u, hu, hm⟩
        rw [ih.1 hpre2]
        obtain ⟨w, hw, hm⟩ := h
        have hwv : w = v := by
          rcases List.mem_append.mp hw with h1 | h1
          · exact absurd hm (hpre2 w h1)
          · simpa using h1
        exact groupStep_inherited pre v hpre2 (hwv ▸ hm)

theorem enumerationOrder_shape (keys : List String) :
    enumerationOrder keys
      = (enumerationOrder keys).filter isArrayIndex
        ++ (enumerationOrder keys).filter (fun key => !isArrayIndex key)
    ∧ ((enumerationOrder keys).filter isArrayIndex).Pairwise
        (fun a b => digitsValue a.data ≤ digitsValue b.data)
    ∧ (enumerationOrder keys).filter (fun key => !isArrayIndex key)
        = keys.filter (fun key => !isArrayIndex key) := by
  have hS : ∀ s ∈ (keys.filter isArrayIndex).insertionSort
      (fun a b => digitsValue a.data ≤ digitsValue b.data), isArrayIndex s = true := by
    intro s hs
    have := (List.perm_insertionSort _ _).mem_iff.mp hs
    exact (List.mem_filter.mp this).2
  have h1 : ((keys.filter isArrayIndex).insertionSort
      (fun a b => digitsValue a.data ≤ digitsValue b.data)).filter isArrayIndex
      = (keys.filter isArrayIndex).insertionSort
        (fun a b => digitsValue a.data ≤ digitsValue b.data) :=
    List.filter_eq_self.mpr hS
  have h2 : ((keys.filter isArrayIndex).insertionSort
      (fun a b => digitsValue a.data ≤ digitsValue b.data)).filter
        (fun key => !isArrayIndex key) = [] := by
    rw [List.filter_eq_nil_iff]
    intro s hs
    simp [hS s hs]
  have h3 : (keys.filter (fun key => !isArrayIndex key)).filter isArrayIndex = [] := by
    rw [List.filter_eq_nil_iff]
    intro s hs
    have := (List.mem_filter.mp hs).2
    simpa using this
  have h4 : (keys.filter (fun key => !isArrayIndex key)).filter
      (fun key => !isArrayIndex key) = keys.filter (fun key => !isArrayIndex key) :=
    List.filter_eq_self.mpr (fun s hs => (List.mem_filter.mp hs).2)
  have hsorted : ((keys.filter isArrayIndex).insertionSort
      (fun a b => digitsValue a.data ≤ digitsValue b.data)).Pairwise
        (fun a b => digitsValue a.data ≤ digitsValue b.data) := by
    haveI : IsTotal String (fun a b => digitsValue a.data ≤ digitsValue b.data) :=
      ⟨fun a b => Nat.le_total _ _⟩
    haveI : IsTrans String (fun a b => digitsValue a.data ≤ digitsValue b.data) :=
      ⟨fun a b c hab hbc => Nat.le_trans hab hbc⟩
    exact List.sorted_insertionSort _ _
  unfold enumerationOrder
  rw [List.filter_append, List.filter_append, h1, h2, h3, h4, List.append_nil,
    List.nil_append]
  exact ⟨rfl, hsorted, rfl⟩

theorem digitsValue_append_singleton (cs : List Char) (c : Char) :
    digitsValue (cs ++ [c]) = 10 * digitsValue cs + (c.toNat - 48) := by
  simp [digitsValue, List.foldl_append]

theorem digitsValue_eq_ofDigits (cs : List Char) :
    digitsValue cs = Nat.ofDigits 10 ((cs.map (fun c => c.toNat - 48)).reverse) := by
  induction cs using List.reverseRecOn with
  | nil => simp [digitsValue]
  | append_singleton cs c ih =>
    rw [digitsValue_append_singleton, ih]
    simp [Nat.ofDigits_cons, add_comm]

theorem digit_char_eq (c : Char) (h1 : 48 ≤ c.toNat) (_h2 : c.toNat ≤ 57) :
    Char.ofNat ((c.toNat - 48) + 48) = c := by
  rw [Nat.sub_add_cancel h1]
  exact Char.ofNat_toNat c

theorem digits_chars_eq (cs : List Char)
    (h : ∀ c ∈ cs, 48 ≤ c.toNat ∧ c.toNat ≤ 57) :
    (cs.map (fun c => c.toNat - 48)).map (fun d => Char.ofNat (d + 48)) = cs := by
  rw [List.map_map]
  conv_rhs => rw [← List.map_id cs]
  apply List.map_congr_left
  intro c hc
  exact digit_char_eq c (h c hc).1 (h c hc).2

theorem isArrayIndex_iff (key : String) :
    isArrayIndex key = true ↔
      key.data ≠ [] ∧ (∀ c ∈ key.data, 48 ≤ c.toNat ∧ c.toNat ≤ 57)
      ∧ (key.data.length = 1 ∨ key.data.head? ≠ some (Char.ofNat 48))
      ∧ digitsValue key.data < 4294967295 := by
  simp [isArrayIndex, and_assoc]

theorem digits_of_canonical (cs : List Char) (hne : cs ≠ [])
    (hd : ∀ c ∈ cs, 48 ≤ c.toNat ∧ c.toNat ≤ 57) (hhead : cs.head? ≠ some (Char.ofNat 48)) :
    Nat.digits 10 (digitsValue cs) = (cs.map (fun c => c.toNat - 48)).reverse := by
  rw [digitsValue_eq_ofDigits]
  apply Nat.digits_ofDigits 10 (by norm_num)
  · intro l hl
    rw [List.mem_reverse, List.mem_map] at hl
    obtain ⟨c, hc, rfl⟩ := hl
    have := (hd c hc).2
    omega
  · intro hL
    obtain ⟨c, cs2, rfl⟩ := List.exists_cons_of_ne_nil hne
    simp only [List.map_cons, List.reverse_cons]
    rw [List.getLast_append_singleton]
    intro h0
    apply hhead
    have h48 : c.toNat = 48 := by
      have := (hd c (List.mem_cons_self _ _)).1
      omega
    simp only [List.head?_cons, Option.some.injEq]
    rw [← Char.ofNat_toNat c, h48]

theorem data_eq_of_digitsValue_eq (a b : List Char)
    (ha : a ≠ [] ∧ (∀ c ∈ a, 48 ≤ c.toNat ∧ c.toNat ≤ 57)
      ∧ (a.length = 1 ∨ a.head? ≠ some (Char.ofNat 48)))
    (hb : b ≠ [] ∧ (∀ c ∈ b, 48 ≤ c.toNat ∧ c.toNat ≤ 57)
      ∧ (b.length = 1 ∨ b.head? ≠ some (Char.ofNat 48)))
    (h : digitsValue a = digitsValue b) : a = b := by
  have hzero : ∀ cs : List Char, cs ≠ [] → (cs.length = 1 ∨ cs.head? ≠ some (Char.ofNat 48)) →
      cs = [Char.ofNat 48] ∨ cs.head? ≠ some (Char.ofNat 48) := by
    intro cs hne hc
    by_cases hh : cs.head? = some (Char.ofNat 48)
    · left
      rcases hc with hlen | hc
      · obtain ⟨c, rfl⟩ := List.length_eq_one.mp hlen
        simpa using hh
      · exact absurd hh hc
    · exact Or.inr hh
  have hval0 : digitsValue [Char.ofNat 48] = 0 := by decide
  have hpos : ∀ cs : List Char, cs ≠ [] → (∀ c ∈ cs, 48 ≤ c.toNat ∧ c.toNat ≤ 57) →
      cs.head? ≠ some (Char.ofNat 48) → digitsValue cs ≠ 0 := by
    intro cs hne hd hh h0
    have := digits_of_canonical cs hne hd hh
    rw [h0, Nat.digits_zero] at this
    have hnil : cs.map (fun c => c.toNat - 48) = [] := by
      simpa using this.symm
    exact hne (List.map_eq_nil_iff.mp hnil)
  rcases hzero a ha.1 ha.2.2 with ha0 | hah
  · rcases hzero b hb.1 hb.2.2 with hb0 | hbh
    · rw [ha0, hb0]
    · exfalso
      rw [ha0, hval0] at h
      exact hpos b hb.1 hb.2.1 hbh h.symm
  · rcases hzero b hb.1 hb.2.2 with hb0 | hbh
    · exfalso
      rw [hb0, hval0] at h
      exact hpos a ha.1 ha.2.1 hah h
    · have h1 := digits_of_canonical a ha.1 ha.2.1 hah
      have h2 := digits_of_canonical b hb.1 hb.2.1 hbh
      rw [h, h2] at h1
      have h3 : a.map (fun c => c.toNat - 48) = b.map (fun c => c.toNat - 48) :=
        (List.reverse_injective h1).symm
      rw [← digits_chars_eq a ha.2.1, ← digits_chars_eq b hb.2.1, h3]

theorem eq_of_digitsValue_eq (a b : String) (ha : isArrayIndex a = true)
    (hb : isArrayIndex b = true) (h : digitsValue a.data = digitsValue b.data) : a = b := by
  have ha2 := (isArrayIndex_iff a).mp ha
  have hb2 := (isArrayIndex_iff b).mp hb
  exact String.ext (data_eq_of_digitsValue_eq a.data b.data ⟨ha2.1, ha2.2.1, ha2.2.2.1⟩
    ⟨hb2.1, hb2.2.1, hb2.2.2.1⟩ h)

theorem enumerationOrder_increasing (keys : List String) (h : keys.Nodup) :
    ((enumerationOrder keys).filter isArrayIndex).Pairwise
      (fun a b => digitsValue a.data < digitsValue b.data) := by
  have h1 := (enumerationOrder_shape keys).2.1
  have h2 : ((enumerationOrder keys).filter isArrayIndex).Pairwise (fun a b => a ≠ b) :=
    (nodup_enumerationOrder keys h).filter _
  refine (h1.and h2).imp_of_mem ?_
  intro a b ha hb hab
  have hia := (List.mem_filter.mp ha).2
  have hib := (List.mem_filter.mp hb).2
  rcases Nat.lt_or_ge (digitsValue a.data) (digitsValue b.data) with hlt | hge
  · exact hlt
  · exact absurd (eq_of_digitsValue_eq a b hia hib (Nat.le_antisymm hab.1 hge)) hab.2

theorem consistent_initialState (scanId : Nat) (url : String) (timestamp : Nat) :
    Consistent (initialState scanId url timestamp) := by
  refine ⟨fun _ => rfl, fun _ => ⟨rfl, rfl, rfl⟩, fun h => ?_⟩
  simp [initialState] at h

theorem consistent_failScan (record : ScanRecord) (message : String)
    (h : record.results = none) : Consistent (failScan record message) :=
  ⟨fun hne => absurd rfl hne, fun hne => absurd rfl hne, fun _ => Or.inr (Or.inl ⟨rfl, h, rfl⟩)⟩

theorem catchRejection_stage (record : ScanRecord) (thrown : Rejection) :
    (catchRejection record thrown).stage = .finished := by
  unfold catchRejection
  split <;> rfl

theorem catchRejection_record (record : ScanRecord) (thrown : Rejection) :
    (catchRejection record thrown).record.results = record.results
    ∧ (catchRejection record thrown).record.id = record.id
    ∧ (catchRejection record thrown).record.url = record.url
    ∧ (catchRejection record thrown).record.timestamp = record.timestamp := by
  unfold catchRejection
  split <;> exact ⟨rfl, rfl, rfl, rfl⟩

theorem catchRejection_progress (record : ScanRecord) (thrown : Rejection)
    (h : record.progress ≤ 100) :
    record.progress ≤ (catchRejection record thrown).record.progress := by
  unfold catchRejection
  split
  · exact h
  · exact h
  · exact le_refl _

theorem consistent_catchRejection (record : ScanRecord) (thrown : Rejection)
    (hstatus : record.status = "scanning") (hres : record.results = none)
    (herr : record.error = none) (hlow : 10 ≤ record.progress) (hhigh : record.progress ≤ 80) :
    Consistent (catchRejection record thrown) := by
  unfold catchRejection
  split
  · exact consistent_failScan record _ hres
  · exact ⟨fun hne => absurd rfl hne, fun hne => absurd rfl hne,
      fun _ => Or.inr (Or.inl ⟨rfl, hres, rfl⟩)⟩
  · exact ⟨fun hne => absurd rfl hne, fun hne => absurd rfl hne,
      fun _ => Or.inr (Or.inr ⟨hstatus, hres, herr, hlow, hhigh⟩)⟩

theorem step_consistent (adapters : Adapters) (toLowerCase : String → String)
    (s next : ScanState) (hs : Consistent s) (hstep : step adapters toLowerCase s = some next) :
    Consistent next ∧ s.record.progress ≤ next.record.progress
      ∧ stageRank s.stage < stageRank next.stage := by
  obtain ⟨hprog, hrun, hfin⟩ := hs
  unfold step at hstep
  cases hst : s.stage <;> rw [hst] at hstep <;> simp only at hstep
  case finished => simp at hstep
  case created =>
    cases hstep
    have h := hrun (by simp [hst])
    have hp := hprog (by simp [hst])
    simp only [hst, stageProgress] at hp
    refine ⟨⟨fun _ => rfl, fun _ => h, fun h2 => by simp at h2⟩, by simp [hp],
      by simp [hst, stageRank]⟩
  case crawling =>
    have h := hrun (by simp [hst])
    have hp := hprog (by simp [hst])
    simp only [hst, stageProgress] at hp
    split at hstep <;> cases hstep
    · exact ⟨consistent_catchRejection _ _ h.1 h.2.1 h.2.2 (by omega) (by omega),
        catchRejection_progress _ _ (by omega),
        by simp [hst, catchRejection_stage, stageRank]⟩
    · exact ⟨⟨fun _ => by simp [hp, stageProgress], fun _ => h, fun h2 => by simp at h2⟩,
        le_refl _, by simp [hst, stageRank]⟩
  case savingCrawl crawlerOutput =>
    have h := hrun (by simp [hst])
    have hp := hprog (by simp [hst])
    simp only [hst, stageProgress] at hp
    split at hstep <;> cases hstep
    · exact ⟨consistent_failScan _ _ h.2.1, by simp [failScan, hp],
        by simp [hst, failScan, stageRank]⟩
    · exact ⟨⟨fun _ => rfl, fun _ => h, fun h2 => by simp at h2⟩, by simp [hp],
        by simp [hst, stageRank]⟩
  case auditingPerformance endpoints input =>
    have h := hrun (by simp [hst])
    have hp := hprog (by simp [hst])
    simp only [hst, stageProgress] at hp
    split at hstep <;> cases hstep
    · exact ⟨consistent_catchRejection _ _ h.1 h.2.1 h.2.2 (by omega) (by omega),
        catchRejection_progress _ _ (by omega),
        by simp [hst, catchRejection_stage, stageRank]⟩
    · exact ⟨⟨fun _ => rfl, fun _ => h, fun h2 => by simp at h2⟩, by simp [hp],
        by simp [hst, stageRank]⟩
  case auditingUx endpoints performanceResults input =>
    have h := hrun (by simp [hst])
    have hp := hprog (by simp [hst])
    simp only [hst, stageProgress] at hp
    split at hstep <;> cases hstep
    · exact ⟨consistent_catchRejection _ _ h.1 h.2.1 h.2.2 (by omega) (by omega),
        catchRejection_progress _ _ (by omega),
        by simp [hst, catchRejection_stage, stageRank]⟩
    · exact ⟨⟨fun _ => by simp [hp, stageProgress], fun _ => h, fun h2 => by simp at h2⟩,
        le_refl _, by simp [hst, stageRank]⟩
  case savingUx endpoints performanceResults uxResults =>
    have h := hrun (by simp [hst])
    have hp := hprog (by simp [hst])
    simp only [hst, stageProgress] at hp
    cases hstep
    exact ⟨⟨fun _ => rfl, fun _ => h, fun h2 => by simp at h2⟩, by simp [hp],
      by simp [hst, stageRank]⟩
  case auditingSecurity endpoints performanceResults uxResults input =>
    have h := hrun (by simp [hst])
    have hp := hprog (by simp [hst])
    simp only [hst, stageProgress] at hp
    split at hstep <;> cases hstep
    · exact ⟨consistent_catchRejection _ _ h.1 h.2.1 h.2.2 (by omega) (by omega),
        catchRejection_progress _ _ (by omega),
        by simp [hst, catchRejection_stage, stageRank]⟩
    · exact ⟨⟨fun _ => rfl, fun _ => h, fun h2 => by simp at h2⟩, by simp [hp],
        by simp [hst, stageRank]⟩
  case aggregating endpoints performanceResults uxResults securityResults =>
    have h := hrun (by simp [hst])
    have hp := hprog (by simp [hst])
    simp only [hst, stageProgress] at hp
    split at hstep <;> cases hstep
    · exact ⟨consistent_failScan _ _ h.2.1, by simp [failScan, hp],
        by simp [hst, failScan, stageRank]⟩
    · exact ⟨⟨fun h2 => absurd rfl h2, fun h2 => absurd rfl h2,
          fun _ => Or.inl ⟨rfl, by simp, h.2.2, rfl⟩⟩, by simp [hp],
        by simp [hst, stageRank]⟩

theorem step_eq_none_iff (adapters : Adapters) (toLowerCase : String → String) (s : ScanState) :
    step adapters toLowerCase s = none ↔ s.stage = .finished := by
  unfold step
  cases hst : s.stage <;> simp <;> split <;> simp

theorem step_cases (adapters : Adapters) (toLowerCase : String → String) (s next : ScanState)
    (hstep : step adapters toLowerCase s = some next) :
    (∃ thrown, next = catchRejection s.record thrown
        ∧ ((∃ url depth, adapters.crawlWebsite url depth = .error thrown)
          ∨ (∃ input, adapters.runPerformanceAudit input = .error thrown)
          ∨ (∃ input, adapters.runAxeAudit input = .error thrown)
          ∨ (∃ input, adapters.runSecurityAudit input = .error thrown)))
    ∨ (∃ message, next = failScan s.record message)
    ∨ (∃ finalResults, next =
        { record := { s.record with status := "success", progress := 100,
                                    results := some finalResults }
          stage := .finished })
    ∨ (next.stage ≠ .finished ∧ next.record.status = s.record.status
        ∧ next.record.error = s.record.error ∧ next.record.results = s.record.results) := by
  unfold step at hstep
  cases hst : s.stage <;> rw [hst] at hstep <;> simp only at hstep
  case finished => simp at hstep
  case created => cases hstep; exact Or.inr (Or.inr (Or.inr ⟨by simp, rfl, rfl, rfl⟩))
  case crawling =>
    split at hstep <;> cases hstep
    · rename_i thrown heq
      exact Or.inl ⟨thrown, rfl, Or.inl ⟨_, _, heq⟩⟩
    · exact Or.inr (Or.inr (Or.inr ⟨by simp, rfl, rfl, rfl⟩))
  case savingCrawl o =>
    split at hstep <;> cases hstep
    · exact Or.inr (Or.inl ⟨_, rfl⟩)
    · exact Or.inr (Or.inr (Or.inr ⟨by simp, rfl, rfl, rfl⟩))
  case auditingPerformance e i =>
    split at hstep <;> cases hstep
    · rename_i thrown heq
      exact Or.inl ⟨thrown, rfl, Or.inr (Or.inl ⟨_, heq⟩)⟩
    · exact Or.inr (Or.inr (Or.inr ⟨by simp, rfl, rfl, rfl⟩))
  case auditingUx e p i =>
    split at hstep <;> cases hstep
    · rename_i thrown heq
      exact Or.inl ⟨thrown, rfl, Or.inr (Or.inr (Or.inl ⟨_, heq⟩))⟩
    · exact Or.inr (Or.inr (Or.inr ⟨by simp, rfl, rfl, rfl⟩))
  case savingUx e p u => cases hstep; exact Or.inr (Or.inr (Or.inr ⟨by simp, rfl, rfl, rfl⟩))
  case auditingSecurity e p u i =>
    split at hstep <;> cases hstep
    · rename_i thrown heq
      exact Or.inl ⟨thrown, rfl, Or.inr (Or.inr (Or.inr ⟨_, heq⟩))⟩
    · exact Or.inr (Or.inr (Or.inr ⟨by simp, rfl, rfl, rfl⟩))
  case aggregating e p u sec =>
    split at hstep <;> cases hstep
    · exact Or.inr (Or.inl ⟨_, rfl⟩)
    · exact Or.inr (Or.inr (Or.inl ⟨_, rfl⟩))

theorem step_error_recorded (adapters : Adapters) (toLowerCase : String → String)
    (hmsg : RejectsWithMessage adapters) (s next : ScanState) (hc : Consistent s)
    (hi : s.record.status = "error" → s.record.error ≠ none)
    (hstep : step adapters toLowerCase s = some next) :
    next.record.status = "error" → next.record.error ≠ none := by
  have hrun : s.record.status = "scanning" := by
    by_cases hst : s.stage = .finished
    · rw [(step_eq_none_iff adapters toLowerCase s).mpr hst] at hstep
      cases hstep
    · exact (hc.2.1 hst).1
  rcases step_cases adapters toLowerCase s next hstep with
    ⟨thrown, rfl, hthrown⟩ | ⟨message, rfl⟩ | ⟨finalResults, rfl⟩ | ⟨_, h1, h2, _⟩
  · cases thrown with
    | nullish => simp [catchRejection, hrun]
    | value m =>
      cases m with
      | some message => simp [catchRejection, failScan]
      | none =>
        exfalso
        rcases hthrown with ⟨u, d, h⟩ | ⟨i, h⟩ | ⟨i, h⟩ | ⟨i, h⟩
        · exact hmsg.1 u d h
        · exact hmsg.2.1 i h
        · exact hmsg.2.2.1 i h
        · exact hmsg.2.2.2 i h
  · simp [failScan]
  · simp
  · rw [h1, h2]; exact hi

theorem step_terminal (adapters : Adapters) (toLowerCase : String → String)
    (hnull : NeverRejectsNullish adapters) (s next : ScanState) (_hc : Consistent s)
    (_hi : s.stage = .finished → isTerminal s.record.status = true)
    (hstep : step adapters toLowerCase s = some next) :
    next.stage = .finished → isTerminal next.record.status = true := by
  rcases step_cases adapters toLowerCase s next hstep with
    ⟨thrown, rfl, hthrown⟩ | ⟨message, rfl⟩ | ⟨finalResults, rfl⟩ | ⟨h0, _, _, _⟩
  · cases thrown with
    | nullish =>
      exfalso
      rcases hthrown with ⟨u, d, h⟩ | ⟨i, h⟩ | ⟨i, h⟩ | ⟨i, h⟩
      · exact hnull.1 u d h
      · exact hnull.2.1 i h
      · exact hnull.2.2.1 i h
      · exact hnull.2.2.2 i h
    | value m => cases m <;> simp [catchRejection, failScan, isTerminal]
  · simp [failScan, isTerminal]
  · simp [isTerminal]
  · intro h; exact absurd h h0

theorem run_consistent (adapters : Adapters) (toLowerCase : String → String) (fuel : Nat)
    (s : ScanState) (hs : Consistent s) :
    ∀ t ∈ run adapters toLowerCase fuel s, Consistent t := by
  induction fuel generalizing s with
  | zero =>
    intro t ht
    simp only [run, List.mem_singleton] at ht
    exact ht ▸ hs
  | succ n ih =>
    intro t ht
    unfold run at ht
    cases hstep : step adapters toLowerCase s with
    | none =>
      simp only [hstep, List.mem_singleton] at ht
      exact ht ▸ hs
    | some next =>
      simp only [hstep, List.mem_cons] at ht
      rcases ht with ht | ht
      · exact ht ▸ hs
      · exact ih next (step_consistent adapters toLowerCase s next hs hstep).1 t ht

theorem run_invariant (I : ScanState → Prop) (adapters : Adapters)
    (toLowerCase : String → String)
    (hstep : ∀ s next, Consistent s → I s → step adapters toLowerCase s = some next → I next)
    (fuel : Nat) (s : ScanState) (hc : Consistent s) (hi : I s) :
    ∀ t ∈ run adapters toLowerCase fuel s, I t := by
  induction fuel generalizing s with
  | zero =>
    intro t ht
    simp only [run, List.mem_singleton] at ht
    exact ht ▸ hi
  | succ n ih =>
    intro t ht
    unfold run at ht
    cases hs : step adapters toLowerCase s with
    | none =>
      simp only [hs, List.mem_singleton] at ht
      exact ht ▸ hi
    | some next =>
      simp only [hs, List.mem_cons] at ht
      rcases ht with ht | ht
      · exact ht ▸ hi
      · exact ih next (step_consistent adapters toLowerCase s next hc hs).1
          (hstep s next hc hi hs) t ht

theorem run_head (adapters : Adapters) (toLowerCase : String → String) (fuel : Nat)
    (s : ScanState) : (run adapters toLowerCase fuel s).head? = some s := by
  cases fuel with
  | zero => rfl
  | succ n =>
    unfold run
    cases step adapters toLowerCase s <;> rfl

theorem run_progress_chain (adapters : Adapters) (toLowerCase : String → String) (fuel : Nat)
    (s : ScanState) (hs : Consistent s) :
    List.Chain' (fun a b => a ≤ b)
      ((run adapters toLowerCase fuel s).map (fun t => t.record.progress)) := by
  induction fuel generalizing s with
  | zero => simp [run]
  | succ n ih =>
    unfold run
    cases hstep : step adapters toLowerCase s with
    | none => simp
    | some next =>
      obtain ⟨hc, hle, _⟩ := step_consistent adapters toLowerCase s next hs hstep
      simp only [List.map_cons]
      apply List.Chain'.cons' (ih next hc)
      intro y hy
      rw [List.head?_map, run_head] at hy
      simp only [Option.map_some', Option.mem_def, Option.some.injEq] at hy
      exact hy ▸ hle

theorem run_getLast_finished (adapters : Adapters) (toLowerCase : String → String) (fuel : Nat)
    (s : ScanState) (hs : Consistent s) (hfuel : 8 ≤ fuel + stageRank s.stage) :
    ∃ t, (run adapters toLowerCase fuel s).getLast? = some t ∧ t.stage = .finished := by
  induction fuel generalizing s with
  | zero =>
    refine ⟨s, by simp [run], ?_⟩
    have h8 : 8 ≤ stageRank s.stage := by omega
    cases hst : s.stage <;> simp [hst, stageRank] at h8 ⊢
  | succ n ih =>
    unfold run
    cases hstep : step adapters toLowerCase s with
    | none => exact ⟨s, by simp, (step_eq_none_iff adapters toLowerCase s).mp hstep⟩
    | some next =>
      obtain ⟨hc, _, hr⟩ := step_consistent adapters toLowerCase s next hs hstep
      obtain ⟨t, ht, hfin⟩ := ih next hc (by omega)
      refine ⟨t, ?_, hfin⟩
      simp only
      obtain ⟨x, xs, hx⟩ : ∃ x xs, run adapters toLowerCase n next = x :: xs := by
        have := run_head adapters toLowerCase n next
        cases hrun : run adapters toLowerCase n next with
        | nil => simp [hrun] at this
        | cons x xs => exact ⟨x, xs, rfl⟩
      rw [hx] at ht ⊢
      rw [List.getLast?_cons_cons]
      exact ht

theorem lookup_defineProperty_self (key : String) (g : ViolationGroup) (obj : ViolationsByType)
    (h : obj.lookup key = none) : (defineProperty key g obj).lookup key = some g := by
  induction obj with
  | nil => simp [defineProperty, List.lookup]
  | cons kv rest ih =>
    obtain ⟨k, g0⟩ := kv
    have hk : (key == k) = false := by
      cases hb : key == k with
      | false => rfl
      | true => simp [List.lookup, hb] at h
    have hrest : rest.lookup key = none := by
      simpa [List.lookup, hk] using h
    unfold defineProperty
    split_ifs
    · simp [List.lookup]
    · simp [List.lookup, hk, ih hrest]

theorem keys_updateProperty (key : String) (f : ViolationGroup → ViolationGroup)
    (obj : ViolationsByType) :
    (updateProperty key f obj).map Prod.fst = obj.map Prod.fst := by
  induction obj with
  | nil => rfl
  | cons kv rest ih =>
    obtain ⟨k, g0⟩ := kv
    unfold updateProperty
    split_ifs
    · rfl
    · simp [ih]

theorem keys_defineProperty (key : String) (g : ViolationGroup) (obj : ViolationsByType)
    (k : String) (hk : k ∈ (defineProperty key g obj).map Prod.fst) :
    k = key ∨ k ∈ obj.map Prod.fst := by
  induction obj with
  | nil =>
    simp [defineProperty] at hk
    exact Or.inl hk
  | cons kv rest ih =>
    obtain ⟨k0, g0⟩ := kv
    unfold defineProperty at hk
    split_ifs at hk
    · simp only [List.map_cons, List.mem_cons] at hk ⊢
      exact hk
    · simp only [List.map_cons, List.mem_cons] at hk ⊢
      rcases hk with hk | hk
      · exact Or.inr (Or.inl hk)
      · rcases ih hk with h | h
        · exact Or.inl h
        · exact Or.inr (Or.inr h)

theorem groupStep_returns (obj : ViolationsByType) (v : UxIssue)
    (hobj : ∀ k ∈ obj.map Prod.fst, k ∉ objectPrototypeNames)
    (hv : v.id ∉ objectPrototypeNames) :
    ∃ o, groupStep obj v = .ok o ∧ ∀ k ∈ o.map Prod.fst, k ∉ objectPrototypeNames := by
  unfold groupStep
  cases hl : obj.lookup v.id with
  | some g =>
    have hread : readProperty obj v.id = .own g := by simp [readProperty, hl]
    simp only [hread]
    exact ⟨_, rfl, by rw [keys_updateProperty]; exact hobj⟩
  | none =>
    have hread : readProperty obj v.id = .undefined := by simp [readProperty, hl, hv]
    simp only [hread]
    have hread2 := lookup_defineProperty_self v.id
      { id := v.id, description := v.description, helpUrl := v.helpUrl,
        severity := v.impact, count := 0, affectedPages := [] } obj hl
    simp only [readProperty, hread2]
    refine ⟨_, rfl, ?_⟩
    rw [keys_updateProperty]
    intro k hk
    rcases keys_defineProperty _ _ _ k hk with h | h
    · exact h ▸ hv
    · exact hobj k h

theorem groupViolations_returns (issues : List UxIssue) (obj : ViolationsByType)
    (hobj : ∀ k ∈ obj.map Prod.fst, k ∉ objectPrototypeNames)
    (h : ∀ v ∈ issues, v.id ∉ objectPrototypeNames) :
    ∃ o, groupViolations issues obj = .ok o := by
  induction issues generalizing obj with
  | nil => exact ⟨obj, rfl⟩
  | cons v rest ih =>
    obtain ⟨o, ho, hkeys⟩ := groupStep_returns obj v hobj (h v (List.mem_cons_self _ _))
    unfold groupViolations
    simp only [ho]
    exact ih o hkeys (fun u hu => h u (List.mem_cons_of_mem _ hu))

theorem processUxResults_returns (ux : UxResults) (results : List AuditResult)
    (hr : ux.results = some results)
    (h : ∀ v ∈ taggedViolations (pagesWithStatus "COMPLETED" results),
      v.id ∉ objectPrototypeNames) :
    ∃ r, processUxResults (some ux) = .ok r := by
  obtain ⟨o, ho⟩ := groupViolations_returns _ [] (by simp) h
  rw [processUxResults_eq ux results hr, ho]
  exact ⟨_, rfl⟩

theorem processUxResults_ok (ux : UxResults) (results : List AuditResult) (r : UxProcessed)
    (hr : ux.results = some results) (hok : processUxResults (some ux) = .ok r) :
    r.score = averageScoreOf (pagesWithStatus "COMPLETED" results)
    ∧ r.issues = taggedViolations (pagesWithStatus "COMPLETED" results) := by
  rw [processUxResults_eq ux results hr] at hok
  cases hg : groupViolations (taggedViolations (pagesWithStatus "COMPLETED" results)) [] with
  | error e => simp [hg] at hok
  | ok o =>
    simp only [hg, Except.ok.injEq] at hok
    subst hok
    exact ⟨rfl, rfl⟩

/-! ## Overall score -/

/-- C1. For every four scores, each a number or absent, calculateOverallScore returns 0 when
all four are absent and otherwise the mean of the scores that are present (sum and count
both taken over the present ones), rounded to the nearest integer: no integer is nearer to
the mean. In particular (80, 90, 70, 60) gives 75, four absent scores give 0 and
(100, absent, 50, absent) gives 75. -/
theorem calculateOverallScore_mean (performance seo ux security : Option Int) :
    (calculateOverallScore performance seo ux security =
      if [performance, seo, ux, security].reduceOption = [] then 0
      else mathRound ((([performance, seo, ux, security].reduceOption.sum : Int) : ℚ)
        / ([performance, seo, ux, security].reduceOption.length : ℚ)))
    ∧ ([performance, seo, ux, security].reduceOption = [] ∨ ∀ k : Int,
        |((calculateOverallScore performance seo ux security : Int) : ℚ)
            - (([performance, seo, ux, security].reduceOption.sum : Int) : ℚ)
              / ([performance, seo, ux, security].reduceOption.length : ℚ)|
          ≤ |(k : ℚ) - (([performance, seo, ux, security].reduceOption.sum : Int) : ℚ)
              / ([performance, seo, ux, security].reduceOption.length : ℚ)|)
    ∧ calculateOverallScore (some 80) (some 90) (some 70) (some 60) = 75
    ∧ calculateOverallScore none none none none = 0
    ∧ calculateOverallScore (some 100) none (some 50) none = 75 := by
  have key : ∀ p s u x : Option Int, calculateOverallScore p s u x =
      if [p, s, u, x].reduceOption = [] then 0
      else mathRound ((([p, s, u, x].reduceOption.sum : Int) : ℚ)
        / ([p, s, u, x].reduceOption.length : ℚ)) := by
    intro p s u x
    unfold calculateOverallScore
    simp only [List.reduceOption, foldl_add_eq_sum, zero_add, List.length_eq_zero]
  refine ⟨key _ _ _ _, ?_, ?_, ?_, ?_⟩
  · by_cases h : [performance, seo, ux, security].reduceOption = []
    · exact Or.inl h
    · right
      intro k
      rw [key, if_neg h]
      exact mathRound_nearest _ k
  · have h : [some (80 : Int), some 90, some 70, some 60].reduceOption = [80, 90, 70, 60] := rfl
    rw [key, h, if_neg (by simp), mathRound_eq_iff]
    norm_num
  · rw [key, if_pos (by simp [List.reduceOption])]
  · have h : [some (100 : Int), none, some 50, none].reduceOption = [100, 50] := rfl
    rw [key, h, if_neg (by simp), mathRound_eq_iff]
    norm_num

/-! ## Security results -/

/-- C2. For a security output that has a summary, the score of processSecurityResults is
100 - 15 * high - 5 * medium - 2 * low, over the counts of the risk distribution (a missing
count or a missing distribution counting as 0), clamped to the range 0-100. The
informational count has no part in it: two outputs that agree on the three counts have the
same score. With no finding of high, medium or low risk the score is 100, and with
deductions of 100 or more it is 0. -/
theorem processSecurityResults_score (toLowerCase : String → String) (sec : SecurityResults)
    (summary : SecuritySummary) (hs : sec.summary = some summary) :
    (processSecurityResults toLowerCase (some sec)).score =
        max 0 (min 100 (100 - 15 * (riskCount summary (fun r => r.high) : Int)
          - 5 * (riskCount summary (fun r => r.medium) : Int)
          - 2 * (riskCount summary (fun r => r.low) : Int)))
    ∧ (∀ (sec2 : SecurityResults) (summary2 : SecuritySummary), sec2.summary = some summary2 →
        riskCount summary2 (fun r => r.high) = riskCount summary (fun r => r.high) →
        riskCount summary2 (fun r => r.medium) = riskCount summary (fun r => r.medium) →
        riskCount summary2 (fun r => r.low) = riskCount summary (fun r => r.low) →
        (processSecurityResults toLowerCase (some sec2)).score
          = (processSecurityResults toLowerCase (some sec)).score)
    ∧ (riskCount summary (fun r => r.high) = 0 ∧ riskCount summary (fun r => r.medium) = 0
        ∧ riskCount summary (fun r => r.low) = 0 →
          (processSecurityResults toLowerCase (some sec)).score = 100)
    ∧ (100 ≤ 15 * riskCount summary (fun r => r.high) + 5 * riskCount summary (fun r => r.medium)
          + 2 * riskCount summary (fun r => r.low) →
          (processSecurityResults toLowerCase (some sec)).score = 0) := by
  have key : ∀ (sec : SecurityResults) (summary : SecuritySummary), sec.summary = some summary →
      (processSecurityResults toLowerCase (some sec)).score =
        max 0 (min 100 (100 - 15 * (riskCount summary (fun r => r.high) : Int)
          - 5 * (riskCount summary (fun r => r.medium) : Int)
          - 2 * (riskCount summary (fun r => r.low) : Int))) := by
    intro sec summary hs
    unfold processSecurityResults riskCount
    simp only [hs]
    rw [securityScore_eq]
    cases summary.riskDistribution <;> rfl
  refine ⟨key sec summary hs, ?_, ?_, ?_⟩
  · intro sec2 summary2 hs2 h1 h2 h3
    rw [key sec summary hs, key sec2 summary2 hs2, h1, h2, h3]
  · rintro ⟨h1, h2, h3⟩
    rw [key sec summary hs, h1, h2, h3]
    rfl
  · intro h
    rw [key sec summary hs]
    omega

/-- The distribution with two high, one medium and no low finding gives 65, whatever its
informational count. -/
theorem processSecurityResults_score_witness :
    (processSecurityResults asciiLower (some sampleSecurity)).score = 65 := by
  rw [(processSecurityResults_score asciiLower sampleSecurity _ rfl).1]
  decide

/-- C5. When the topVulnerabilities list of the summary holds k entries, k at least 1, whose
risk is not "Informational", the vulnerabilities list has min(15, k) entries and its i-th
entry is built from the i-th of those k entries, in their original order; an informational
entry is not among them, wherever it stands in the list. With k = 20 the list has 15
entries. -/
theorem processSecurityResults_cap (toLowerCase : String → String) (sec : SecurityResults)
    (summary : SecuritySummary) (top : List TopVulnerability)
    (hs : sec.summary = some summary) (ht : summary.topVulnerabilities = some top)
    (hk : 1 ≤ (top.filter keepTop).length) :
    (processSecurityResults toLowerCase (some sec)).vulnerabilities.length
        = min 15 (top.filter keepTop).length
    ∧ (∀ i, i < min 15 (top.filter keepTop).length →
        (processSecurityResults toLowerCase (some sec)).vulnerabilities[i]?
          = ((top.filter keepTop)[i]?).map (mapTopVulnerability toLowerCase))
    ∧ (∀ e ∈ top, e.risk = some "Informational" → e ∉ top.filter keepTop)
    ∧ (∀ e ∈ top, e.risk ≠ some "Informational" → e ∈ top.filter keepTop)
    ∧ ((top.filter keepTop).length = 20 →
        (processSecurityResults toLowerCase (some sec)).vulnerabilities.length = 15) := by
  rw [vulnerabilities_of_top toLowerCase sec summary top hs ht hk]
  refine ⟨by simp, ?_, ?_, ?_, ?_⟩
  · intro i hi
    have h15 : i < 15 := lt_of_lt_of_le hi (min_le_left _ _)
    simp [List.getElem?_map, List.getElem?_take, h15]
  · intro e _ he hmem
    have := (List.mem_filter.mp hmem).2
    simp [keepTop, he] at this
  · intro e hmem he
    exact List.mem_filter.mpr ⟨hmem, by simp [keepTop, he]⟩
  · intro h
    simp [h]

/-- Two informational entries followed by twenty entries of high risk give fifteen
vulnerabilities, the first built from the first entry of high risk. -/
theorem processSecurityResults_cap_witness :
    (processSecurityResults asciiLower (some sampleTopTwenty)).vulnerabilities.length = 15
    ∧ (processSecurityResults asciiLower (some sampleTopTwenty)).vulnerabilities[0]?
        = some (mapTopVulnerability asciiLower (highEntry 0)) := by
  have h := processSecurityResults_cap asciiLower sampleTopTwenty _ _ rfl rfl (by decide)
  refine ⟨h.2.2.2.2 (by decide), ?_⟩
  rw [h.2.1 0 (by decide)]
  rfl

/-- C9 (counterexample). An entry that is kept and reports 0 occurrences is given the
count 1, not its occurrences. -/
theorem topVulnerability_zero_occurrences_counted_one :
    sampleZeroOccurrences.summary.bind (fun s => s.topVulnerabilities) = some [zeroOccurrences]
    ∧ zeroOccurrences.occurrences = some 0
    ∧ (processSecurityResults asciiLower (some sampleZeroOccurrences)).vulnerabilities.map
        (fun v => v.count) = [1] := by
  refine ⟨rfl, rfl, ?_⟩
  decide

/-- C9 (amended). Every entry of summary.topVulnerabilities that processSecurityResults
keeps is mapped to an object whose title is the title of the entry, whose severity is its
risk in lower case, or "medium" when the risk is absent or empty, whose count is its
occurrences, or 1 when they are absent or 0, whose impact is its impact, or 5 when it is
absent or 0, and whose effort is its effort, or "Medium" when it is absent or empty. -/
theorem processSecurityResults_top_fields (toLowerCase : String → String)
    (sec : SecurityResults) (summary : SecuritySummary) (top : List TopVulnerability)
    (hs : sec.summary = some summary) (ht : summary.topVulnerabilities = some top)
    (i : Nat) (e : TopVulnerability) (he : ((top.filter keepTop).take 15)[i]? = some e) :
    ∃ v, (processSecurityResults toLowerCase (some sec)).vulnerabilities[i]? = some v
      ∧ v.title = e.title
      ∧ v.severity = (match e.risk with
          | some r => if toLowerCase r = "" then "medium" else toLowerCase r
          | none => "medium")
      ∧ v.count = (match e.occurrences with
          | some n => if n = 0 then 1 else n
          | none => 1)
      ∧ v.impact = (match e.impact with
          | some n => if n = 0 then 5 else n
          | none => 5)
      ∧ v.effort = (match e.effort with
          | some s => if s = "" then "Medium" else s
          | none => "Medium") := by
  have hk : 1 ≤ (top.filter keepTop).length := by
    by_contra hlt
    have h0 : top.filter keepTop = [] := List.length_eq_zero.mp (by omega)
    rw [h0] at he
    simp at he
  refine ⟨mapTopVulnerability toLowerCase e, ?_, rfl, ?_, ?_, ?_, ?_⟩
  · rw [vulnerabilities_of_top toLowerCase sec summary top hs ht hk, List.getElem?_map, he]
    rfl
  · cases h : e.risk <;> simp [mapTopVulnerability, severityOf, jsOr, h]
  · cases h : e.occurrences <;> simp [mapTopVulnerability, jsOrNat, h]
  · cases h : e.impact <;> simp [mapTopVulnerability, jsOrInt, h]
  · cases h : e.effort <;> simp [mapTopVulnerability, jsOr, h]

/-- The entry "SQL Injection" of risk "High" with 0 occurrences, impact 7 and effort "Low"
is mapped to severity "high", count 1, impact 7 and effort "Low". -/
theorem processSecurityResults_top_fields_witness :
    ∃ v, (processSecurityResults asciiLower (some sampleZeroOccurrences)).vulnerabilities[0]?
        = some v
      ∧ v.title = "SQL Injection" ∧ v.severity = "high" ∧ v.count = 1 ∧ v.impact = 7
      ∧ v.effort = "Low" := by
  obtain ⟨v, h1, h2, h3, h4, h5, h6⟩ :=
    processSecurityResults_top_fields asciiLower sampleZeroOccurrences _ _ rfl rfl 0
      zeroOccurrences rfl
  exact ⟨v, h1, h2, h3.trans (by decide), h4, h5, h6⟩

/-- C10 (counterexample). Two outputs have the same summary, with a topVulnerabilities list
that is provided and empty, and different websites: their vulnerabilities differ. -/
theorem empty_topVulnerabilities_falls_back_to_websites :
    (sampleEmptyTop [sampleSite "A"]).summary = (sampleEmptyTop [sampleSite "B"]).summary
    ∧ ((sampleEmptyTop [sampleSite "A"]).summary.bind (fun s => s.topVulnerabilities)).isSome
        = true
    ∧ (processSecurityResults asciiLower (some (sampleEmptyTop [sampleSite "A"]))).vulnerabilities
      ≠ (processSecurityResults asciiLower
          (some (sampleEmptyTop [sampleSite "B"]))).vulnerabilities := by
  refine ⟨rfl, rfl, ?_⟩
  decide

/-- C10 (amended). When the topVulnerabilities list of the summary holds at least one entry
whose risk is not "Informational", the vulnerabilities are built from that list alone: every
output with that summary has the same vulnerabilities, whatever its websites. The issue
lists of the websites are used when the summary has no topVulnerabilities list or a list
with no such entry. -/
theorem processSecurityResults_source_of_vulnerabilities (toLowerCase : String → String)
    (sec : SecurityResults) (summary : SecuritySummary) (hs : sec.summary = some summary) :
    (∀ top, summary.topVulnerabilities = some top → 1 ≤ (top.filter keepTop).length →
      ∀ sec2 : SecurityResults, sec2.summary = some summary →
        (processSecurityResults toLowerCase (some sec2)).vulnerabilities
            = ((top.filter keepTop).take 15).map (mapTopVulnerability toLowerCase)
          ∧ (processSecurityResults toLowerCase (some sec2)).vulnerabilities
            = (processSecurityResults toLowerCase (some sec)).vulnerabilities)
    ∧ ((∀ top, summary.topVulnerabilities = some top → (top.filter keepTop).length = 0) →
        (processSecurityResults toLowerCase (some sec)).vulnerabilities
          = fromWebsites toLowerCase (sec.websites.getD [])) := by
  constructor
  · intro top ht hk sec2 hs2
    rw [vulnerabilities_of_top toLowerCase sec2 summary top hs2 ht hk,
      vulnerabilities_of_top toLowerCase sec summary top hs ht hk]
    exact ⟨rfl, rfl⟩
  · intro hk
    exact vulnerabilities_of_websites toLowerCase sec summary hs hk

/-- Two outputs whose summary lists one entry of high risk have the same vulnerabilities,
although their websites differ. -/
theorem processSecurityResults_source_of_vulnerabilities_witness :
    (processSecurityResults asciiLower (some (sampleOneTop [sampleSite "B"]))).vulnerabilities
      = (processSecurityResults asciiLower (some (sampleOneTop [sampleSite "A"]))).vulnerabilities
    ∧ (sampleOneTop [sampleSite "B"]).websites ≠ (sampleOneTop [sampleSite "A"]).websites := by
  refine ⟨((processSecurityResults_source_of_vulnerabilities asciiLower
    (sampleOneTop [sampleSite "A"]) _ rfl).1 [highEntry 0] rfl (by decide)
    (sampleOneTop [sampleSite "B"]) rfl).2, by decide⟩

/-! ## Accessibility results -/

/-- C3 (counterexample). A page whose status is "completed" in lower case is left out: the
score is 0, whereas the average over the entries whose status is "completed" is 80. -/
theorem processUxResults_lower_case_status_ignored :
    processUxResults (some lowerCasePage)
      = .ok { score := 0, issues := [], recommendations := [] }
    ∧ lowerCasePage.results = some [mkPage "https://example.com/" "completed" 80 []]
    ∧ averageScoreOf
        (pagesWithStatus "completed" [mkPage "https://example.com/" "completed" 80 []]) = 80 := by
  refine ⟨rfl, rfl, ?_⟩
  have h : pagesWithStatus "completed" [mkPage "https://example.com/" "completed" 80 []]
      = [mkPage "https://example.com/" "completed" 80 []] := by decide
  rw [h, averageScoreOf, if_neg (by simp), mathRound_eq_iff]
  norm_num [mkPage]

/-- C3 (amended). For an accessibility output with a results list, the score that
processUxResults returns is the mean of accessibility_score over the entries whose status is
"COMPLETED", rounded to the nearest integer (no integer is nearer to the mean), and 0 when no
entry has that status; the function returns whenever no violation of such an entry has a rule
id that is a property name of Object.prototype. -/
theorem processUxResults_score (ux : UxResults) (results : List AuditResult)
    (hr : ux.results = some results) :
    (∀ r, processUxResults (some ux) = .ok r →
        r.score = averageScoreOf (pagesWithStatus "COMPLETED" results))
    ∧ ((∀ v ∈ taggedViolations (pagesWithStatus "COMPLETED" results),
          v.id ∉ objectPrototypeNames) → ∃ r, processUxResults (some ux) = .ok r)
    ∧ (pagesWithStatus "COMPLETED" results = [] →
        averageScoreOf (pagesWithStatus "COMPLETED" results) = 0)
    ∧ (pagesWithStatus "COMPLETED" results ≠ [] → ∀ k : Int,
        |((averageScoreOf (pagesWithStatus "COMPLETED" results) : Int) : ℚ)
            - ((((pagesWithStatus "COMPLETED" results).map
                  (fun p => p.accessibility_score)).sum : Int) : ℚ)
              / ((pagesWithStatus "COMPLETED" results).length : ℚ)|
          ≤ |(k : ℚ) - ((((pagesWithStatus "COMPLETED" results).map
                  (fun p => p.accessibility_score)).sum : Int) : ℚ)
              / ((pagesWithStatus "COMPLETED" results).length : ℚ)|) := by
  refine ⟨fun r hok => (processUxResults_ok ux results r hr hok).1,
    processUxResults_returns ux results hr, ?_, ?_⟩
  · intro h
    rw [h]
    rfl
  · intro h k
    rw [averageScoreOf, if_neg h]
    exact mathRound_nearest _ k

/-- Two completed pages scoring 80 and 60 and a failed page give the score 70. -/
theorem processUxResults_score_witness :
    ∃ r, processUxResults (some samplePages) = .ok r ∧ r.score = 70 := by
  have h := processUxResults_score samplePages _ rfl
  obtain ⟨r, hok⟩ := h.2.1 (by decide)
  refine ⟨r, hok, ?_⟩
  rw [h.1 r hok]
  have hp : pagesWithStatus "COMPLETED"
      [ mkPage "https://example.com/" "COMPLETED" 80 [mkViolation "image-alt"],
        mkPage "https://example.com/about" "COMPLETED" 60 [mkViolation "image-alt"],
        mkPage "https://example.com/slow" "FAILED" 10 [mkViolation "label"] ]
      = [ mkPage "https://example.com/" "COMPLETED" 80 [mkViolation "image-alt"],
          mkPage "https://example.com/about" "COMPLETED" 60 [mkViolation "image-alt"] ] := by
    decide
  rw [hp, averageScoreOf, if_neg (by simp), mathRound_eq_iff]
  norm_num [mkPage]

/-- C8 (counterexample). A page that did not complete reports a violation, and the issues
list is empty: its length is 0, whereas the pages hold one violation in total. -/
theorem processUxResults_drops_violations_of_failed_page :
    processUxResults (some failedPage)
      = .ok { score := 0, issues := [], recommendations := [] }
    ∧ ((failedPage.results.getD []).map (fun p => (p.violations.getD []).length)).sum = 1 := by
  exact ⟨rfl, rfl⟩

/-- C8 (amended). The issues list that processUxResults returns holds every violation of
every page whose status is "COMPLETED", in the order of the pages and then of the violations
of a page, each with the fields of the violation, the url of its page and, as severity, the
impact of the violation, or "minor" when the impact is absent or empty; its length is the
total number of violations of those pages. The function returns whenever none of these
violations has a rule id that is a property name of Object.prototype. -/
theorem processUxResults_issues (ux : UxResults) (results : List AuditResult)
    (hr : ux.results = some results) :
    (∀ r, processUxResults (some ux) = .ok r →
        r.issues = ((pagesWithStatus "COMPLETED" results).map
            (fun p => (p.violations.getD []).map (tagViolation p))).flatten
        ∧ r.issues.length = ((pagesWithStatus "COMPLETED" results).map
            (fun p => (p.violations.getD []).length)).sum)
    ∧ ((∀ v ∈ taggedViolations (pagesWithStatus "COMPLETED" results),
          v.id ∉ objectPrototypeNames) → ∃ r, processUxResults (some ux) = .ok r)
    ∧ (∀ (p : AuditResult) (violation : Violation),
        (tagViolation p violation).id = violation.id
        ∧ (tagViolation p violation).description = violation.description
        ∧ (tagViolation p violation).helpUrl = violation.helpUrl
        ∧ (tagViolation p violation).impact = violation.impact
        ∧ (tagViolation p violation).url = p.url
        ∧ (tagViolation p violation).severity =
            (match violation.impact with
              | some impact => if impact = "" then "minor" else impact
              | none => "minor")) := by
  refine ⟨fun r hok => ?_, processUxResults_returns ux results hr, ?_⟩
  · have h := (processUxResults_ok ux results r hr hok).2
    refine ⟨h, ?_⟩
    rw [h, taggedViolations, List.length_flatten, List.map_map]
    congr 1
    apply List.map_congr_left
    intro p _
    simp
  · intro p violation
    refine ⟨rfl, rfl, rfl, rfl, rfl, ?_⟩
    cases h : violation.impact <;> simp [tagViolation, jsOr, h]

/-- The issues of the sample: the two violations of the completed pages, none of the
failed one. -/
theorem processUxResults_issues_witness :
    ∃ r, processUxResults (some samplePages) = .ok r
      ∧ r.issues.map (fun v => (v.id, v.url, v.severity))
        = [("image-alt", "https://example.com/", "serious"),
           ("image-alt", "https://example.com/about", "serious")] := by
  have h := processUxResults_issues samplePages _ rfl
  obtain ⟨r, hok⟩ := h.2.1 (by decide)
  refine ⟨r, hok, ?_⟩
  rw [(h.1 r hok).1]
  decide

/-- C4 (counterexample). A page violates the rule "2" and then the rule "1": the
recommendation for "1" comes first, whereas the first occurrence of "2" precedes it. -/
theorem processUxResults_numeric_rule_ids_reordered :
    (processUxResults (some numericIdsPage)).toOption.map (fun r => r.recommendations)
      = some ["Rule 1 (1 instances across 1 pages)", "Rule 2 (1 instances across 1 pages)"]
    ∧ (processUxResults (some numericIdsPage)).toOption.map
        (fun r => recommendationsByRule r.issues)
      = some ["Rule 2 (1 instances across 1 pages)", "Rule 1 (1 instances across 1 pages)"] := by
  constructor <;> decide

/-- C4 (amended). Whenever processUxResults returns, it returns exactly one recommendation
for each distinct rule id among the flattened violations; the recommendations of the rule
ids that are array indices (the decimal form of an integer below 2^32 - 1) come first, by
increasing value of the id, and those of the other rule ids follow in the order of the first
occurrence of the rules; each is the description of the rule followed by
" (<count> instances across <N> pages)", count being the number of flattened violations with
that id and N the number of distinct urls among them. When no rule id is an array index the
recommendations are in the order of the first occurrence of the rules. The function returns
unless a rule id is a property name of Object.prototype, and then it throws. -/
theorem processUxResults_recommendations (ux : UxResults) (results : List AuditResult)
    (hr : ux.results = some results) :
    (∀ r, processUxResults (some ux) = .ok r →
      r.recommendations
        = (enumerationOrder (firstOccurrences (r.issues.map (fun v => v.id)))).map
            (recommendationFor r.issues)
      ∧ (enumerationOrder (firstOccurrences (r.issues.map (fun v => v.id)))).Perm
          (firstOccurrences (r.issues.map (fun v => v.id)))
      ∧ enumerationOrder (firstOccurrences (r.issues.map (fun v => v.id)))
          = (enumerationOrder (firstOccurrences (r.issues.map (fun v => v.id)))).filter
              isArrayIndex
            ++ (enumerationOrder (firstOccurrences (r.issues.map (fun v => v.id)))).filter
              (fun key => !isArrayIndex key)
      ∧ ((enumerationOrder (firstOccurrences (r.issues.map (fun v => v.id)))).filter
            isArrayIndex).Pairwise (fun a b => digitsValue a.data < digitsValue b.data)
      ∧ (enumerationOrder (firstOccurrences (r.issues.map (fun v => v.id)))).filter
            (fun key => !isArrayIndex key)
          = (firstOccurrences (r.issues.map (fun v => v.id))).filter
            (fun key => !isArrayIndex key)
      ∧ r.recommendations.length = (r.issues.map (fun v => v.id)).dedup.length
      ∧ ((∀ v ∈ r.issues, isArrayIndex v.id = false) →
          r.recommendations = recommendationsByRule r.issues))
    ∧ ((∀ v ∈ taggedViolations (pagesWithStatus "COMPLETED" results),
          v.id ∉ objectPrototypeNames) →
        ∃ r, processUxResults (some ux) = .ok r)
    ∧ ((∃ v ∈ taggedViolations (pagesWithStatus "COMPLETED" results),
          v.id ∈ objectPrototypeNames) →
        processUxResults (some ux)
          = .error "Cannot read properties of undefined (reading 'includes')") := by
  have heq := processUxResults_eq ux results hr
  have hg := groupViolations_eq (taggedViolations (pagesWithStatus "COMPLETED" results))
  refine ⟨?_, ?_, ?_⟩
  · intro r hok
    have hissues := (processUxResults_ok ux results r hr hok).2
    by_cases hinh : ∃ v ∈ taggedViolations (pagesWithStatus "COMPLETED" results),
        v.id ∈ objectPrototypeNames
    · rw [heq, hg.2 hinh] at hok
      cases hok
    · have hall : ∀ v ∈ taggedViolations (pagesWithStatus "COMPLETED" results),
          v.id ∉ objectPrototypeNames := fun v hv hm => hinh ⟨v, hv, hm⟩
      rw [heq, hg.1 hall] at hok
      simp only [Except.ok.injEq] at hok
      have hrec : r.recommendations
          = (enumerationOrder (firstOccurrences (r.issues.map (fun v => v.id)))).map
              (recommendationFor r.issues) := by
        rw [hissues, ← hok]
        simp only [enumeratedGroups, List.map_map]
        apply List.map_congr_left
        intro id _
        exact recommendationText_groupOf _ id
      have hshape := enumerationOrder_shape (firstOccurrences (r.issues.map (fun v => v.id)))
      refine ⟨hrec, enumerationOrder_perm _, hshape.1,
        enumerationOrder_increasing _ (nodup_firstOccurrences _), hshape.2.2, ?_, ?_⟩
      · rw [hrec, List.length_map, (enumerationOrder_perm _).length_eq,
          length_firstOccurrences]
      · intro hidx
        rw [hrec, enumerationOrder_of_no_index]
        · rfl
        · intro key hkey
          obtain ⟨v, hv, he⟩ := List.mem_map.mp ((mem_firstOccurrences _ _).mp hkey)
          exact he ▸ hidx v hv
  · intro hall
    rw [heq, hg.1 hall]
    exact ⟨_, rfl⟩
  · intro hinh
    rw [heq, hg.2 hinh]

/-- The rule image-alt violated on two pages gives one recommendation, which reports
2 instances across 2 pages; the rules "2" and "1" violated in this order on one page give
the recommendation of "1" and then that of "2". -/
theorem processUxResults_recommendations_witness :
    (∃ r, processUxResults (some samplePages) = .ok r
      ∧ r.recommendations = ["Rule image-alt (2 instances across 2 pages)"])
    ∧ (∃ r, processUxResults (some numericIdsPage) = .ok r
      ∧ enumerationOrder (firstOccurrences (r.issues.map (fun v => v.id))) = ["1", "2"]
      ∧ r.recommendations
        = ["Rule 1 (1 instances across 1 pages)", "Rule 2 (1 instances across 1 pages)"]) := by
  have h1 := processUxResults_recommendations samplePages _ rfl
  have h2 := processUxResults_recommendations numericIdsPage _ rfl
  obtain ⟨r1, hok1⟩ := h1.2.1 (by decide)
  obtain ⟨r2, hok2⟩ := h2.2.1 (by decide)
  refine ⟨⟨r1, hok1, ?_⟩, ⟨r2, hok2, ?_, ?_⟩⟩
  · rw [(h1.1 r1 hok1).2.2.2.2.2.2 (by
      rw [(processUxResults_ok samplePages _ r1 rfl hok1).2]
      decide), (processUxResults_ok samplePages _ r1 rfl hok1).2]
    decide
  · rw [(processUxResults_ok numericIdsPage _ r2 rfl hok2).2]
    decide
  · rw [(h2.1 r2 hok2).1, (processUxResults_ok numericIdsPage _ r2 rfl hok2).2]
    decide

/-! ## Scan record -/

/-- C6 (the code at the failing input). The security audit of a scan rejects with a value
that has no message, such as a string: line 331 stores the undefined `error.message`, and the
scan ends with status "error" and progress 100 while error is left unset, as results is. -/
theorem scanRecord_error_unset_at_status_error :
    (scanTrace messagelessAdapters asciiLower 1 "https://example.com" 0).getLast?.map
        (fun s => (s.stage, s.record.status, s.record.error, s.record.results.isSome,
          s.record.progress))
      = some (Stage.finished, "error", none, false, 100) := by
  decide

/-- What the code keeps of the relation between status, results and error. In every state
that a scan goes through (just created, between two stages, ended with success, ended by a
failure at any stage), results is set if and only if the status is "success"; error is set
only if the status is "error", where results is unset; none of the two is set while the
status is "scanning"; and the status is one of "scanning", "success" and "error". When no
adapter rejects with a value that has no message, error is set if and only if the status is
"error", and at a terminal status exactly one of results and error is set. -/
theorem scanRecord_results_error (adapters : Adapters) (toLowerCase : String → String)
    (scanId : Nat) (url : String) (timestamp : Nat) (fuel : Nat) (s : ScanState)
    (hs : s ∈ run adapters toLowerCase fuel (initialState scanId url timestamp)) :
    (s.record.results ≠ none ↔ s.record.status = "success")
    ∧ (s.record.error ≠ none → s.record.status = "error")
    ∧ (s.record.status = "error" → s.record.results = none)
    ∧ (s.record.status = "scanning" → s.record.results = none ∧ s.record.error = none)
    ∧ (s.record.status = "scanning" ∨ s.record.status = "success"
        ∨ s.record.status = "error")
    ∧ (RejectsWithMessage adapters →
        (s.record.error ≠ none ↔ s.record.status = "error")
        ∧ (isTerminal s.record.status = true →
            (s.record.results ≠ none ∧ s.record.error = none)
            ∨ (s.record.results = none ∧ s.record.error ≠ none))) := by
  have hinit := consistent_initialState scanId url timestamp
  obtain ⟨_, hrun, hfin⟩ := run_consistent adapters toLowerCase fuel _ hinit s hs
  have hall : (s.record.status = "success" ∧ s.record.results ≠ none ∧ s.record.error = none)
      ∨ (s.record.status = "error" ∧ s.record.results = none)
      ∨ (s.record.status = "scanning" ∧ s.record.results = none ∧ s.record.error = none) := by
    by_cases hst : s.stage = .finished
    · rcases hfin hst with ⟨h1, h2, h3, _⟩ | ⟨h1, h2, _⟩ | ⟨h1, h2, h3, _⟩
      · exact Or.inl ⟨h1, h2, h3⟩
      · exact Or.inr (Or.inl ⟨h1, h2⟩)
      · exact Or.inr (Or.inr ⟨h1, h2, h3⟩)
    · exact Or.inr (Or.inr (hrun hst))
  have hrec : RejectsWithMessage adapters →
      s.record.status = "error" → s.record.error ≠ none := fun hmsg =>
    run_invariant (fun t => t.record.status = "error" → t.record.error ≠ none) adapters
      toLowerCase (fun a b hc hi hstep => step_error_recorded adapters toLowerCase hmsg a b hc hi hstep)
      fuel _ hinit (by simp [initialState, initialRecord]) s hs
  rcases hall with ⟨h1, h2, h3⟩ | ⟨h1, h2⟩ | ⟨h1, h2, h3⟩
  · simp [h1, h2, h3, isTerminal]
  · refine ⟨by simp [h1, h2], fun _ => h1, fun _ => h2, by simp [h1], by simp [h1], ?_⟩
    intro hmsg
    have he := hrec hmsg h1
    exact ⟨⟨fun _ => h1, fun _ => he⟩, fun _ => Or.inr ⟨h2, he⟩⟩
  · simp [h1, h2, h3, isTerminal]

/-- A scan whose accessibility audit fails with a message ends with status "error", the
message as error and no results. -/
theorem scanRecord_results_error_witness :
    RejectsWithMessage uxFailingAdapters
    ∧ (failScan { initialRecord 1 "https://example.com" 0 with progress := 60 }
        "Navigation timeout") ∈ scanTrace uxFailingAdapters asciiLower 1 "https://example.com" 0
    ∧ ((failScan { initialRecord 1 "https://example.com" 0 with progress := 60 }
        "Navigation timeout").record.results ≠ none
      ↔ (failScan { initialRecord 1 "https://example.com" 0 with progress := 60 }
        "Navigation timeout").record.status = "success")
    ∧ ((failScan { initialRecord 1 "https://example.com" 0 with progress := 60 }
        "Navigation timeout").record.error ≠ none
      ↔ (failScan { initialRecord 1 "https://example.com" 0 with progress := 60 }
        "Navigation timeout").record.status = "error") := by
  have hmsg : RejectsWithMessage uxFailingAdapters := by
    refine ⟨?_, ?_, ?_, ?_⟩ <;> intros <;> simp [uxFailingAdapters, stubAdapters]
  have h := scanRecord_results_error uxFailingAdapters asciiLower 1 "https://example.com" 0 8
    (failScan { initialRecord 1 "https://example.com" 0 with progress := 60 }
      "Navigation timeout") (by decide)
  exact ⟨hmsg, by decide, h.1, (h.2.2.2.2.2 hmsg).1⟩

/-- C7. Whatever the adapters do, the progress values that the record of a scan shows one
after the other never decrease and are at most 100; a record with a terminal status has
progress 100 and its task makes no further transition; and the task of every scan ends
within eight transitions, in a terminal status with progress 100 unless an adapter rejected
with null or undefined. -/
theorem scan_progress_monotone (adapters : Adapters) (toLowerCase : String → String)
    (scanId : Nat) (url : String) (timestamp : Nat) (fuel : Nat) :
    List.Chain' (fun a b => a ≤ b)
        ((run adapters toLowerCase fuel (initialState scanId url timestamp)).map
          (fun s => s.record.progress))
    ∧ (∀ s ∈ run adapters toLowerCase fuel (initialState scanId url timestamp),
        s.record.progress ≤ 100)
    ∧ (∀ s ∈ run adapters toLowerCase fuel (initialState scanId url timestamp),
        isTerminal s.record.status = true →
          s.record.progress = 100 ∧ step adapters toLowerCase s = none)
    ∧ (∃ t, (scanTrace adapters toLowerCase scanId url timestamp).getLast? = some t
        ∧ step adapters toLowerCase t = none
        ∧ (NeverRejectsNullish adapters →
            isTerminal t.record.status = true ∧ t.record.progress = 100)) := by
  have hinit := consistent_initialState scanId url timestamp
  have hterminal : ∀ s, Consistent s → isTerminal s.record.status = true →
      s.stage = .finished ∧ s.record.progress = 100 := by
    intro s hc hterm
    have hst : s.stage = .finished := by
      by_contra hne
      have h1 := (hc.2.1 hne).1
      simp [isTerminal, h1] at hterm
    refine ⟨hst, ?_⟩
    rcases hc.2.2 hst with ⟨_, _, _, h⟩ | ⟨_, _, h⟩ | ⟨h1, _⟩
    · exact h
    · exact h
    · simp [isTerminal, h1] at hterm
  refine ⟨run_progress_chain adapters toLowerCase fuel _ hinit, ?_, ?_, ?_⟩
  · intro s hs
    obtain ⟨hp, _, hfin⟩ := run_consistent adapters toLowerCase fuel _ hinit s hs
    by_cases hst : s.stage = .finished
    · rcases hfin hst with ⟨_, _, _, h⟩ | ⟨_, _, h⟩ | ⟨_, _, _, _, h⟩ <;> omega
    · rw [hp hst]
      cases s.stage <;> simp [stageProgress]
  · intro s hs hterm
    have hc := run_consistent adapters toLowerCase fuel _ hinit s hs
    obtain ⟨hst, hp⟩ := hterminal s hc hterm
    exact ⟨hp, (step_eq_none_iff adapters toLowerCase s).mpr hst⟩
  · obtain ⟨t, ht, hfin⟩ := run_getLast_finished adapters toLowerCase 8 _ hinit (by simp)
    have hmem : t ∈ run adapters toLowerCase 8 (initialState scanId url timestamp) :=
      List.mem_of_getLast?_eq_some ht
    have hc := run_consistent adapters toLowerCase 8 _ hinit t hmem
    refine ⟨t, ht, (step_eq_none_iff adapters toLowerCase t).mpr hfin, ?_⟩
    intro hnull
    have hterm : isTerminal t.record.status = true :=
      run_invariant (fun a => a.stage = .finished → isTerminal a.record.status = true) adapters
        toLowerCase (fun a b hc hi hstep => step_terminal adapters toLowerCase hnull a b hc hi hstep)
        8 _ hinit (by simp [initialState]) t hmem hfin
    exact ⟨hterm, (hterminal t hc hterm).2⟩

/-- The progress values of a scan that succeeds, of a scan whose accessibility audit fails
and of a scan whose performance audit rejects with null, and the end of the first. -/
theorem scan_progress_monotone_witness :
    (scanTrace stubAdapters asciiLower 1 "https://example.com" 0).map
        (fun s => s.record.progress) = [0, 10, 10, 30, 60, 60, 80, 95, 100]
    ∧ (scanTrace uxFailingAdapters asciiLower 1 "https://example.com" 0).map
        (fun s => s.record.progress) = [0, 10, 10, 30, 60, 100]
    ∧ (scanTrace nullRejectingAdapters asciiLower 1 "https://example.com" 0).map
        (fun s => (s.record.progress, s.record.status))
      = [(0, "scanning"), (10, "scanning"), (10, "scanning"), (30, "scanning"),
         (30, "scanning")]
    ∧ List.Chain' (fun a b => a ≤ b)
        ((run stubAdapters asciiLower 8 (initialState 1 "https://example.com" 0)).map
          (fun s => s.record.progress))
    ∧ NeverRejectsNullish stubAdapters
    ∧ (∃ t, (scanTrace stubAdapters asciiLower 1 "https://example.com" 0).getLast? = some t
        ∧ isTerminal t.record.status = true ∧ t.record.progress = 100) := by
  have hnull : NeverRejectsNullish stubAdapters := by
    refine ⟨?_, ?_, ?_, ?_⟩ <;> intros <;> simp [stubAdapters]
  have h := scan_progress_monotone stubAdapters asciiLower 1 "https://example.com" 0 8
  obtain ⟨t, ht, _, hend⟩ := h.2.2.2
  exact ⟨by decide, by decide, by decide, h.1, hnull, t, ht, hend hnull⟩

/-! ## Auxiliary facts on the fallback list, the groups, the task and the registry -/

theorem foldl_append_flatten {α β : Type} (f : List β → α → List β) (g : α → List β)
    (hf : ∀ acc a, f acc a = acc ++ g a) (l : List α) (init : List β) :
    l.foldl f init = init ++ (l.map g).flatten := by
  induction l generalizing init with
  | nil => simp
  | cons a l ih => simp [List.foldl_cons, ih, hf]

theorem fromWebsites_eq (toLowerCase : String → String) (websites : List Website) :
    fromWebsites toLowerCase websites
      = (websites.map (siteVulnerabilities toLowerCase)).flatten := by
  unfold fromWebsites
  rw [foldl_append_flatten _ (siteVulnerabilities toLowerCase) _ websites [], List.nil_append]
  intro acc w
  cases hw : w.issues <;> simp [siteVulnerabilities, hw]

theorem asciiLower_ne_empty (s : String) (h : s ≠ "") : asciiLower s ≠ "" := by
  intro he
  apply h
  have hd : (asciiLower s).data = [] := by rw [he]
  unfold asciiLower at hd
  simp only [List.map_eq_nil_iff] at hd
  exact String.ext hd

theorem countViolation_count (url : String) (g : ViolationGroup) :
    (countViolation url g).count = g.count + 1 := by
  unfold countViolation
  simp only
  split_ifs <;> rfl

theorem countViolation_pages (url : String) (g : ViolationGroup)
    (h : g.affectedPages.length ≤ g.count) :
    1 ≤ (countViolation url g).affectedPages.length
    ∧ (countViolation url g).affectedPages.length ≤ (countViolation url g).count := by
  rw [countViolation_count]
  unfold countViolation
  simp only
  split_ifs with hc
  · simp only
    constructor
    · cases hp : g.affectedPages with
      | nil => simp [hp] at hc
      | cons a l => simp
    · omega
  · simp only [List.length_append, List.length_singleton]
    omega

theorem sum_counts_updateProperty (key : String) (f : ViolationGroup → ViolationGroup)
    (obj : ViolationsByType) (g : ViolationGroup) (h : obj.lookup key = some g)
    (hf : (f g).count = g.count + 1) :
    ((updateProperty key f obj).map (fun kv => kv.2.count)).sum
      = (obj.map (fun kv => kv.2.count)).sum + 1 := by
  induction obj with
  | nil => simp at h
  | cons kv rest ih =>
    obtain ⟨k, g0⟩ := kv
    unfold updateProperty
    by_cases hk : k = key
    · subst hk
      simp only [List.lookup, beq_self_eq_true, Option.some.injEq] at h
      subst h
      simp only [if_true, List.map_cons, List.sum_cons, hf]
      omega
    · have hb : (key == k) = false := by simpa using fun h2 : key = k => hk h2.symm
      simp only [List.lookup, hb] at h
      simp only [if_neg hk, List.map_cons, List.sum_cons, ih h]
      omega

theorem mem_updateProperty (key : String) (f : ViolationGroup → ViolationGroup)
    (obj : ViolationsByType) (kv : String × ViolationGroup)
    (hkv : kv ∈ updateProperty key f obj) :
    kv ∈ obj ∨ ∃ g, (key, g) ∈ obj ∧ obj.lookup key = some g ∧ kv = (key, f g) := by
  induction obj with
  | nil => simp [updateProperty] at hkv
  | cons kv0 rest ih =>
    obtain ⟨k, g0⟩ := kv0
    unfold updateProperty at hkv
    by_cases hk : k = key
    · subst hk
      simp only [if_true, List.mem_cons] at hkv
      rcases hkv with hkv | hkv
      · exact Or.inr ⟨g0, List.mem_cons_self _ _, by simp [List.lookup], hkv⟩
      · exact Or.inl (List.mem_cons_of_mem _ hkv)
    · have hb : (key == k) = false := by simpa using fun h2 : key = k => hk h2.symm
      simp only [if_neg hk, List.mem_cons] at hkv
      rcases hkv with hkv | hkv
      · exact Or.inl (hkv ▸ List.mem_cons_self _ _)
      · rcases ih hkv with h | ⟨g, hmem, hl, he⟩
        · exact Or.inl (List.mem_cons_of_mem _ h)
        · exact Or.inr ⟨g, List.mem_cons_of_mem _ hmem, by simp [List.lookup, hb, hl], he⟩

theorem length_updateProperty (key : String) (f : ViolationGroup → ViolationGroup)
    (obj : ViolationsByType) : (updateProperty key f obj).length = obj.length := by
  have := congrArg List.length (keys_updateProperty key f obj)
  simpa using this

theorem mem_of_lookup (obj : ViolationsByType) (key : String) (g : ViolationGroup)
    (h : obj.lookup key = some g) : (key, g) ∈ obj := by
  induction obj with
  | nil => simp at h
  | cons kv rest ih =>
    obtain ⟨k, g0⟩ := kv
    by_cases hk : key = k
    · subst hk
      simp only [List.lookup, beq_self_eq_true, Option.some.injEq] at h
      subst h
      exact List.mem_cons_self _ _
    · have hb : (key == k) = false := by simpa using hk
      simp only [List.lookup, hb] at h
      exact List.mem_cons_of_mem _ (ih h)

theorem update_defineProperty_perm (key : String) (f : ViolationGroup → ViolationGroup)
    (g : ViolationGroup) (obj : ViolationsByType) (h : obj.lookup key = none) :
    (updateProperty key f (defineProperty key g obj)).Perm ((key, f g) :: obj) := by
  induction obj with
  | nil => simp [defineProperty, updateProperty]
  | cons kv rest ih =>
    obtain ⟨k, g0⟩ := kv
    have hb : (key == k) = false := by
      cases hb : key == k with
      | false => rfl
      | true => simp [List.lookup, hb] at h
    have hk : k ≠ key := fun h2 => by simp [h2] at hb
    have hrest : rest.lookup key = none := by simpa [List.lookup, hb] using h
    unfold defineProperty
    split_ifs
    · simp [updateProperty]
    · simp only [updateProperty, if_neg hk]
      exact (List.Perm.cons _ (ih hrest)).trans (List.Perm.swap _ _ _)

theorem groupStep_accounts (obj : ViolationsByType) (v : UxIssue) (o : ViolationsByType)
    (n : Nat) (hobj : GroupsAccountFor obj n) (hstep : groupStep obj v = .ok o) :
    GroupsAccountFor o (n + 1) := by
  obtain ⟨hsum, hlen, hpages⟩ := hobj
  unfold groupStep at hstep
  cases hl : obj.lookup v.id with
  | some g =>
    have hread : readProperty obj v.id = .own g := by simp [readProperty, hl]
    simp only [hread, Except.ok.injEq] at hstep
    subst hstep
    have hg := hpages _ (mem_of_lookup obj v.id g hl)
    refine ⟨?_, ?_, ?_⟩
    · rw [sum_counts_updateProperty v.id _ obj g hl (countViolation_count _ _), hsum]
    · rw [length_updateProperty]
      omega
    · intro kv hkv
      rcases mem_updateProperty _ _ _ _ hkv with h | ⟨g2, hmem, _, he⟩
      · exact hpages kv h
      · subst he
        exact countViolation_pages v.url g2 (hpages _ hmem).2
  | none =>
    by_cases hin : v.id ∈ objectPrototypeNames
    · have hread : readProperty obj v.id = .inherited := by simp [readProperty, hl, hin]
      simp [hread] at hstep
    · have hread : readProperty obj v.id = .undefined := by simp [readProperty, hl, hin]
      simp only [hread] at hstep
      have hl2 := lookup_defineProperty_self v.id
        { id := v.id, description := v.description, helpUrl := v.helpUrl,
          severity := v.impact, count := 0, affectedPages := [] } obj hl
      simp only [readProperty, hl2, Except.ok.injEq] at hstep
      subst hstep
      have hperm := update_defineProperty_perm v.id (countViolation v.url)
        { id := v.id, description := v.description, helpUrl := v.helpUrl,
          severity := v.impact, count := 0, affectedPages := [] } obj hl
      refine ⟨?_, ?_, ?_⟩
      · rw [(hperm.map _).sum_eq]
        simp [hsum, countViolation_count]
        omega
      · rw [hperm.length_eq]
        simp
        omega
      · intro kv hkv
        rcases List.mem_cons.mp (hperm.mem_iff.mp hkv) with h0 | h0
        · subst h0
          exact ⟨by simp [countViolation], by simp [countViolation]⟩
        · exact hpages kv h0

theorem groupViolations_accounts (issues : List UxIssue) (obj o : ViolationsByType) (n : Nat)
    (hobj : GroupsAccountFor obj n) (h : groupViolations issues obj = .ok o) :
    GroupsAccountFor o (n + issues.length) := by
  induction issues generalizing obj n with
  | nil =>
    simp only [groupViolations, Except.ok.injEq] at h
    subst h
    simpa using hobj
  | cons v rest ih =>
    unfold groupViolations at h
    cases hstep : groupStep obj v with
    | error e => simp [hstep] at h
    | ok o1 =>
      simp only [hstep] at h
      have := ih o1 (n + 1) (groupStep_accounts obj v o1 n hobj hstep) h
      simpa [Nat.add_assoc, Nat.add_comm 1] using this

theorem aggregate_facts (toLowerCase : String → String) (endpoints : List String)
    (performanceResults : Option PerformanceResults) (uxResults : Option UxResults)
    (securityResults : Option SecurityResults) (fr : FinalResults)
    (h : aggregate toLowerCase endpoints performanceResults uxResults securityResults = .ok fr) :
    ∃ perf r, performanceResults = some perf ∧ processUxResults uxResults = .ok r
      ∧ fr.ux = r
      ∧ fr.security = processSecurityResults toLowerCase securityResults
      ∧ fr.performance.score
          = jsOrInt (perf.summary.bind (fun s => s.overallPerformanceScore)) 0
      ∧ fr.seo.score = jsOrInt (perf.summary.bind (fun s => s.overallSeoScore)) 0
      ∧ fr.overall = calculateOverallScore (some fr.performance.score) (some fr.seo.score)
          (some fr.ux.score) (some fr.security.score)
      ∧ fr.summary.totalPages = endpoints.length
      ∧ fr.summary.scannedPages = min 10 endpoints.length := by
  unfold aggregate at h
  cases hux : processUxResults uxResults with
  | error e => simp [hux] at h
  | ok r =>
    cases hp : performanceResults with
    | none => simp [hux, hp] at h
    | some perf =>
      simp only [hux, hp, Except.ok.injEq] at h
      subst h
      exact ⟨perf, r, rfl, rfl, rfl, rfl, rfl, rfl, rfl, rfl, rfl⟩

theorem endpointsFrom_catchRejection (scanId : Nat) (url : String) (out : CrawlerOutput)
    (eps : List String) (record : ScanRecord) (thrown : Rejection) (hurl : record.url = url)
    (hid : record.id = scanId) (hres : record.results = none) :
    EndpointsFrom scanId url out eps (catchRejection record thrown) := by
  cases thrown with
  | nullish => exact ⟨hurl, hid, fun fr hfr => by simp [catchRejection, hres] at hfr⟩
  | value m =>
    cases m <;>
      exact ⟨hurl, hid, fun fr hfr => by simp [catchRejection, failScan, hres] at hfr⟩

theorem step_endpointsFrom (adapters : Adapters) (toLowerCase : String → String)
    (scanId : Nat) (url : String) (out : CrawlerOutput)
    (hcrawl : adapters.crawlWebsite url 2 = .ok (some out))
    (s next : ScanState) (hc : Consistent s)
    (hi : EndpointsFrom scanId url out (out.endpoints.getD [url]) s)
    (hstep : step adapters toLowerCase s = some next) :
    EndpointsFrom scanId url out (out.endpoints.getD [url]) next := by
  obtain ⟨hurl, hid, hst⟩ := hi
  obtain ⟨_, hrun, _⟩ := hc
  unfold step at hstep
  cases hstage : s.stage <;> rw [hstage] at hstep hst <;> simp only at hstep hst
  case finished => simp at hstep
  case created =>
    cases hstep
    exact ⟨hurl, hid, trivial⟩
  case crawling =>
    rw [hurl, hcrawl] at hstep
    cases hstep
    exact ⟨hurl, hid, rfl⟩
  case savingCrawl o =>
    subst hst
    simp only at hstep
    cases hstep
    refine ⟨hurl, hid, ?_⟩
    simp [hurl, hid]
  case auditingPerformance e i =>
    have hres := (hrun (by simp [hstage])).2.1
    split at hstep <;> cases hstep
    · exact endpointsFrom_catchRejection _ _ _ _ _ _ hurl hid hres
    · refine ⟨hurl, hid, ?_⟩
      simp [hid, hst.1]
  case auditingUx e p i =>
    have hres := (hrun (by simp [hstage])).2.1
    split at hstep <;> cases hstep
    · exact endpointsFrom_catchRejection _ _ _ _ _ _ hurl hid hres
    · exact ⟨hurl, hid, hst.1⟩
  case savingUx e p u =>
    cases hstep
    refine ⟨hurl, hid, ?_⟩
    simp [hid, hst]
  case auditingSecurity e p u i =>
    have hres := (hrun (by simp [hstage])).2.1
    split at hstep <;> cases hstep
    · exact endpointsFrom_catchRejection _ _ _ _ _ _ hurl hid hres
    · exact ⟨hurl, hid, hst.1⟩
  case aggregating e p u sec =>
    have hres := (hrun (by simp [hstage])).2.1
    split at hstep
    · cases hstep
      exact ⟨hurl, hid, fun fr hfr => by simp [failScan, hres] at hfr⟩
    · rename_i finalResults hagg
      cases hstep
      refine ⟨hurl, hid, ?_⟩
      intro fr hfr
      simp only [Option.some.injEq] at hfr
      subst hfr
      obtain ⟨_, _, _, _, _, _, _, _, _, h1, h2⟩ := aggregate_facts _ _ _ _ _ _ hagg
      rw [hst] at h1 h2
      exact ⟨h1, h2⟩

theorem endpointsFrom_initialState (scanId : Nat) (url : String) (timestamp : Nat)
    (out : CrawlerOutput) (eps : List String) :
    EndpointsFrom scanId url out eps (initialState scanId url timestamp) :=
  ⟨rfl, rfl, trivial⟩

theorem lookup_mapSet_ne (key other : Nat) (value : ScanState)
    (m : List (Nat × ScanState)) (h : other ≠ key) :
    (mapSet key value m).lookup other = m.lookup other := by
  induction m with
  | nil =>
    have hb : (other == key) = false := by simpa using h
    simp [mapSet, List.lookup, hb]
  | cons kv rest ih =>
    obtain ⟨k, v⟩ := kv
    unfold mapSet
    by_cases hk : k = key
    · subst hk
      have hb : (other == k) = false := by simpa using h
      simp [List.lookup, hb]
    · simp only [if_neg hk, List.lookup]
      cases other == k <;> simp [ih]

theorem lookup_mapSet_self (key : Nat) (value : ScanState) (m : List (Nat × ScanState)) :
    (mapSet key value m).lookup key = some value := by
  induction m with
  | nil => simp [mapSet, List.lookup]
  | cons kv rest ih =>
    obtain ⟨k, v⟩ := kv
    unfold mapSet
    by_cases hk : k = key
    · subst hk
      simp [List.lookup]
    · have hb : (key == k) = false := by simpa using fun h : key = k => hk h.symm
      simp [if_neg hk, List.lookup, hb, ih]

theorem resumeTask_lookup_ne (adapters : Adapters) (toLowerCase : String → String)
    (scanId other : Nat) (srv : Server) (h : other ≠ scanId) :
    (resumeTask adapters toLowerCase scanId srv).scanResults.lookup other
      = srv.scanResults.lookup other := by
  unfold resumeTask
  cases hl : srv.scanResults.lookup scanId with
  | none => rfl
  | some s =>
    cases hstep : step adapters toLowerCase s with
    | none => simp only [hstep]
    | some next =>
      simp only [hstep]
      exact lookup_mapSet_ne scanId other next _ h

theorem failureOf_eq_some {α : Type} (r : Except Rejection α) (message : String)
    (h : failureOf r = some message) : r = .error (.value (some message)) := by
  cases r with
  | ok a => simp [failureOf] at h
  | error thrown =>
    cases thrown with
    | nullish => simp [failureOf] at h
    | value m =>
      cases m with
      | none => simp [failureOf] at h
      | some x =>
        simp only [failureOf, Option.some.injEq] at h
        rw [h]

theorem step_of_pendingFailure (adapters : Adapters) (toLowerCase : String → String)
    (s : ScanState) (message : String) (h : pendingFailure adapters s = some message) :
    step adapters toLowerCase s = some (failScan s.record message) := by
  unfold pendingFailure at h
  unfold step
  cases hstage : s.stage <;> rw [hstage] at h <;> simp only at h ⊢
  case crawling => rw [failureOf_eq_some _ _ h]; rfl
  case auditingPerformance e i => rw [failureOf_eq_some _ _ h]; rfl
  case auditingUx e p i => rw [failureOf_eq_some _ _ h]; rfl
  case auditingSecurity e p u i => rw [failureOf_eq_some _ _ h]; rfl
  all_goals simp at h

theorem run_failScan (adapters : Adapters) (toLowerCase : String → String) (fuel : Nat)
    (record : ScanRecord) (message : String) :
    run adapters toLowerCase fuel (failScan record message) = [failScan record message] := by
  cases fuel with
  | zero => rfl
  | succ n => rfl

theorem run_finished (adapters : Adapters) (toLowerCase : String → String) (fuel : Nat)
    (s : ScanState) (h : s.stage = .finished) : run adapters toLowerCase fuel s = [s] := by
  cases fuel with
  | zero => rfl
  | succ n =>
    unfold run
    rw [(step_eq_none_iff adapters toLowerCase s).mpr h]

theorem catchRejection_results (record : ScanRecord) (thrown : Rejection) :
    (catchRejection record thrown).record.results = record.results :=
  (catchRejection_record record thrown).1

theorem scoresInRange_catchRejection (record : ScanRecord) (thrown : Rejection)
    (hres : record.results = none) : ScoresInRange (catchRejection record thrown) := by
  cases thrown with
  | nullish => exact ⟨trivial, fun fr hfr => by simp [catchRejection, hres] at hfr⟩
  | value m =>
    cases m <;> exact ⟨trivial, fun fr hfr => by simp [catchRejection, failScan, hres] at hfr⟩

theorem mathRound_range (x : ℚ) (h0 : 0 ≤ x) (h1 : x ≤ 100) :
    0 ≤ mathRound x ∧ mathRound x ≤ 100 := by
  unfold mathRound
  constructor
  · exact Int.floor_nonneg.mpr (by linarith)
  · have h : ⌊x + 1 / 2⌋ < 101 := by
      rw [Int.floor_lt]
      push_cast
      linarith
    omega

theorem calculateOverallScore_four (a b c d : Int) :
    calculateOverallScore (some a) (some b) (some c) (some d)
      = mathRound (((a + b + c + d : Int) : ℚ) / 4) := by
  unfold calculateOverallScore
  simp only [List.filterMap, id, List.length_cons, List.length_nil, List.foldl_cons,
    List.foldl_nil]
  norm_num

theorem processSecurityResults_range (toLowerCase : String → String)
    (securityResults : Option SecurityResults) :
    0 ≤ (processSecurityResults toLowerCase securityResults).score
    ∧ (processSecurityResults toLowerCase securityResults).score ≤ 100 := by
  unfold processSecurityResults
  cases securityResults with
  | none => simp
  | some sec =>
    cases hsum : sec.summary with
    | none => simp [hsum]
    | some summary =>
      simp only [hsum, securityScore_eq]
      omega

theorem sum_scores_range (pages : List AuditResult)
    (h : ∀ p ∈ pages, 0 ≤ p.accessibility_score ∧ p.accessibility_score ≤ 100) :
    0 ≤ (pages.map (fun p => p.accessibility_score)).sum
    ∧ (pages.map (fun p => p.accessibility_score)).sum ≤ 100 * pages.length := by
  induction pages with
  | nil => simp
  | cons p ps ih =>
    have hp := h p (List.mem_cons_self _ _)
    have hps := ih (fun q hq => h q (List.mem_cons_of_mem _ hq))
    simp only [List.map_cons, List.sum_cons, List.length_cons]
    push_cast
    omega

theorem averageScoreOf_range (pages : List AuditResult)
    (h : ∀ p ∈ pages, 0 ≤ p.accessibility_score ∧ p.accessibility_score ≤ 100) :
    0 ≤ averageScoreOf pages ∧ averageScoreOf pages ≤ 100 := by
  unfold averageScoreOf
  split_ifs with hnil
  · simp
  · have hlen : (0 : ℚ) < (pages.length : ℚ) := by
      have : 0 < pages.length := List.length_pos.mpr hnil
      exact_mod_cast this
    obtain ⟨h0, h1⟩ := sum_scores_range pages h
    apply mathRound_range
    · apply div_nonneg _ hlen.le
      exact_mod_cast h0
    · rw [div_le_iff₀ hlen]
      exact_mod_cast h1

theorem processUxResults_range (uxResults : Option UxResults) (r : UxProcessed)
    (hrange : UxInRange uxResults) (hok : processUxResults uxResults = .ok r) :
    0 ≤ r.score ∧ r.score ≤ 100 := by
  cases uxResults with
  | none =>
    simp only [processUxResults, Except.ok.injEq] at hok
    subst hok
    simp
  | some ux =>
    cases hr : ux.results with
    | none =>
      simp only [processUxResults, hr, Except.ok.injEq] at hok
      subst hok
      simp
    | some results =>
      rw [(processUxResults_ok ux results r hr hok).1]
      apply averageScoreOf_range
      intro p hp
      exact hrange ux results rfl hr p (List.mem_filter.mp hp).1

theorem jsOrInt_range (o : Option Int) (h : ∀ v, o = some v → 0 ≤ v ∧ v ≤ 100) :
    0 ≤ jsOrInt o 0 ∧ jsOrInt o 0 ≤ 100 := by
  cases o with
  | none => simp [jsOrInt]
  | some v =>
    have := h v rfl
    unfold jsOrInt
    simp only
    split_ifs <;> omega

theorem aggregate_overall (toLowerCase : String → String) (endpoints : List String)
    (performanceResults : Option PerformanceResults) (uxResults : Option UxResults)
    (securityResults : Option SecurityResults) (fr : FinalResults)
    (h : aggregate toLowerCase endpoints performanceResults uxResults securityResults = .ok fr) :
    fr.overall = mathRound (((fr.performance.score + fr.seo.score + fr.ux.score
        + fr.security.score : Int) : ℚ) / 4)
    ∧ (PerformanceInRange performanceResults → UxInRange uxResults →
        0 ≤ fr.overall ∧ fr.overall ≤ 100) := by
  obtain ⟨perf, r, hp, hux, hfux, hfsec, hfperf, hfseo, hov, _, _⟩ :=
    aggregate_facts _ _ _ _ _ _ h
  rw [calculateOverallScore_four] at hov
  refine ⟨hov, fun hpr hur => ?_⟩
  rw [hov]
  have h1 : 0 ≤ fr.performance.score ∧ fr.performance.score ≤ 100 := by
    rw [hfperf]
    apply jsOrInt_range
    intro v hv
    cases hsum : perf.summary with
    | none => simp [hsum] at hv
    | some summary =>
      simp only [hsum, Option.some_bind] at hv
      exact (hpr perf summary hp hsum).1 v hv
  have h2 : 0 ≤ fr.seo.score ∧ fr.seo.score ≤ 100 := by
    rw [hfseo]
    apply jsOrInt_range
    intro v hv
    cases hsum : perf.summary with
    | none => simp [hsum] at hv
    | some summary =>
      simp only [hsum, Option.some_bind] at hv
      exact (hpr perf summary hp hsum).2 v hv
  have h3 : 0 ≤ fr.ux.score ∧ fr.ux.score ≤ 100 := by
    rw [hfux]
    exact processUxResults_range uxResults r hur hux
  have h4 : 0 ≤ fr.security.score ∧ fr.security.score ≤ 100 := by
    rw [hfsec]
    exact processSecurityResults_range toLowerCase securityResults
  apply mathRound_range
  · apply div_nonneg _ (by norm_num)
    have : (0 : Int) ≤ fr.performance.score + fr.seo.score + fr.ux.score
        + fr.security.score := by omega
    exact_mod_cast this
  · rw [div_le_iff₀ (by norm_num)]
    have : fr.performance.score + fr.seo.score + fr.ux.score + fr.security.score
        ≤ (400 : Int) := by omega
    have h400 : (((fr.performance.score + fr.seo.score + fr.ux.score
        + fr.security.score : Int)) : ℚ) ≤ 400 := by exact_mod_cast this
    linarith [h400]

theorem step_overallDerived (adapters : Adapters) (toLowerCase : String → String)
    (s next : ScanState) (hc : Consistent s) (_hi : OverallDerived s)
    (hstep : step adapters toLowerCase s = some next) : OverallDerived next := by
  obtain ⟨_, hrun, _⟩ := hc
  unfold step at hstep
  intro fr hfr
  cases hstage : s.stage <;> rw [hstage] at hstep <;> simp only at hstep
  case finished => simp at hstep
  case aggregating e p u sec =>
    have hres := (hrun (by simp [hstage])).2.1
    split at hstep
    · cases hstep
      simp [failScan, hres] at hfr
    · rename_i finalResults hagg
      cases hstep
      simp only [Option.some.injEq] at hfr
      subst hfr
      exact (aggregate_overall _ _ _ _ _ _ hagg).1
  all_goals
    have hres := (hrun (by simp [hstage])).2.1
    first
      | (cases hstep; simp [hres] at hfr)
      | (split at hstep <;> cases hstep <;>
          simp [failScan, catchRejection_results, hres] at hfr)

theorem step_scoresInRange (adapters : Adapters) (toLowerCase : String → String)
    (hadapters : AdaptersInRange adapters)
    (s next : ScanState) (hc : Consistent s) (hi : ScoresInRange s)
    (hstep : step adapters toLowerCase s = some next) : ScoresInRange next := by
  obtain ⟨_, hrun, _⟩ := hc
  obtain ⟨hst, _⟩ := hi
  unfold step at hstep
  cases hstage : s.stage <;> rw [hstage] at hstep hst <;> simp only at hstep hst
  case finished => simp at hstep
  case created =>
    have hres := (hrun (by simp [hstage])).2.1
    cases hstep
    exact ⟨trivial, fun fr hfr => by simp [hres] at hfr⟩
  case crawling =>
    have hres := (hrun (by simp [hstage])).2.1
    split at hstep <;> cases hstep
    · exact scoresInRange_catchRejection _ _ hres
    · exact ⟨trivial, fun fr hfr => by simp [hres] at hfr⟩
  case savingCrawl o =>
    have hres := (hrun (by simp [hstage])).2.1
    split at hstep <;> cases hstep
    · exact ⟨trivial, fun fr hfr => by simp [failScan, hres] at hfr⟩
    · exact ⟨trivial, fun fr hfr => by simp [hres] at hfr⟩
  case auditingPerformance e i =>
    have hres := (hrun (by simp [hstage])).2.1
    split at hstep
    · cases hstep
      exact scoresInRange_catchRejection _ _ hres
    · rename_i p hp
      cases hstep
      exact ⟨hadapters.1 i p hp, fun fr hfr => by simp [hres] at hfr⟩
  case auditingUx e p i =>
    have hres := (hrun (by simp [hstage])).2.1
    split at hstep
    · cases hstep
      exact scoresInRange_catchRejection _ _ hres
    · rename_i u hu
      cases hstep
      exact ⟨⟨hst, hadapters.2 i u hu⟩, fun fr hfr => by simp [hres] at hfr⟩
  case savingUx e p u =>
    have hres := (hrun (by simp [hstage])).2.1
    cases hstep
    exact ⟨hst, fun fr hfr => by simp [hres] at hfr⟩
  case auditingSecurity e p u i =>
    have hres := (hrun (by simp [hstage])).2.1
    split at hstep <;> cases hstep
    · exact scoresInRange_catchRejection _ _ hres
    · exact ⟨hst, fun fr hfr => by simp [hres] at hfr⟩
  case aggregating e p u sec =>
    have hres := (hrun (by simp [hstage])).2.1
    split at hstep
    · cases hstep
      exact ⟨trivial, fun fr hfr => by simp [failScan, hres] at hfr⟩
    · rename_i finalResults hagg
      cases hstep
      refine ⟨trivial, fun fr hfr => ?_⟩
      simp only [Option.some.injEq] at hfr
      subst hfr
      exact (aggregate_overall _ _ _ _ _ _ hagg).2 hst.1 hst.2

theorem mapSet_of_not_mem (key : Nat) (value : ScanState) (m : List (Nat × ScanState))
    (h : key ∉ m.map Prod.fst) : mapSet key value m = m ++ [(key, value)] := by
  induction m with
  | nil => rfl
  | cons kv rest ih =>
    obtain ⟨k, v⟩ := kv
    simp only [List.map_cons, List.mem_cons, not_or] at h
    have hk : k ≠ key := fun h2 => h.1 h2.symm
    simp only [mapSet, if_neg hk, List.cons_append, ih h.2]

theorem keys_mapSet_of_mem (key : Nat) (value : ScanState) (m : List (Nat × ScanState))
    (h : key ∈ m.map Prod.fst) : (mapSet key value m).map Prod.fst = m.map Prod.fst := by
  induction m with
  | nil => simp at h
  | cons kv rest ih =>
    obtain ⟨k, v⟩ := kv
    unfold mapSet
    by_cases hk : k = key
    · simp [hk]
    · simp only [if_neg hk, List.map_cons]
      simp only [List.map_cons, List.mem_cons] at h
      rcases h with h | h
      · exact absurd h.symm hk
      · rw [ih h]

theorem mem_mapSet (key : Nat) (value : ScanState) (m : List (Nat × ScanState))
    (kv : Nat × ScanState) (h : kv ∈ mapSet key value m) : kv ∈ m ∨ kv = (key, value) := by
  induction m with
  | nil =>
    simp only [mapSet, List.mem_singleton] at h
    exact Or.inr h
  | cons kv0 rest ih =>
    obtain ⟨k, v⟩ := kv0
    unfold mapSet at h
    by_cases hk : k = key
    · simp only [if_pos hk, List.mem_cons] at h
      rcases h with h | h
      · exact Or.inr (by rw [h, hk])
      · exact Or.inl (List.mem_cons_of_mem _ h)
    · simp only [if_neg hk, List.mem_cons] at h
      rcases h with h | h
      · exact Or.inl (h ▸ List.mem_cons_self _ _)
      · rcases ih h with h2 | h2
        · exact Or.inl (List.mem_cons_of_mem _ h2)
        · exact Or.inr h2

theorem step_record_id (adapters : Adapters) (toLowerCase : String → String)
    (s next : ScanState) (h : step adapters toLowerCase s = some next) :
    next.record.id = s.record.id ∧ next.record.url = s.record.url
      ∧ next.record.timestamp = s.record.timestamp := by
  unfold step at h
  cases hstage : s.stage <;> rw [hstage] at h <;> simp only at h
  case finished => simp at h
  all_goals
    first
      | (cases h; exact ⟨rfl, rfl, rfl⟩)
      | (split at h <;> cases h <;>
          first
            | exact ⟨rfl, rfl, rfl⟩
            | exact ⟨(catchRejection_record _ _).2.1, (catchRejection_record _ _).2.2.1,
                (catchRejection_record _ _).2.2.2⟩)

theorem mem_keys_of_lookup (m : List (Nat × ScanState)) (key : Nat) (s : ScanState)
    (h : m.lookup key = some s) : key ∈ m.map Prod.fst ∧ (key, s) ∈ m := by
  induction m with
  | nil => simp at h
  | cons kv rest ih =>
    obtain ⟨k, v⟩ := kv
    by_cases hk : key = k
    · subst hk
      simp only [List.lookup, beq_self_eq_true, Option.some.injEq] at h
      subst h
      simp
    · have hb : (key == k) = false := by simpa using hk
      simp only [List.lookup, hb] at h
      obtain ⟨h1, h2⟩ := ih h
      exact ⟨List.mem_cons_of_mem _ h1, List.mem_cons_of_mem _ h2⟩

theorem lookup_eq_none_of_not_mem (m : List (Nat × ScanState)) (key : Nat)
    (h : key ∉ m.map Prod.fst) : m.lookup key = none := by
  cases hl : m.lookup key with
  | none => rfl
  | some s => exact absurd (mem_keys_of_lookup m key s hl).1 h

theorem registryOk_emptyServer : RegistryOk emptyServer :=
  ⟨le_refl _, rfl, by simp [emptyServer]⟩

theorem counter_not_mem_keys (srv : Server) (h : RegistryOk srv) :
    srv.scanIdCounter ∉ srv.scanResults.map Prod.fst := by
  rw [h.2.1, List.mem_range']
  rintro ⟨i, hi, he⟩
  have := h.1
  omega

theorem registryOk_resumeTask (adapters : Adapters) (toLowerCase : String → String)
    (scanId : Nat) (srv : Server) (h : RegistryOk srv) :
    RegistryOk (resumeTask adapters toLowerCase scanId srv)
    ∧ (resumeTask adapters toLowerCase scanId srv).scanIdCounter = srv.scanIdCounter := by
  unfold resumeTask
  cases hl : srv.scanResults.lookup scanId with
  | none => exact ⟨h, rfl⟩
  | some s =>
    cases hstep : step adapters toLowerCase s with
    | none =>
      simp only [hstep]
      exact ⟨h, trivial⟩
    | some next =>
      simp only [hstep]
      obtain ⟨hkey, hmem⟩ := mem_keys_of_lookup _ _ _ hl
      refine ⟨⟨h.1, ?_, ?_⟩, trivial⟩
      · simp only
        rw [keys_mapSet_of_mem scanId next _ hkey]
        exact h.2.1
      · intro kv hkv
        rcases mem_mapSet _ _ _ _ hkv with h2 | h2
        · exact h.2.2 kv h2
        · subst h2
          simp only
          rw [(step_record_id adapters toLowerCase s next hstep).1]
          exact h.2.2 _ hmem

theorem createScan_accepted (validUrl : String → Bool) (srv : Server) (url : String)
    (timestamp : Nat) (hne : url ≠ "") (hvalid : validUrl url = true) :
    createScan validUrl srv (some url) timestamp
      = ({ scanResults := mapSet srv.scanIdCounter
             (initialState srv.scanIdCounter url timestamp) srv.scanResults
           scanIdCounter := srv.scanIdCounter + 1 },
         .started srv.scanIdCounter "scanning" "Scan initiated successfully") := by
  simp [createScan, hne, hvalid]

theorem createScan_rejected (validUrl : String → Bool) (srv : Server) (url : Option String)
    (timestamp : Nat) (hbad : ∀ u, url = some u → u = "" ∨ validUrl u = false) :
    ∃ error, createScan validUrl srv url timestamp = (srv, .badRequest error) := by
  unfold createScan
  cases url with
  | none => exact ⟨_, rfl⟩
  | some u =>
    simp only
    rcases hbad u rfl with h | h
    · exact ⟨_, by rw [if_pos h]⟩
    · by_cases hu : u = ""
      · exact ⟨_, by rw [if_pos hu]⟩
      · exact ⟨_, by rw [if_neg hu, if_pos h]⟩

theorem registryOk_createScan (srv : Server) (url : String)
    (timestamp : Nat) (h : RegistryOk srv) :
    RegistryOk
      { scanResults := mapSet srv.scanIdCounter
          (initialState srv.scanIdCounter url timestamp) srv.scanResults
        scanIdCounter := srv.scanIdCounter + 1 } := by
  have hfresh := counter_not_mem_keys srv h
  refine ⟨by simp, ?_, ?_⟩
  · simp only [mapSet_of_not_mem _ _ _ hfresh, List.map_append, List.map_cons, List.map_nil,
      h.2.1, Nat.add_sub_cancel]
    have h1 := h.1
    obtain ⟨c, hc⟩ : ∃ c, srv.scanIdCounter = c + 1 := ⟨srv.scanIdCounter - 1, by omega⟩
    rw [hc, Nat.add_sub_cancel, List.range'_concat]
    simp [Nat.add_comm]
  · intro kv hkv
    simp only [mapSet_of_not_mem _ _ _ hfresh, List.mem_append, List.mem_singleton] at hkv
    rcases hkv with h2 | h2
    · exact h.2.2 kv h2
    · subst h2
      rfl

theorem serve_ok (adapters : Adapters) (toLowerCase : String → String)
    (validUrl : String → Bool) (events : List Event) (srv : Server) (h : RegistryOk srv) :
    RegistryOk (serve adapters toLowerCase validUrl srv events).1
    ∧ handedOut (serve adapters toLowerCase validUrl srv events).2
        = List.range' srv.scanIdCounter
            (handedOut (serve adapters toLowerCase validUrl srv events).2).length
    ∧ (serve adapters toLowerCase validUrl srv events).1.scanIdCounter
        = srv.scanIdCounter
          + (handedOut (serve adapters toLowerCase validUrl srv events).2).length := by
  induction events generalizing srv with
  | nil => exact ⟨h, rfl, rfl⟩
  | cons e rest ih =>
    cases e with
    | resume scanId =>
      simp only [serve]
      obtain ⟨hok, hcounter⟩ := registryOk_resumeTask adapters toLowerCase scanId srv h
      have := ih _ hok
      rw [hcounter] at this
      exact this
    | post url timestamp =>
      simp only [serve]
      by_cases hacc : ∃ u, url = some u ∧ u ≠ "" ∧ validUrl u = true
      · obtain ⟨u, rfl, hne, hvalid⟩ := hacc
        have hpost : postScan adapters toLowerCase validUrl srv (some u) timestamp
            = (resumeTask adapters toLowerCase srv.scanIdCounter
                { scanResults := mapSet srv.scanIdCounter
                    (initialState srv.scanIdCounter u timestamp) srv.scanResults
                  scanIdCounter := srv.scanIdCounter + 1 },
               .started srv.scanIdCounter "scanning" "Scan initiated successfully") := by
          unfold postScan
          rw [createScan_accepted validUrl srv u timestamp hne hvalid]
        rw [hpost]
        obtain ⟨hok, hcounter⟩ := registryOk_resumeTask adapters toLowerCase
          srv.scanIdCounter _ (registryOk_createScan srv u timestamp h)
        obtain ⟨h1, h2, h3⟩ := ih _ hok
        rw [hcounter] at h2 h3
        refine ⟨h1, ?_, ?_⟩
        · simp only [handedOut, List.filterMap_cons, List.length_cons]
          rw [List.range'_succ]
          congr 1
        · simp only [handedOut, List.filterMap_cons, List.length_cons]
          simp only [handedOut] at h3
          omega
      · have hbad : ∀ u, url = some u → u = "" ∨ validUrl u = false := by
          intro u hu
          by_contra hcon
          push_neg at hcon
          exact hacc ⟨u, hu, hcon.1, by simpa using hcon.2⟩
        obtain ⟨error, hrej⟩ := createScan_rejected validUrl srv url timestamp hbad
        have hpost : postScan adapters toLowerCase validUrl srv url timestamp
            = (srv, .badRequest error) := by
          unfold postScan
          rw [hrej]
        rw [hpost]
        obtain ⟨h1, h2, h3⟩ := ih _ h
        exact ⟨h1, by simpa [handedOut] using h2, by simpa [handedOut] using h3⟩

theorem adaptersInRange_stubAdapters : AdaptersInRange stubAdapters := by
  constructor
  · intro input out hout p summary hp hsum
    simp only [stubAdapters, Except.ok.injEq] at hout
    subst hout
    simp only [Option.some.injEq] at hp
    subst hp
    simp only [Option.some.injEq] at hsum
    subst hsum
    constructor <;> intro v hv <;> simp only [Option.some.injEq] at hv <;> omega
  · intro input out hout ux results hux hres page hpage
    simp only [stubAdapters, Except.ok.injEq] at hout
    subst hout
    simp only [Option.some.injEq] at hux
    subst hux
    simp only [Option.some.injEq] at hres
    subst hres
    obtain ⟨u, _, rfl⟩ := List.mem_map.mp hpage
    simp [mkPage]

/-! ## Fallback vulnerabilities -/

/-- C11 (counterexample). The summary has no topVulnerabilities list and the only website
has one issue, which has no risk: its risk is not "Informational", and yet the vulnerabilities
list is empty. -/
theorem issue_without_risk_is_dropped :
    (sampleNoRisk.summary.bind (fun s => s.topVulnerabilities)) = none
    ∧ sampleNoRisk.summary.isSome = true
    ∧ ((sampleNoRisk.websites.getD []).map (fun w =>
        ((w.issues.getD []).filter (fun i => decide (i.risk ≠ some "Informational"))).length))
      = [1]
    ∧ (processSecurityResults asciiLower (some sampleNoRisk)).vulnerabilities = [] := by
  refine ⟨rfl, rfl, ?_, ?_⟩ <;> decide

/-- C11 (amended). When the summary has no topVulnerabilities list, the vulnerabilities are
the concatenation, over the websites in order, of the first 15 issues of each site that have
a risk, not empty and other than "Informational", each mapped to its title, its risk in lower
case as severity, its description or else (absent or empty) its title, count 1, its impact or
else (absent or 0) 5, and its effort or else (absent or empty) "Medium". The cap is per site:
the length is the sum over the sites of min(15, number of such issues of the site). The
lower-casing is assumed to keep a string that is not empty from becoming empty. -/
theorem processSecurityResults_websites (toLowerCase : String → String)
    (hlower : ∀ s, s ≠ "" → toLowerCase s ≠ "")
    (sec : SecurityResults) (summary : SecuritySummary) (hs : sec.summary = some summary)
    (ht : summary.topVulnerabilities = none) :
    (processSecurityResults toLowerCase (some sec)).vulnerabilities
        = ((sec.websites.getD []).map (fun w =>
            (((w.issues.getD []).filter keepIssue).take 15).map
              (mapSiteIssue toLowerCase))).flatten
    ∧ (processSecurityResults toLowerCase (some sec)).vulnerabilities.length
        = ((sec.websites.getD []).map (fun w =>
            min 15 ((w.issues.getD []).filter keepIssue).length)).sum
    ∧ (∀ issue : SiteIssue, keepIssue issue = true ↔
        ∃ r, issue.risk = some r ∧ r ≠ "" ∧ r ≠ "Informational")
    ∧ (∀ issue : SiteIssue, keepIssue issue = true →
        (mapSiteIssue toLowerCase issue).title = issue.title
        ∧ (∃ r, issue.risk = some r ∧ (mapSiteIssue toLowerCase issue).severity = toLowerCase r)
        ∧ (mapSiteIssue toLowerCase issue).description =
            (match issue.description with
              | some d => if d = "" then issue.title else d
              | none => issue.title)
        ∧ (mapSiteIssue toLowerCase issue).count = 1
        ∧ (mapSiteIssue toLowerCase issue).impact =
            (match issue.impact with
              | some n => if n = 0 then 5 else n
              | none => 5)
        ∧ (mapSiteIssue toLowerCase issue).effort =
            (match issue.effort with
              | some e => if e = "" then "Medium" else e
              | none => "Medium")) := by
  have hv := vulnerabilities_of_websites toLowerCase sec summary hs
    (fun top htop => by rw [ht] at htop; cases htop)
  have hkeep : ∀ issue : SiteIssue, keepIssue issue = true ↔
      ∃ r, issue.risk = some r ∧ r ≠ "" ∧ r ≠ "Informational" := by
    intro issue
    unfold keepIssue
    cases h : issue.risk <;> simp
  refine ⟨?_, ?_, hkeep, ?_⟩
  · rw [hv, fromWebsites_eq]
    rfl
  · rw [hv, fromWebsites_eq, List.length_flatten, List.map_map]
    congr 1
    apply List.map_congr_left
    intro w _
    simp [siteVulnerabilities]
  · intro issue hk
    obtain ⟨r, hr, hne, _⟩ := (hkeep issue).mp hk
    refine ⟨rfl, ⟨r, hr, ?_⟩, ?_, rfl, ?_, ?_⟩
    · simp [mapSiteIssue, severityOf, jsOr, hr, hlower r hne]
    · cases h : issue.description <;> simp [mapSiteIssue, jsOr, h]
    · cases h : issue.impact <;> simp [mapSiteIssue, jsOrInt, h]
    · cases h : issue.effort <;> simp [mapSiteIssue, jsOr, h]

/-- Two websites with 16 and 3 issues of low risk give 15 + 3 = 18 vulnerabilities. -/
theorem processSecurityResults_websites_witness :
    (processSecurityResults asciiLower (some sampleTwoSites)).vulnerabilities.length = 18 := by
  rw [(processSecurityResults_websites asciiLower asciiLower_ne_empty sampleTwoSites _ rfl
    rfl).2.1]
  decide

/-! ## Registry and requests -/

/-- C12. After any sequence of requests and task transitions, the ids handed out so far are
1, 2, ..., each the previous one plus 1; they are the keys of the registry, which are
pairwise distinct, and every record carries the key it is stored under. The next accepted
request is answered with the current counter as id, an id that the registry does not hold;
the record it stores carries that id, the submitted url, status "scanning", progress 0 and
no results; and every other entry of the registry is as before, after the creation and
after the whole handler. -/
theorem scan_ids_strictly_increasing (adapters : Adapters) (toLowerCase : String → String)
    (validUrl : String → Bool) (events : List Event) :
    handedOut (serve adapters toLowerCase validUrl emptyServer events).2
        = List.range' 1
            (handedOut (serve adapters toLowerCase validUrl emptyServer events).2).length
    ∧ (serve adapters toLowerCase validUrl emptyServer events).1.scanResults.map Prod.fst
        = handedOut (serve adapters toLowerCase validUrl emptyServer events).2
    ∧ ((serve adapters toLowerCase validUrl emptyServer events).1.scanResults.map
        Prod.fst).Nodup
    ∧ (∀ kv ∈ (serve adapters toLowerCase validUrl emptyServer events).1.scanResults,
        kv.2.record.id = kv.1)
    ∧ (∀ (url : String) (timestamp : Nat), url ≠ "" → validUrl url = true →
        (createScan validUrl (serve adapters toLowerCase validUrl emptyServer events).1
            (some url) timestamp).2
          = .started (serve adapters toLowerCase validUrl emptyServer events).1.scanIdCounter
              "scanning" "Scan initiated successfully"
        ∧ (serve adapters toLowerCase validUrl emptyServer events).1.scanResults.lookup
            (serve adapters toLowerCase validUrl emptyServer events).1.scanIdCounter = none
        ∧ (createScan validUrl (serve adapters toLowerCase validUrl emptyServer events).1
              (some url) timestamp).1.scanResults.lookup
            (serve adapters toLowerCase validUrl emptyServer events).1.scanIdCounter
          = some
              { record :=
                  { id := (serve adapters toLowerCase validUrl emptyServer
                      events).1.scanIdCounter
                    url := url, timestamp := timestamp, status := "scanning", progress := 0
                    results := none, error := none }
                stage := .created }
        ∧ (∀ other,
            other ≠ (serve adapters toLowerCase validUrl emptyServer events).1.scanIdCounter →
            (createScan validUrl (serve adapters toLowerCase validUrl emptyServer events).1
                (some url) timestamp).1.scanResults.lookup other
              = (serve adapters toLowerCase validUrl emptyServer
                  events).1.scanResults.lookup other
            ∧ (postScan adapters toLowerCase validUrl
                (serve adapters toLowerCase validUrl emptyServer events).1
                (some url) timestamp).1.scanResults.lookup other
              = (serve adapters toLowerCase validUrl emptyServer
                  events).1.scanResults.lookup other)) := by
  obtain ⟨hok, hids, hcounter⟩ :=
    serve_ok adapters toLowerCase validUrl events emptyServer registryOk_emptyServer
  have hkeys : (serve adapters toLowerCase validUrl emptyServer events).1.scanResults.map
      Prod.fst = handedOut (serve adapters toLowerCase validUrl emptyServer events).2 := by
    rw [hok.2.1, hcounter, hids]
    simp [emptyServer]
  refine ⟨hids, hkeys, ?_, hok.2.2, ?_⟩
  · rw [hok.2.1]
    exact List.nodup_range' _ _
  · intro url timestamp hne hvalid
    have hfresh := counter_not_mem_keys _ hok
    rw [createScan_accepted validUrl _ url timestamp hne hvalid]
    refine ⟨rfl, lookup_eq_none_of_not_mem _ _ hfresh, ?_, ?_⟩
    · simp only
      rw [lookup_mapSet_self]
      rfl
    · intro other hother
      refine ⟨lookup_mapSet_ne _ other _ _ hother, ?_⟩
      unfold postScan
      rw [createScan_accepted validUrl _ url timestamp hne hvalid]
      simp only
      rw [resumeTask_lookup_ne adapters toLowerCase _ other _ hother]
      exact lookup_mapSet_ne _ other _ _ hother

/-- Three accepted requests among five, and a task transition in between: ids 1, 2, 3. -/
theorem scan_ids_strictly_increasing_witness :
    handedOut (serve stubAdapters asciiLower sampleValidUrl emptyServer
        [.post (some "https://a.example") 5, .post none 6, .resume 1,
         .post (some "https://b.example") 7, .post (some "ftp") 8,
         .post (some "https://c.example") 9]).2 = [1, 2, 3] := by
  rw [(scan_ids_strictly_increasing stubAdapters asciiLower sampleValidUrl _).1]
  decide

/-- C13. A request whose url is missing, empty or rejected by the URL constructor is answered
with status 400 and leaves the server as it was, records and counter alike; the request that
follows is handled as if the rejected one had not been made. -/
theorem invalid_url_creates_no_scan (adapters : Adapters) (toLowerCase : String → String)
    (validUrl : String → Bool) (srv : Server) (url : Option String) (timestamp : Nat)
    (hbad : ∀ u, url = some u → u = "" ∨ validUrl u = false) :
    statusCode (postScan adapters toLowerCase validUrl srv url timestamp).2 = 400
    ∧ (postScan adapters toLowerCase validUrl srv url timestamp).1 = srv
    ∧ (postScan adapters toLowerCase validUrl srv url timestamp).1.scanResults
        = srv.scanResults
    ∧ (postScan adapters toLowerCase validUrl srv url timestamp).1.scanIdCounter
        = srv.scanIdCounter
    ∧ (∀ url2 timestamp2,
        postScan adapters toLowerCase validUrl
            (postScan adapters toLowerCase validUrl srv url timestamp).1 url2 timestamp2
          = postScan adapters toLowerCase validUrl srv url2 timestamp2) := by
  obtain ⟨error, hrej⟩ := createScan_rejected validUrl srv url timestamp hbad
  have hpost : postScan adapters toLowerCase validUrl srv url timestamp
      = (srv, .badRequest error) := by
    unfold postScan
    rw [hrej]
  rw [hpost]
  exact ⟨rfl, rfl, rfl, rfl, fun _ _ => rfl⟩

/-- The url "example" is answered with status 400 and nothing is stored. -/
theorem invalid_url_creates_no_scan_witness :
    (postScan stubAdapters asciiLower sampleValidUrl emptyServer (some "example") 0)
      = (emptyServer, .badRequest "Invalid URL format")
    ∧ statusCode (postScan stubAdapters asciiLower sampleValidUrl emptyServer
        (some "example") 0).2 = 400 := by
  refine ⟨by decide, (invalid_url_creates_no_scan stubAdapters asciiLower sampleValidUrl
    emptyServer (some "example") 0 (fun u hu => ?_)).1⟩
  cases hu
  exact Or.inr (by decide)

/-- C17. The answer to GET /api/scans is a rearrangement of the summaries of the records of
the registry, one per record; of two adjacent summaries the first has a timestamp that is not
earlier than that of the second; and in a registry that the server can reach the ids of the
summaries are pairwise distinct and are the keys of the registry. -/
theorem getScans_sorted (srv : Server) :
    (getScans srv).Perm (srv.scanResults.map (fun kv => summarize kv.2.record))
    ∧ (getScans srv).length = srv.scanResults.length
    ∧ ((getScans srv).map (fun e => e.id)).Perm
        (srv.scanResults.map (fun kv => kv.2.record.id))
    ∧ List.Chain' (fun a b => b.timestamp ≤ a.timestamp) (getScans srv)
    ∧ (∀ (adapters : Adapters) (toLowerCase : String → String) (validUrl : String → Bool)
        (events : List Event),
        srv = (serve adapters toLowerCase validUrl emptyServer events).1 →
          ((getScans srv).map (fun e => e.id)).Nodup
          ∧ ((getScans srv).map (fun e => e.id)).Perm (srv.scanResults.map Prod.fst)) := by
  have hperm : (getScans srv).Perm (srv.scanResults.map (fun kv => summarize kv.2.record)) :=
    List.perm_insertionSort _ _
  have hids : ((getScans srv).map (fun e => e.id)).Perm
      (srv.scanResults.map (fun kv => kv.2.record.id)) := by
    have := hperm.map (fun e => e.id)
    simpa [List.map_map, Function.comp, summarize] using this
  refine ⟨hperm, ?_, hids, ?_, ?_⟩
  · simpa using hperm.length_eq
  · exact (List.sorted_insertionSort newerFirst _).chain'
  · intro adapters toLowerCase validUrl events hsrv
    obtain ⟨hok, _, _⟩ :=
      serve_ok adapters toLowerCase validUrl events emptyServer registryOk_emptyServer
    rw [← hsrv] at hok
    have hkeys : srv.scanResults.map (fun kv => kv.2.record.id)
        = srv.scanResults.map Prod.fst :=
      List.map_congr_left (fun kv hkv => hok.2.2 kv hkv)
    rw [hkeys] at hids
    refine ⟨hids.nodup_iff.mpr ?_, hids⟩
    rw [hok.2.1]
    exact List.nodup_range' _ _

/-- Three requests and a task transition: the newest scan comes first. -/
theorem getScans_example :
    (getScans (serve stubAdapters asciiLower sampleValidUrl emptyServer
        [.post (some "https://a.example") 5, .post (some "https://b.example") 9,
         .resume 1, .post (some "https://c.example") 7]).1).map
        (fun e => (e.id, e.timestamp, e.progress))
      = [(2, 9, 10), (3, 7, 10), (1, 5, 10)] := by
  decide

/-! ## Stages of a scan -/

/-- C14. When the adapter call that a scan awaits (crawl, performance, accessibility or
security) fails with a message, the next state of the scan has status "error", that message
as error, no results and progress 100; the task makes no further transition from it, so no
adapter of a later stage is called and no aggregate is built; and the transition leaves the
record of every other scan of the registry as it was. -/
theorem adapter_failure_ends_scan (adapters : Adapters) (toLowerCase : String → String)
    (scanId : Nat) (url : String) (timestamp : Nat) (fuel : Nat) (s : ScanState)
    (hs : s ∈ run adapters toLowerCase fuel (initialState scanId url timestamp))
    (message : String) (hfail : pendingFailure adapters s = some message) :
    step adapters toLowerCase s = some (failScan s.record message)
    ∧ (failScan s.record message).record.status = "error"
    ∧ (failScan s.record message).record.error = some message
    ∧ (failScan s.record message).record.results = none
    ∧ (failScan s.record message).record.progress = 100
    ∧ (∀ n, run adapters toLowerCase n (failScan s.record message)
        = [failScan s.record message])
    ∧ pendingCall (failScan s.record message) = none
    ∧ (∀ (srv : Server) (other : Nat), other ≠ s.record.id →
        (resumeTask adapters toLowerCase s.record.id srv).scanResults.lookup other
          = srv.scanResults.lookup other) := by
  obtain ⟨_, hrun, _⟩ := run_consistent adapters toLowerCase fuel _
    (consistent_initialState scanId url timestamp) s hs
  have hne : s.stage ≠ .finished := by
    intro hfin
    simp [pendingFailure, hfin] at hfail
  refine ⟨step_of_pendingFailure adapters toLowerCase s message hfail, rfl, rfl,
    (hrun hne).2.1, rfl, fun n => run_failScan adapters toLowerCase n _ _, rfl, ?_⟩
  intro srv other hother
  exact resumeTask_lookup_ne adapters toLowerCase _ other srv hother

/-- The accessibility audit of the sample scan fails with "Navigation timeout": the scan
ends with that error. -/
theorem adapter_failure_ends_scan_witness :
    step uxFailingAdapters asciiLower sampleUxStage
        = some (failScan sampleUxStage.record "Navigation timeout")
    ∧ (failScan sampleUxStage.record "Navigation timeout").record.error
        = some "Navigation timeout" := by
  have h := adapter_failure_ends_scan uxFailingAdapters asciiLower 1 "https://example.com" 0 8
    sampleUxStage (by decide) "Navigation timeout" rfl
  exact ⟨h.1, h.2.2.1⟩

theorem scanTrace_of_crawl (adapters : Adapters) (toLowerCase : String → String)
    (scanId : Nat) (url : String) (timestamp : Nat) (out : CrawlerOutput)
    (hcrawl : adapters.crawlWebsite url 2 = .ok (some out)) :
    scanTrace adapters toLowerCase scanId url timestamp
      = initialState scanId url timestamp
        :: { record := { initialRecord scanId url timestamp with progress := 10 }
             stage := .crawling }
        :: { record := { initialRecord scanId url timestamp with progress := 10 }
             stage := .savingCrawl (some out) }
        :: run adapters toLowerCase 5
            { record := { initialRecord scanId url timestamp with progress := 30 }
              stage := .auditingPerformance (out.endpoints.getD [url])
                (performanceInput scanId (out.endpoints.getD [url])) } := by
  have h1 : step adapters toLowerCase (initialState scanId url timestamp)
      = some { record := { initialRecord scanId url timestamp with progress := 10 }
               stage := .crawling } := rfl
  have h2 : step adapters toLowerCase
      { record := { initialRecord scanId url timestamp with progress := 10 }
        stage := .crawling }
      = some { record := { initialRecord scanId url timestamp with progress := 10 }
               stage := .savingCrawl (some out) } := by
    simp only [step, initialRecord, hcrawl]
  have h3 : step adapters toLowerCase
      { record := { initialRecord scanId url timestamp with progress := 10 }
        stage := .savingCrawl (some out) }
      = some { record := { initialRecord scanId url timestamp with progress := 30 }
               stage := .auditingPerformance (out.endpoints.getD [url])
                 (performanceInput scanId (out.endpoints.getD [url])) } := rfl
  unfold scanTrace
  rw [run, h1]
  simp only
  rw [run, h2]
  simp only
  rw [run, h3]

theorem adapterCalls_of_crawl (adapters : Adapters) (toLowerCase : String → String)
    (scanId : Nat) (url : String) (timestamp : Nat) (out : CrawlerOutput)
    (hcrawl : adapters.crawlWebsite url 2 = .ok (some out)) :
    adapterCalls (scanTrace adapters toLowerCase scanId url timestamp)
      = .crawlWebsite url 2
        :: .runPerformanceAudit (performanceInput scanId (out.endpoints.getD [url]))
        :: (match adapters.runPerformanceAudit
              (performanceInput scanId (out.endpoints.getD [url])) with
            | .error _ => []
            | .ok _ =>
              .runAxeAudit (axeInput scanId (out.endpoints.getD [url]))
              :: (match adapters.runAxeAudit (axeInput scanId (out.endpoints.getD [url])) with
                  | .error _ => []
                  | .ok _ =>
                    [.runSecurityAudit (securityInput scanId (out.endpoints.getD [url]))])) := by
  rw [scanTrace_of_crawl adapters toLowerCase scanId url timestamp out hcrawl]
  cases hperf : adapters.runPerformanceAudit
      (performanceInput scanId (out.endpoints.getD [url])) with
  | error thrown =>
    simp [run, step, hperf, adapterCalls, pendingCall, initialState, initialRecord,
      catchRejection_stage]
  | ok p =>
    cases haxe : adapters.runAxeAudit (axeInput scanId (out.endpoints.getD [url])) with
    | error thrown =>
      simp [run, step, hperf, haxe, adapterCalls, pendingCall, initialState, initialRecord,
        catchRejection_stage]
    | ok u =>
      cases hsec : adapters.runSecurityAudit
          (securityInput scanId (out.endpoints.getD [url])) with
      | error thrown =>
        simp [run, step, hperf, haxe, hsec, adapterCalls, pendingCall, initialState,
          initialRecord, catchRejection_stage]
      | ok sec =>
        cases hagg : aggregate toLowerCase (out.endpoints.getD [url]) p u sec <;>
          simp [run, step, hperf, haxe, hsec, hagg, adapterCalls, pendingCall, initialState,
            initialRecord, failScan]

theorem aggregate_returns (toLowerCase : String → String) (endpoints : List String)
    (perf : PerformanceResults) (uxResults : Option UxResults)
    (securityResults : Option SecurityResults) (r : UxProcessed)
    (h : processUxResults uxResults = .ok r) :
    ∃ fr, aggregate toLowerCase endpoints (some perf) uxResults securityResults = .ok fr := by
  unfold aggregate
  rw [h]
  exact ⟨_, rfl⟩

/-- C15. Let the crawl establish the endpoint list, of length n. The scan calls the
performance adapter with the first min(10, n) endpoints in crawl order; when that call
returns it calls the accessibility adapter with the same endpoints; when that call returns
it calls the security adapter with the first min(5, n) endpoints, a beginning of the former
list; it makes no other call after the crawl. When the three calls return and the
aggregation does not throw, the scan ends with status "success" and results whose summary
reports totalPages = n and scannedPages = min(10, n). In every state of the scan a pending
call carries these inputs and results that are set have this summary. -/
theorem adapter_inputs_capped (adapters : Adapters) (toLowerCase : String → String)
    (scanId : Nat) (url : String) (timestamp : Nat) (out : CrawlerOutput)
    (hcrawl : adapters.crawlWebsite url 2 = .ok (some out)) :
    ((performanceInput scanId (out.endpoints.getD [url])).endpoints
        = (out.endpoints.getD [url]).take 10
      ∧ (performanceInput scanId (out.endpoints.getD [url])).endpoints.length
        = min 10 (out.endpoints.getD [url]).length
      ∧ (axeInput scanId (out.endpoints.getD [url])).endpoints
        = (performanceInput scanId (out.endpoints.getD [url])).endpoints
      ∧ (securityInput scanId (out.endpoints.getD [url])).endpoints
        = (out.endpoints.getD [url]).take 5
      ∧ (securityInput scanId (out.endpoints.getD [url])).endpoints.length
        = min 5 (out.endpoints.getD [url]).length
      ∧ (securityInput scanId (out.endpoints.getD [url])).endpoints
        <+: (performanceInput scanId (out.endpoints.getD [url])).endpoints)
    ∧ (adapterCalls (scanTrace adapters toLowerCase scanId url timestamp)
        <+: [ .crawlWebsite url 2,
              .runPerformanceAudit (performanceInput scanId (out.endpoints.getD [url])),
              .runAxeAudit (axeInput scanId (out.endpoints.getD [url])),
              .runSecurityAudit (securityInput scanId (out.endpoints.getD [url])) ])
    ∧ ([ .crawlWebsite url 2,
         .runPerformanceAudit (performanceInput scanId (out.endpoints.getD [url])) ]
        <+: adapterCalls (scanTrace adapters toLowerCase scanId url timestamp))
    ∧ (∀ p, adapters.runPerformanceAudit (performanceInput scanId (out.endpoints.getD [url]))
          = .ok p →
        [ .crawlWebsite url 2,
          .runPerformanceAudit (performanceInput scanId (out.endpoints.getD [url])),
          .runAxeAudit (axeInput scanId (out.endpoints.getD [url])) ]
          <+: adapterCalls (scanTrace adapters toLowerCase scanId url timestamp))
    ∧ (∀ p u, adapters.runPerformanceAudit (performanceInput scanId (out.endpoints.getD [url]))
          = .ok p →
        adapters.runAxeAudit (axeInput scanId (out.endpoints.getD [url])) = .ok u →
        adapterCalls (scanTrace adapters toLowerCase scanId url timestamp)
          = [ .crawlWebsite url 2,
              .runPerformanceAudit (performanceInput scanId (out.endpoints.getD [url])),
              .runAxeAudit (axeInput scanId (out.endpoints.getD [url])),
              .runSecurityAudit (securityInput scanId (out.endpoints.getD [url])) ])
    ∧ (∀ p u sec r,
        adapters.runPerformanceAudit (performanceInput scanId (out.endpoints.getD [url]))
          = .ok (some p) →
        adapters.runAxeAudit (axeInput scanId (out.endpoints.getD [url])) = .ok u →
        adapters.runSecurityAudit (securityInput scanId (out.endpoints.getD [url])) = .ok sec →
        processUxResults u = .ok r →
        ∃ t fr, (scanTrace adapters toLowerCase scanId url timestamp).getLast? = some t
          ∧ t.record.status = "success" ∧ t.record.results = some fr
          ∧ fr.summary.totalPages = (out.endpoints.getD [url]).length
          ∧ fr.summary.scannedPages = min 10 (out.endpoints.getD [url]).length)
    ∧ (∀ fuel s, s ∈ run adapters toLowerCase fuel (initialState scanId url timestamp) →
        (∀ input, pendingCall s = some (.runPerformanceAudit input) →
            input.endpoints = (out.endpoints.getD [url]).take 10
            ∧ input.endpoints.length = min 10 (out.endpoints.getD [url]).length)
        ∧ (∀ input, pendingCall s = some (.runAxeAudit input) →
            input.endpoints = (out.endpoints.getD [url]).take 10)
        ∧ (∀ input, pendingCall s = some (.runSecurityAudit input) →
            input.endpoints = (out.endpoints.getD [url]).take 5
            ∧ input.endpoints.length = min 5 (out.endpoints.getD [url]).length
            ∧ input.endpoints <+: (out.endpoints.getD [url]).take 10)
        ∧ (∀ fr, s.record.results = some fr →
            fr.summary.totalPages = (out.endpoints.getD [url]).length
            ∧ fr.summary.scannedPages = min 10 (out.endpoints.getD [url]).length)) := by
  have h5 : (out.endpoints.getD [url]).take 5
      = ((out.endpoints.getD [url]).take 10).take 5 := by
    rw [List.take_take]
    simp
  have hcalls := adapterCalls_of_crawl adapters toLowerCase scanId url timestamp out hcrawl
  have htrace := scanTrace_of_crawl adapters toLowerCase scanId url timestamp out hcrawl
  refine ⟨⟨rfl, by simp [performanceInput], rfl, rfl, by simp [securityInput], ?_⟩,
    ?_, ?_, ?_, ?_, ?_, ?_⟩
  · show (out.endpoints.getD [url]).take 5 <+: (out.endpoints.getD [url]).take 10
    rw [h5]
    exact List.take_prefix _ _
  · rw [hcalls]
    cases adapters.runPerformanceAudit (performanceInput scanId (out.endpoints.getD [url])) with
    | error thrown => exact ⟨_, rfl⟩
    | ok p =>
      cases adapters.runAxeAudit (axeInput scanId (out.endpoints.getD [url])) with
      | error thrown => exact ⟨_, rfl⟩
      | ok u => exact ⟨[], rfl⟩
  · rw [hcalls]
    exact ⟨_, rfl⟩
  · intro p hperf
    rw [hcalls, hperf]
    exact ⟨_, rfl⟩
  · intro p u hperf haxe
    rw [hcalls, hperf, haxe]
  · intro p u sec r hperf haxe hsec hux
    obtain ⟨fr, hagg⟩ := aggregate_returns toLowerCase (out.endpoints.getD [url]) p u sec r hux
    obtain ⟨_, _, _, _, _, _, _, _, _, h1, h2⟩ := aggregate_facts _ _ _ _ _ _ hagg
    refine ⟨{ record := { initialRecord scanId url timestamp with
                status := "success", progress := 100, results := some fr }
              stage := .finished }, fr, ?_, rfl, rfl, h1, h2⟩
    rw [htrace]
    simp [run, step, hperf, haxe, hsec, hagg, initialState, initialRecord]
  · intro fuel s hs
    obtain ⟨_, _, hst⟩ := run_invariant
      (EndpointsFrom scanId url out (out.endpoints.getD [url])) adapters toLowerCase
      (step_endpointsFrom adapters toLowerCase scanId url out hcrawl) fuel _
      (consistent_initialState scanId url timestamp)
      (endpointsFrom_initialState scanId url timestamp out _) s hs
    obtain ⟨_, hrun, _⟩ := run_consistent adapters toLowerCase fuel _
      (consistent_initialState scanId url timestamp) s hs
    unfold pendingCall
    cases hstage : s.stage <;> rw [hstage] at hst <;> simp only at hst
    case finished =>
      exact ⟨by simp, by simp, by simp, hst⟩
    case auditingPerformance e i =>
      have hres := (hrun (by simp [hstage])).2.1
      refine ⟨?_, by simp, by simp, by simp [hres]⟩
      intro input hin
      simp only [Option.some.injEq, AdapterCall.runPerformanceAudit.injEq] at hin
      subst hin
      rw [hst.2]
      simp [performanceInput]
    case auditingUx e p i =>
      have hres := (hrun (by simp [hstage])).2.1
      refine ⟨by simp, ?_, by simp, by simp [hres]⟩
      intro input hin
      simp only [Option.some.injEq, AdapterCall.runAxeAudit.injEq] at hin
      subst hin
      rw [hst.2]
      simp [axeInput]
    case auditingSecurity e p u i =>
      have hres := (hrun (by simp [hstage])).2.1
      refine ⟨by simp, by simp, ?_, by simp [hres]⟩
      intro input hin
      simp only [Option.some.injEq, AdapterCall.runSecurityAudit.injEq] at hin
      subst hin
      rw [hst.2]
      refine ⟨rfl, by simp [securityInput], ?_⟩
      simp only [securityInput]
      rw [h5]
      exact List.take_prefix _ _
    all_goals
      have hres := (hrun (by simp [hstage])).2.1
      exact ⟨by simp, by simp, by simp, by simp [hres]⟩

/-- The crawl finds twelve endpoints: the performance and the accessibility adapter are
called with the first ten, the security adapter with the first five, and the summary of the
results reports 12 pages of which 10 are scanned. -/
theorem adapter_inputs_capped_witness :
    wideCrawlAdapters.crawlWebsite "https://example.com" 2
      = .ok (some { endpoints := some twelveEndpoints })
    ∧ twelveEndpoints.length = 12
    ∧ adapterCalls (scanTrace wideCrawlAdapters asciiLower 1 "https://example.com" 0)
      = [ .crawlWebsite "https://example.com" 2,
          .runPerformanceAudit (performanceInput 1 twelveEndpoints),
          .runAxeAudit (axeInput 1 twelveEndpoints),
          .runSecurityAudit (securityInput 1 twelveEndpoints) ]
    ∧ (performanceInput 1 twelveEndpoints).endpoints = twelveEndpoints.take 10
    ∧ (performanceInput 1 twelveEndpoints).endpoints.length = 10
    ∧ (axeInput 1 twelveEndpoints).endpoints = (performanceInput 1 twelveEndpoints).endpoints
    ∧ (securityInput 1 twelveEndpoints).endpoints = twelveEndpoints.take 5
    ∧ (securityInput 1 twelveEndpoints).endpoints.length = 5
    ∧ (securityInput 1 twelveEndpoints).endpoints
        <+: (performanceInput 1 twelveEndpoints).endpoints
    ∧ (∃ t fr, (scanTrace wideCrawlAdapters asciiLower 1 "https://example.com" 0).getLast?
          = some t
        ∧ t.record.status = "success" ∧ t.record.results = some fr
        ∧ fr.summary.totalPages = 12 ∧ fr.summary.scannedPages = 10) := by
  have h := adapter_inputs_capped wideCrawlAdapters asciiLower 1 "https://example.com" 0
    { endpoints := some twelveEndpoints } rfl
  obtain ⟨⟨h1, h2, h3, h4, h5, h6⟩, _, _, _, hcalls, hsummary, _⟩ := h
  obtain ⟨r, hr⟩ := processUxResults_returns
    { results := some ((axeInput 1 twelveEndpoints).endpoints.map
        (fun u => mkPage u "COMPLETED" 70 [])) } _ rfl (by decide)
  obtain ⟨t, fr, ht, hstatus, hres, htotal, hscanned⟩ := hsummary _ _ _ r rfl rfl rfl hr
  exact ⟨rfl, by decide, hcalls _ _ rfl rfl, h1, h2.trans (by decide), h3, h4,
    h5.trans (by decide), h6, t, fr, ht, hstatus, hres, htotal.trans (by decide),
    hscanned.trans (by decide)⟩

/-- C16 (the code at the failing input). The crawler returns an empty endpoint list for
"https://example.com": the performance, accessibility and security adapters are each called
with the empty list, not with the list holding the submitted url. -/
theorem empty_crawl_passes_no_endpoint :
    emptyCrawlAdapters.crawlWebsite "https://example.com" 2 = .ok (some { endpoints := some [] })
    ∧ adapterCalls (scanTrace emptyCrawlAdapters asciiLower 7 "https://example.com" 0)
      = [ .crawlWebsite "https://example.com" 2,
          .runPerformanceAudit (performanceInput 7 []),
          .runAxeAudit (axeInput 7 []),
          .runSecurityAudit (securityInput 7 []) ]
    ∧ (performanceInput 7 []).endpoints = []
    ∧ (axeInput 7 []).endpoints = []
    ∧ (securityInput 7 []).endpoints = [] := by
  refine ⟨rfl, ?_, rfl, rfl, rfl⟩
  decide

/-- C18. In every state of a scan whose status is "success", the results are set and their
overall score is calculateOverallScore of the four scores stored in the same results, that
is their mean rounded to the nearest integer (no integer is nearer); and it lies between 0
and 100 when the performance score, the SEO score and the accessibility scores of the pages
that the adapters report lie between 0 and 100. -/
theorem overall_score_derived (adapters : Adapters) (toLowerCase : String → String)
    (scanId : Nat) (url : String) (timestamp : Nat) (fuel : Nat) (s : ScanState)
    (hs : s ∈ run adapters toLowerCase fuel (initialState scanId url timestamp))
    (hsuccess : s.record.status = "success") :
    ∃ fr, s.record.results = some fr
      ∧ fr.overall = calculateOverallScore (some fr.performance.score) (some fr.seo.score)
          (some fr.ux.score) (some fr.security.score)
      ∧ fr.overall = mathRound (((fr.performance.score + fr.seo.score + fr.ux.score
          + fr.security.score : Int) : ℚ) / 4)
      ∧ (∀ k : Int,
          |((fr.overall : Int) : ℚ) - ((fr.performance.score + fr.seo.score + fr.ux.score
              + fr.security.score : Int) : ℚ) / 4|
            ≤ |(k : ℚ) - ((fr.performance.score + fr.seo.score + fr.ux.score
              + fr.security.score : Int) : ℚ) / 4|)
      ∧ (AdaptersInRange adapters → 0 ≤ fr.overall ∧ fr.overall ≤ 100) := by
  have hinit := consistent_initialState scanId url timestamp
  obtain ⟨_, hrun, hfin⟩ := run_consistent adapters toLowerCase fuel _ hinit s hs
  have hstage : s.stage = .finished := by
    by_contra hne
    rw [(hrun hne).1] at hsuccess
    exact absurd hsuccess (by decide)
  have hsome : s.record.results ≠ none := by
    rcases hfin hstage with ⟨_, h2, _⟩ | ⟨h1, _, _⟩ | ⟨h1, _, _⟩
    · exact h2
    · rw [h1] at hsuccess
      exact absurd hsuccess (by decide)
    · rw [h1] at hsuccess
      exact absurd hsuccess (by decide)
  obtain ⟨fr, hfr⟩ := Option.ne_none_iff_exists'.mp hsome
  have hder := run_invariant OverallDerived adapters toLowerCase
    (step_overallDerived adapters toLowerCase) fuel _ hinit
    (fun fr hfr => by simp [initialState, initialRecord] at hfr) s hs fr hfr
  refine ⟨fr, hfr, ?_, hder, ?_, ?_⟩
  · rw [calculateOverallScore_four]
    exact hder
  · intro k
    rw [hder]
    exact mathRound_nearest _ k
  · intro hadapters
    exact (run_invariant ScoresInRange adapters toLowerCase
      (step_scoresInRange adapters toLowerCase hadapters) fuel _ hinit
      ⟨trivial, fun fr hfr => by simp [initialState, initialRecord] at hfr⟩ s hs).2 fr hfr

/-- The scan served by adapters that all succeed ends with status "success" and an overall
score between 0 and 100. -/
theorem overall_score_derived_witness :
    ∃ s ∈ scanTrace stubAdapters asciiLower 1 "https://example.com" 0,
      s.record.status = "success"
      ∧ ∃ fr, s.record.results = some fr ∧ 0 ≤ fr.overall ∧ fr.overall ≤ 100 := by
  have hlast : ((scanTrace stubAdapters asciiLower 1 "https://example.com" 0).getLast?).map
      (fun t => t.record.status) = some "success" := by decide
  cases hg : (scanTrace stubAdapters asciiLower 1 "https://example.com" 0).getLast? with
  | none => simp [hg] at hlast
  | some s =>
    simp only [hg, Option.map_some', Option.some.injEq] at hlast
    have hmem : s ∈ run stubAdapters asciiLower 8 (initialState 1 "https://example.com" 0) :=
      List.mem_of_getLast?_eq_some hg
    obtain ⟨fr, hfr, _, _, _, hrange⟩ :=
      overall_score_derived stubAdapters asciiLower 1 "https://example.com" 0 8 s hmem hlast
    exact ⟨s, hmem, hlast, fr, hfr, hrange adaptersInRange_stubAdapters⟩

/-- C19 (counterexample). The crawl of this scan fails. While the call of the crawler is
pending the record shows progress 10, not 0, and the scan shows 0, 10 and then 100. -/
theorem progress_is_ten_while_crawling :
    (scanTrace crawlFailingAdapters asciiLower 1 "https://example.com" 0).map
        (fun s => (pendingCall s, s.record.progress, s.record.status))
      = [ (none, 0, "scanning"),
          (some (.crawlWebsite "https://example.com" 2), 10, "scanning"),
          (none, 100, "error") ] := by
  decide

/-- C19 (amended). The progress becomes 10 when the crawl stage starts: it is 10 in every
state in which the crawl adapter has been called and has not returned, and it is 0 only for
the record as created, before its task has run. A scan whose crawl fails shows 0, then 10,
then 100 with status "error"; when the crawl rejects with null or undefined it shows 0 and
then 10 for good. -/
theorem progress_ten_from_crawl_start (adapters : Adapters) (toLowerCase : String → String)
    (scanId : Nat) (url : String) (timestamp : Nat) (fuel : Nat) (s : ScanState)
    (hs : s ∈ run adapters toLowerCase fuel (initialState scanId url timestamp)) :
    (∀ depth, pendingCall s = some (.crawlWebsite url depth) → s.record.progress = 10)
    ∧ (s.record.progress = 0 ↔ s.stage = .created)
    ∧ (∀ message, adapters.crawlWebsite url 2 = .error (.value message) →
        (scanTrace adapters toLowerCase scanId url timestamp).map
            (fun t => (t.record.progress, t.record.status))
          = [(0, "scanning"), (10, "scanning"), (100, "error")])
    ∧ (adapters.crawlWebsite url 2 = .error .nullish →
        (scanTrace adapters toLowerCase scanId url timestamp).map
            (fun t => (t.record.progress, t.record.status))
          = [(0, "scanning"), (10, "scanning"), (10, "scanning")]) := by
  obtain ⟨hp, _, hfin⟩ := run_consistent adapters toLowerCase fuel _
    (consistent_initialState scanId url timestamp) s hs
  have h1 : step adapters toLowerCase (initialState scanId url timestamp)
      = some { record := { initialRecord scanId url timestamp with progress := 10 }
               stage := .crawling } := rfl
  have h2 : ∀ thrown, adapters.crawlWebsite url 2 = .error thrown →
      step adapters toLowerCase
        { record := { initialRecord scanId url timestamp with progress := 10 }
          stage := .crawling }
      = some (catchRejection { initialRecord scanId url timestamp with progress := 10 }
          thrown) := by
    intro thrown hfail
    simp only [step, initialRecord, hfail]
  refine ⟨?_, ?_, ?_, ?_⟩
  · intro depth hcall
    unfold pendingCall at hcall
    cases hstage : s.stage <;> rw [hstage] at hcall <;> simp at hcall
    rw [hp (by simp [hstage]), hstage]
    rfl
  · by_cases hst : s.stage = .finished
    · rcases hfin hst with ⟨_, _, _, h⟩ | ⟨_, _, h⟩ | ⟨_, _, _, h, _⟩ <;>
        simp [hst] <;> omega
    · rw [hp hst]
      cases hstage : s.stage <;> simp [stageProgress]
  · intro message hfail
    simp only [scanTrace, run, h1, h2 _ hfail,
      run_finished adapters toLowerCase _ _ (catchRejection_stage _ _)]
    cases message <;> rfl
  · intro hfail
    simp only [scanTrace, run, h1, h2 _ hfail,
      run_finished adapters toLowerCase _ _ (catchRejection_stage _ _)]
    rfl

/-- The state that awaits the crawler has progress 10, and the scan whose crawl fails with
a message shows 0, 10 and 100. -/
theorem progress_ten_from_crawl_start_witness :
    ({ record := { initialRecord 1 "https://example.com" 0 with progress := 10 }
       stage := .crawling } : ScanState)
      ∈ run crawlFailingAdapters asciiLower 8 (initialState 1 "https://example.com" 0)
    ∧ ({ record := { initialRecord 1 "https://example.com" 0 with progress := 10 }
         stage := .crawling } : ScanState).record.progress = 10
    ∧ (scanTrace crawlFailingAdapters asciiLower 1 "https://example.com" 0).map
          (fun t => (t.record.progress, t.record.status))
        = [(0, "scanning"), (10, "scanning"), (100, "error")] := by
  have h := progress_ten_from_crawl_start crawlFailingAdapters asciiLower 1
    "https://example.com" 0 8
    { record := { initialRecord 1 "https://example.com" 0 with progress := 10 }
      stage := .crawling } (by decide)
  exact ⟨by decide, h.1 2 rfl, h.2.2.1 (some "getaddrinfo ENOTFOUND") rfl⟩

/-! ## Recommendations and issues -/

/-- C20. Whenever processUxResults returns, its recommendations are the texts of groups
whose instance counts add up to the length of the issues list; there are at most as many
recommendations as issues; and the page count that a recommendation reports is at least 1 and
at most its instance count. The function returns unless a violation of a completed page has
a rule id that is a property name of Object.prototype. -/
theorem recommendations_account_for_issues (uxResults : Option UxResults) :
    (∀ r, processUxResults uxResults = .ok r →
      ∃ groups : List ViolationGroup,
        r.recommendations = groups.map recommendationText
        ∧ (groups.map (fun g => g.count)).sum = r.issues.length
        ∧ r.recommendations.length ≤ r.issues.length
        ∧ ∀ g ∈ groups, 1 ≤ g.affectedPages.length ∧ g.affectedPages.length ≤ g.count)
    ∧ ((∀ ux results, uxResults = some ux → ux.results = some results →
          ∀ v ∈ taggedViolations (pagesWithStatus "COMPLETED" results),
            v.id ∉ objectPrototypeNames) →
        ∃ r, processUxResults uxResults = .ok r) := by
  constructor
  · intro r hok
    cases uxResults with
    | none =>
      simp only [processUxResults, Except.ok.injEq] at hok
      subst hok
      exact ⟨[], rfl, rfl, le_refl _, by simp⟩
    | some ux =>
      cases hr : ux.results with
      | none =>
        simp only [processUxResults, hr, Except.ok.injEq] at hok
        subst hok
        exact ⟨[], rfl, rfl, le_refl _, by simp⟩
      | some results =>
        rw [processUxResults_eq ux results hr] at hok
        cases hg : groupViolations (taggedViolations (pagesWithStatus "COMPLETED" results)) []
          with
        | error e => simp [hg] at hok
        | ok o =>
          simp only [hg, Except.ok.injEq] at hok
          subst hok
          obtain ⟨hsum, hlen, hpages⟩ :=
            groupViolations_accounts _ [] o 0 ⟨rfl, le_refl _, by simp⟩ hg
          refine ⟨o.map (fun kv => kv.2), by simp, ?_, ?_, ?_⟩
          · simpa [List.map_map] using hsum
          · simpa using hlen
          · intro g hgm
            obtain ⟨kv, hkv, rfl⟩ := List.mem_map.mp hgm
            exact hpages kv hkv
  · intro h
    cases uxResults with
    | none => exact ⟨_, rfl⟩
    | some ux =>
      cases hr : ux.results with
      | none =>
        exact ⟨{ score := 0, issues := [], recommendations := [] },
          by simp [processUxResults, hr]⟩
      | some results => exact processUxResults_returns ux results hr (h ux results rfl hr)

/-- A rule id "constructor" makes processUxResults throw. -/
theorem processUxResults_throws_example :
    processUxResults (some
        { results := some [mkPage "https://example.com/" "COMPLETED" 90
            [mkViolation "constructor"]] })
      = .error "Cannot read properties of undefined (reading 'includes')" := by
  rfl

end SiteSense
